import Mathlib

/-!
# Verification of the swap-in/out scheduler (`src/src/nbla/lms/swap_in_out_scheduler.cpp`)

A shallow embedding of `SwapInOutScheduler`.  `size_t` values are modelled as
`Nat` reduced modulo `2 ^ 64` (the C++ arithmetic wraps), `int` counters as
`Int`, `unordered_map` as association lists (all observations made by the code
are independent of bucket order), pointers into `order` as list indices, and
`weak_ptr` handles as `Nat` identifiers with an external liveness predicate.
Vector accesses are total: an index read goes through `List.get?`, and every
site where the source may read out of bounds is logged and commented.
-/

namespace SIOS

/-- Word size of `size_t` on the target platform. -/
def wordSize : Nat := 2 ^ 64

/-- `size_t` addition (wraps modulo `2 ^ 64`). -/
def wadd (a b : Nat) : Nat := (a + b) % wordSize

/-- `size_t` subtraction (wraps modulo `2 ^ 64`). -/
def wsub (a b : Nat) : Nat := (a + (wordSize - b % wordSize)) % wordSize

/-- `size_t` multiplication (wraps modulo `2 ^ 64`). -/
def wmul (a b : Nat) : Nat := (a * b) % wordSize

/-- `RecTag`: the unified event tag (`GET`/`CAST` become `GETCAST`). -/
inductive RecTag where
  | getcast
  | clear
deriving DecidableEq, Repr

/-- `RecType`: one access record of the trace `order`.  `said` is
`synced_array_id`, `sawptr` the (weak) handle to the backing array, and
`ctxClass` stands for `ctx.array_class`. -/
structure RecType where
  tag : RecTag
  said : Nat
  sawptr : Nat
  size : Nat
  dtype : Nat
  ctxClass : Nat
  preclear : Bool
  swappedOut : Bool
  swappedOutBytes : Nat
  noNeedSwapOut : Bool
deriving DecidableEq, Repr

/-- The error kinds raised through `NBLA_ERROR` in this file
(`error_code::memory`, `error_code::type`, `error_code::target_specific_async`,
`error_code::unclassified`).  The spec's abstract names map onto them:
out-of-memory = `memory`, type = `typeErr`, target-specific async =
`targetSpecificAsync`, exhaustion and adapter misuse = `unclassified`. -/
inductive ErrKind where
  | memory
  | typeErr
  | targetSpecificAsync
  | unclassified
deriving DecidableEq, Repr

/-- Constructor state of the scheduler: host/device array classes, the byte
budget `max_bytes_swap_in = B`, and the external `sizeof_dtype` table. -/
structure Cfg where
  hostClass : Nat
  deviceClass : Nat
  maxBytesSwapIn : Nat
  sizeofDtype : Nat → Nat

/-- `max_bytes_swap_out = bytes / 2` (integer division, as in the source). -/
def Cfg.maxBytesSwapOut (c : Cfg) : Nat := c.maxBytesSwapIn / 2

/-! ## Association-list maps (the `unordered_map`s of the source) -/

/-- Lookup in an association list keyed by `Nat`. -/
def alookup {α : Type _} (l : List (Nat × α)) (k : Nat) : Option α :=
  (l.find? (fun p => p.1 == k)).map (fun p => p.2)

/-- Insert or overwrite a key. -/
def aset {α : Type _} (l : List (Nat × α)) (k : Nat) (v : α) : List (Nat × α) :=
  if l.any (fun p => p.1 == k) then l.map (fun p => if p.1 == k then (k, v) else p)
  else l ++ [(k, v)]

/-- A boolean-valued `unordered_map` is observationally a set of the keys
mapped to `true`; inserting `true` adds the key. -/
def setInsert (l : List Nat) (x : Nat) : List Nat :=
  if l.contains x then l else l ++ [x]

/-- Setting a boolean map entry to `false` removes the key from the set. -/
def setRemove (l : List Nat) (x : Nat) : List Nat :=
  l.filter (fun y => ! (y == x))

/-- Inner map of `SyncedArrayCountsInQueue`: dtype → count.  Entries with
count `0` stay present, exactly as `operator[]`-created entries do; the
byte-transfer loops of `schedule_swap_out` iterate over them. -/
abbrev Inner := List (Nat × Int)

/-- `SyncedArrayCountsInQueue`: synced-array id → (dtype → count). -/
abbrev Counts := List (Nat × Inner)

/-- Read `inner[d]` (absent = default `0`). -/
def innerGet (m : Inner) (d : Nat) : Int := (alookup m d).getD 0

/-- Read `counts[id]` (absent = default empty map). -/
def countsGet (m : Counts) (id : Nat) : Inner := (alookup m id).getD []

/-- `accumulate_counts`: sum of the inner map's values. -/
def accumulate_counts (m : Inner) : Int := m.foldl (fun a p => a + p.2) 0

/-- `counts[id][d] += dv` with `operator[]` insertion semantics. -/
def countsBump (m : Counts) (id d : Nat) (dv : Int) : Counts :=
  let inn := countsGet m id
  aset m id (aset inn d (innerGet inn d + dv))

/-- Update the record at index `i` of the trace (a pointer write). -/
def updRec : List RecType → Nat → (RecType → RecType) → List RecType
  | [], _, _ => []
  | r :: rest, 0, f => f r :: rest
  | r :: rest, n + 1, f => r :: updRec rest n f

/-! ## `schedule_preclear` -/

/-- Helper for the reverse pass of `schedule_preclear`: processes the list
from the right, returning the rewritten records together with the
`clear_flag` state (as the set of ids flagged `true`) seen at the left end. -/
def preclearGo : List RecType → List RecType × List Nat
  | [] => ([], [])
  | r :: rest =>
    let p := preclearGo rest
    if r.tag = RecTag.clear then (r :: p.1, setInsert p.2 r.said)
    else ({ r with preclear := p.2.contains r.said } :: p.1, setRemove p.2 r.said)

/-- `SwapInOutScheduler::schedule_preclear`: reverse pass that marks a
get/cast whose next same-id event is a clear. -/
def schedule_preclear (l : List RecType) : List RecType := (preclearGo l).1

/-! ## Planner state -/

/-- Snapshot phases of the planner loop: after `schedule_swap_in`, after
`schedule_swap_out`, after `schedule_wait_for_swap_out`, and after the final
`schedule_wait_for_all_swap_out`. -/
inductive Phase where
  | afterIn
  | afterOut
  | afterWait
  | afterWaitAll
deriving DecidableEq, Repr

/-- Accounting snapshot taken at a planner phase boundary. -/
structure Snap where
  phase : Phase
  fid : Nat
  usedIn : Nat
  usedOut : Nat
deriving DecidableEq, Repr

/-- Planner state: the fields of `SwapInOutScheduler` used by `schedule()`
plus instrumentation (`snaps`, `headsAfterIn`, `obLog`).  `soFlag` is the
`swapped_out` map as a set of ids, `soR` the `swapped_out_r` pointer map as
indices into `ord`. -/
structure PSt where
  ord : List RecType
  head : Nat
  tail : Nat
  usedIn : Nat
  usedOut : Nat
  counts : Counts
  soFlag : List Nat
  soR : List (Nat × Nat)
  schedIn : List (Nat × List Nat)
  schedOut : List (Nat × List Nat)
  schedWait : List (Nat × List Nat)
  snaps : List Snap
  headsAfterIn : List Nat
  obLog : List (Option Nat)
  err : Option ErrKind
deriving Repr

/-- Read one of the three schedules at a function index (`unordered_map`
semantics: a missing key denotes the empty schedule). -/
def schedAt (l : List (Nat × List Nat)) (f : Nat) : List Nat := (alookup l f).getD []

/-- Signed vector indexing, used to expose the raw `func_block_ends[...]`
reads whose index expression is of signed/underflowing type. -/
def vecGetI (l : List Nat) (i : Int) : Option Nat :=
  if i < 0 then none else l.get? i.toNat

/-! ## `schedule_swap_in` -/

/-- Loop body of `SwapInOutScheduler::schedule_swap_in`.  `pins` is the local
map `host_uses_this_synced_array` (as the set of pinned ids), `acc` the
schedule built so far (indices into `ord`).  Fuel only bounds the recursion;
`fuel = ord.length + 1 - head` is always sufficient. -/
def swap_in_body (cfg : Cfg) : Nat → PSt → List Nat → List Nat → PSt × List Nat
  | 0, s, _, acc => (s, acc)
  | fuel + 1, s, pins, acc =>
    match s.ord.get? s.head with
    | none => (s, acc)
    | some r =>
      if r.tag = RecTag.clear then
        swap_in_body cfg fuel { s with head := s.head + 1 } pins acc
      else if r.ctxClass = cfg.deviceClass then
        let nextBytes := wmul r.size (cfg.sizeofDtype r.dtype)
        if wadd s.usedIn nextBytes > cfg.maxBytesSwapIn - cfg.maxBytesSwapOut then
          (s, acc)
        else
          let fetch := innerGet (countsGet s.counts r.said) r.dtype = 0
          let pinned := pins.contains r.said
          let acc1 := if fetch ∧ ¬ pinned then acc ++ [s.head] else acc
          let s1 :=
            if fetch ∧ ¬ pinned ∧ s.soFlag.contains r.said then
              match alookup s.soR r.said with
              | some j =>
                { s with
                  ord := updRec s.ord j (fun q => { q with noNeedSwapOut := true }),
                  soFlag := setRemove s.soFlag r.said }
              | none => s
            else s
          let s2 := if fetch then { s1 with usedIn := wadd s1.usedIn nextBytes } else s1
          swap_in_body cfg fuel
            { s2 with counts := countsBump s2.counts r.said r.dtype 1, head := s2.head + 1 }
            pins acc1
      else if r.ctxClass = cfg.hostClass then
        swap_in_body cfg fuel { s with head := s.head + 1 } (setInsert pins r.said) acc
      else
        ({ s with err := some ErrKind.typeErr }, acc)

/-- `SwapInOutScheduler::schedule_swap_in`: starts from an empty local
`host_uses_this_synced_array` map and an empty schedule. -/
def schedule_swap_in (cfg : Cfg) (s : PSt) : PSt × List Nat :=
  swap_in_body cfg (s.ord.length + 1 - s.head) s [] []

/-! ## `schedule_swap_out` -/

/-- Loop body of `SwapInOutScheduler::schedule_swap_out`, scanning indices
`[i, stop)` of the previous function's block. -/
def swap_out_body (cfg : Cfg) : Nat → Nat → Nat → PSt → List Nat → PSt × List Nat
  | 0, _, _, s, acc => (s, acc)
  | fuel + 1, i, stop, s, acc =>
    if i ≥ stop then (s, acc) else
    match s.ord.get? i with
    | none => (s, acc)
    | some r =>
      if r.tag = RecTag.clear then swap_out_body cfg fuel (i + 1) stop s acc
      else if r.ctxClass = cfg.deviceClass then
        let inn := countsGet s.counts r.said
        let hit := accumulate_counts inn = 1
        let acc1 := if hit then acc ++ [i] else acc
        let s1 :=
          if hit ∧ ¬ r.preclear then
            let sob := inn.foldl (fun a p => wadd a (wmul r.size (cfg.sizeofDtype p.1))) 0
            { s with
              ord := updRec s.ord i (fun q => { q with swappedOut := true, swappedOutBytes := sob }),
              usedOut := inn.foldl (fun a p => wadd a (wmul r.size (cfg.sizeofDtype p.1))) s.usedOut,
              soFlag := setInsert s.soFlag r.said,
              soR := aset s.soR r.said i }
          else s
        let s2 :=
          if hit then
            { s1 with usedIn := inn.foldl (fun a p => wsub a (wmul r.size (cfg.sizeofDtype p.1))) s1.usedIn }
          else s1
        swap_out_body cfg fuel (i + 1) stop
          { s2 with counts := countsBump s2.counts r.said r.dtype (-1) } acc1
      else if r.ctxClass = cfg.hostClass then
        swap_out_body cfg fuel (i + 1) stop s acc
      else
        ({ s with err := some ErrKind.typeErr }, acc)

/-- Modelled from the spec: the source computes the first scanned index of
`schedule_swap_out` as `func_block_ends[fid - 1]`, which for `fid = 0` is an
out-of-bounds vector read (the declaration of `func_block_ends` lives in a
header outside `src/`; the read itself is analysed separately, see the C4
material).  The spec fixes the block convention — "records in
`[func_block_ends[f-1], func_block_ends[f])` are those that occurred during
f. `func_block_ends[0]` marks the first function's end" — i.e. block `0`
starts at index `0`. -/
def blockStart (ends : List Nat) (fid : Nat) : Nat :=
  if fid = 0 then 0 else (ends.get? (fid - 1)).getD 0

/-! ## `schedule_wait_for_swap_out` / `schedule_wait_for_all_swap_out` -/

/-- Loop shared by `schedule_wait_for_swap_out` (`all = false`, guard
`used_bytes_swap_out > max_bytes_swap_out`) and
`schedule_wait_for_all_swap_out` (`all = true`, guard `tail < order.size()`),
both iterating `schedule_wait_for_swap_out_impl`.  The `all = false` source
loop has no bounds guard on `tail`; reading past the end is unreachable in
planner runs (the drained bytes always exist at indices `≥ tail`), and the
embedding exits there. -/
def wait_body (cfg : Cfg) (all : Bool) : Nat → PSt → List Nat → PSt × List Nat
  | 0, s, acc => (s, acc)
  | fuel + 1, s, acc =>
    let go : Bool :=
      decide (s.tail < s.ord.length) && (all || decide (s.usedOut > cfg.maxBytesSwapOut))
    if go then
      match s.ord.get? s.tail with
      | none => (s, acc)
      | some r =>
        if r.swappedOut then
          wait_body cfg all fuel
            { s with
              ord := updRec s.ord s.tail
                (fun q => { q with swappedOut := false, swappedOutBytes := 0 }),
              usedOut := wsub s.usedOut r.swappedOutBytes,
              soFlag := setRemove s.soFlag r.said,
              tail := s.tail + 1 }
            (acc ++ [s.tail])
        else wait_body cfg all fuel { s with tail := s.tail + 1 } acc
    else (s, acc)

/-! ## `schedule` -/

/-- `SwapInOutScheduler::schedule_swap_out` (wrapper): scan the previous
function's block `[blockStart, func_block_ends[fid])`. -/
def schedule_swap_out (cfg : Cfg) (ends : List Nat) (fid : Nat) (s : PSt) : PSt × List Nat :=
  swap_out_body cfg (s.ord.length + 1) (blockStart ends fid) ((ends.get? fid).getD 0) s []

/-- `SwapInOutScheduler::schedule_wait_for_swap_out` (wrapper). -/
def schedule_wait_for_swap_out (cfg : Cfg) (s : PSt) : PSt × List Nat :=
  wait_body cfg false (s.ord.length + 1) s []

/-- `SwapInOutScheduler::schedule_wait_for_all_swap_out` (wrapper). -/
def schedule_wait_for_all_swap_out (cfg : Cfg) (s : PSt) : PSt × List Nat :=
  wait_body cfg true (s.ord.length + 1) s []

/-- Store `swap_in_schedule[fid]` and take the after-swap-in snapshot and
frontier log. -/
def logAfterIn (fid : Nat) (p : PSt × List Nat) : PSt :=
  { p.1 with
    schedIn := aset p.1.schedIn fid p.2,
    snaps := p.1.snaps ++ [Snap.mk Phase.afterIn fid p.1.usedIn p.1.usedOut],
    headsAfterIn := p.1.headsAfterIn ++ [p.1.head] }

/-- Store `swap_out_schedule[fid]` and take the after-swap-out snapshot. -/
def logAfterOut (fid : Nat) (p : PSt × List Nat) : PSt :=
  { p.1 with
    schedOut := aset p.1.schedOut fid p.2,
    snaps := p.1.snaps ++ [Snap.mk Phase.afterOut fid p.1.usedIn p.1.usedOut] }

/-- Store `wait_schedule[fid]` and take the after-wait snapshot. -/
def logAfterWait (fid : Nat) (p : PSt × List Nat) : PSt :=
  { p.1 with
    schedWait := aset p.1.schedWait fid p.2,
    snaps := p.1.snaps ++ [Snap.mk Phase.afterWait fid p.1.usedIn p.1.usedOut] }

/-- Log the raw block-start read `func_block_ends[fid - 1]` of
`schedule_swap_out` (out of bounds for `fid = 0`). -/
def logBlockStartRead (ends : List Nat) (fid : Nat) (s : PSt) : PSt :=
  { s with obLog := s.obLog ++ [vecGetI ends ((fid : Int) - 1)] }

/-- One iteration of the planner's per-function loop (`fid`-th body of the
`for` loop in `SwapInOutScheduler::schedule`), with phase snapshots.  Errors
are sticky: once `err` is set, later phases do not run (the C++ exception
unwinds out of `schedule`). -/
def planStep (cfg : Cfg) (ends : List Nat) (fid : Nat) (s : PSt) : PSt :=
  if s.err.isSome then s else
  let p1 := schedule_swap_in cfg s
  if p1.1.err.isSome then p1.1 else
  let s1 := logAfterIn fid p1
  if s1.head < (ends.get? fid).getD 0 then { s1 with err := some ErrKind.memory } else
  let s1b := logBlockStartRead ends fid s1
  let p2 := schedule_swap_out cfg ends fid s1b
  if p2.1.err.isSome then p2.1 else
  let s2 := logAfterOut fid p2
  logAfterWait fid (schedule_wait_for_swap_out cfg s2)

/-- Initial planner state over a recorded trace (the members `tail` and
`used_bytes_swap_out` were reset by the `init()` call preceding
`schedule()`). -/
def planInit (order : List RecType) : PSt :=
  { ord := schedule_preclear order, head := 0, tail := 0, usedIn := 0, usedOut := 0,
    counts := [], soFlag := [], soR := [], schedIn := [], schedOut := [], schedWait := [],
    snaps := [], headsAfterIn := [], obLog := [], err := none }

/-- `SwapInOutScheduler::schedule`: preclear pass, the per-function loop over
`fid < last_function = func_block_ends.size() - 1` (the last block is never
scheduled), then the overwrite of `wait_schedule[last_function - 1]` with the
full drain. -/
def schedulePlan (cfg : Cfg) (order : List RecType) (ends : List Nat) : PSt :=
  let last := ends.length - 1
  let s1 := (List.range last).foldl (fun s fid => planStep cfg ends fid s) (planInit order)
  if s1.err.isSome then s1 else
  let p := schedule_wait_for_all_swap_out cfg s1
  { p.1 with
    schedWait := aset p.1.schedWait (last - 1) p.2,
    snaps := p.1.snaps ++ [Snap.mk Phase.afterWaitAll (last - 1) p.1.usedIn p.1.usedOut] }

/-! ## The runtime system: recorder, tracer, executor

The executor interacts with external `SyncedArray` objects only through the
capability set `cast/get/clear/dtype/size/get_num_arrays/head_array_class`;
these externals are modelled as fixed functions of the handle. -/

/-- Raw callback kinds (`SyncedArrayCallbackTag`). -/
inductive CbTag where
  | get
  | cast
  | clearCb
deriving DecidableEq, Repr

/-- `SwapInOutScheduler::get_tag` (the `write_only` argument is unused by the
source's conversion). -/
def get_tag (k : CbTag) : RecTag :=
  match k with
  | CbTag.get => RecTag.getcast
  | CbTag.cast => RecTag.getcast
  | CbTag.clearCb => RecTag.clear

/-- One live access event delivered to the installed callback. -/
structure Event where
  saptr : Nat
  kind : CbTag
  dtype : Nat
  ctxClass : Nat
  writeOnly : Bool
deriving DecidableEq, Repr

/-- External array-store state, fixed for a run: weak-pointer liveness and the
residency introspection results. -/
structure Ext where
  alive : Nat → Bool
  numArrays : Nat → Nat
  headClass : Nat → Nat
  extSize : Nat → Nat
  extDtype : Nat → Nat

/-- Actions the executor issues against the external store. -/
inductive ExecAct where
  | castHost (h : Nat) (d : Nat)
  | clearArr (h : Nat)
  | getHost (h : Nat) (d : Nat)
  | getDev (h : Nat) (d : Nat)
deriving DecidableEq, Repr

/-- Runtime scheduler state (the remaining members of `SwapInOutScheduler`).
`recorderActive` tells which callback `synced_array_callback` currently
holds; `mapper` is `synced_array_id_mapper`, `idToIdx` is
`synced_array_id_to_order_idx`, `precleared` the set of precleared handles.
`obLog` records every raw `func_block_ends[...]` read performed at the sites
where the index may be out of bounds (`none` = out-of-bounds read). -/
structure Sys where
  ord : List RecType
  ends : List Nat
  funcIdx : Nat
  orderIdx : Nat
  tail : Nat
  usedOut : Nat
  firstIter : Bool
  iterCount : Nat
  recorderActive : Bool
  mapper : List (Nat × Nat)
  idToIdx : List (Nat × List Nat)
  precleared : List Nat
  wrongOrdered : List RecType
  schedIn : List (Nat × List Nat)
  schedOut : List (Nat × List Nat)
  schedWait : List (Nat × List Nat)
  obLog : List (Option Nat)
  err : Option ErrKind
deriving Repr

/-- The state of a freshly constructed scheduler. -/
def sys0 : Sys :=
  { ord := [], ends := [], funcIdx := 0, orderIdx := 0, tail := 0, usedOut := 0,
    firstIter := true, iterCount := 0, recorderActive := true, mapper := [], idToIdx := [],
    precleared := [], wrongOrdered := [], schedIn := [], schedOut := [], schedWait := [],
    obLog := [], err := none }

/-- Append a position to `synced_array_id_to_order_idx[id]`. -/
def idxAppend (m : List (Nat × List Nat)) (id pos : Nat) : List (Nat × List Nat) :=
  aset m id ((alookup m id).getD [] ++ [pos])

/-- Numeric bound of the recorder's fail-fast check:
`std::numeric_limits<unsigned int>::max()`. -/
def uintMax : Nat := 2 ^ 32 - 1

/-- `SwapInOutScheduler::synced_array_callback_recorder`. -/
def synced_array_callback_recorder (ext : Ext) (s : Sys) (e : Event) : Sys :=
  if s.funcIdx = 0 then s else
  let tag := get_tag e.kind
  if s.mapper.length > uintMax then { s with err := some ErrKind.unclassified } else
  let idAndMap : Nat × List (Nat × Nat) :=
    match alookup s.mapper e.saptr with
    | some id => (id, s.mapper)
    | none => (s.mapper.length, s.mapper ++ [(e.saptr, s.mapper.length)])
  { s with
    mapper := idAndMap.2,
    ord := s.ord ++
      [⟨tag, idAndMap.1, e.saptr, ext.extSize e.saptr, e.dtype, e.ctxClass, false, false, 0, false⟩],
    idToIdx := idxAppend s.idToIdx idAndMap.1 s.orderIdx,
    orderIdx := s.orderIdx + 1 }

/-- Rewrite `order[j].sawptr` to `h` for every `j` in the per-id index list
(the identity-substitution fix-up of the tracer). -/
def rewriteAll (ord : List RecType) (idxs : List Nat) (h : Nat) : List RecType :=
  idxs.foldl (fun o j => updRec o j (fun q => { q with sawptr := h })) ord

/-- `SwapInOutScheduler::synced_array_callback_tracer`.  The comparison bound
`func_block_ends[func_idx]` and the read `order[order_idx]` can both be out
of bounds in the source; the embedding reads them through `get?` and treats a
missing record as the mismatch (wrong-ordered) case. -/
def tracer_compare (ext : Ext) (t : Sys) (e : Event) (tag : RecTag) : Sys :=
  let fbe := (t.ends.get? t.funcIdx).getD 0
  match t.ord.get? t.orderIdx with
  | none =>
    { t with
      wrongOrdered := t.wrongOrdered ++
        [⟨tag, 0, e.saptr, ext.extSize e.saptr, e.dtype, e.ctxClass, false, false, 0, false⟩],
      orderIdx := t.orderIdx + 1 }
  | some rec =>
    let recSaptr : Option Nat := if ext.alive rec.sawptr then some rec.sawptr else none
    if t.orderIdx < fbe ∧ tag = rec.tag ∧ some e.saptr ≠ recSaptr ∧
        e.dtype = rec.dtype ∧ e.ctxClass = rec.ctxClass then
      { t with
        ord := rewriteAll t.ord ((alookup t.idToIdx rec.said).getD []) e.saptr,
        orderIdx := t.orderIdx + 1 }
    else if t.orderIdx ≥ fbe ∨ tag ≠ rec.tag ∨ some e.saptr ≠ recSaptr ∨
        e.dtype ≠ rec.dtype ∨ e.ctxClass ≠ rec.ctxClass then
      { t with
        wrongOrdered := t.wrongOrdered ++
          [⟨tag, 0, e.saptr, ext.extSize e.saptr, e.dtype, e.ctxClass, false, false, 0, false⟩],
        orderIdx := t.orderIdx + 1 }
    else { t with orderIdx := t.orderIdx + 1 }

def synced_array_callback_tracer (ext : Ext) (s : Sys) (e : Event) : Sys :=
  if s.funcIdx = 0 then s else
  let tag := get_tag e.kind
  if s.precleared.contains e.saptr ∧ tag ≠ RecTag.clear then
    { s with err := some ErrKind.targetSpecificAsync }
  else
  tracer_compare ext
    (if s.precleared.contains e.saptr then
      { s with precleared := setRemove s.precleared e.saptr } else s) e tag

/-- Dispatch of `synced_array_callback` (errors, i.e. thrown exceptions, are
sticky and abort the iteration). -/
def applyCb (ext : Ext) (s : Sys) (e : Event) : Sys :=
  if s.err.isSome then s else
  if s.recorderActive then synced_array_callback_recorder ext s e
  else synced_array_callback_tracer ext s e

/-! ### Executor steps -/

/-- Per-record emission of `swap_out_scheduled`: the actions issued for one
entry of `swap_out_schedule[func_idx - 1]`, plus the handle added to the
`precleared` set, if any. -/
def swap_out_scheduled_emit (ext : Ext) (r : RecType) : List ExecAct × List Nat :=
  if ext.alive r.sawptr then
    if r.preclear then ([ExecAct.clearArr r.sawptr], [r.sawptr])
    else if ¬ r.noNeedSwapOut then ([ExecAct.castHost r.sawptr (ext.extDtype r.sawptr)], [])
    else ([], [])
  else ([], [])

/-- Per-record emission of `wait_for_swap_out_scheduled`: the synchronous
`get(host)` barrier issued for one entry of `wait_schedule[func_idx - 1]`. -/
def wait_for_swap_out_scheduled_emit (cfg : Cfg) (ext : Ext) (r : RecType) : List ExecAct :=
  if r.noNeedSwapOut then [] else
  if ext.alive r.sawptr ∧ ext.headClass r.sawptr = cfg.hostClass ∧
      ext.numArrays r.sawptr > 0 then
    [ExecAct.getHost r.sawptr (ext.extDtype r.sawptr)]
  else []

/-- `SwapInOutScheduler::swap_out_scheduled` over a whole schedule (also
returns the actions for inspection). -/
def swap_out_scheduled_run (ext : Ext) (ord : List RecType) (sched : List Nat) :
    List ExecAct × List Nat :=
  sched.foldl
    (fun acc i =>
      match ord.get? i with
      | some r =>
        let e := swap_out_scheduled_emit ext r
        (acc.1 ++ e.1, e.2.foldl setInsert acc.2)
      | none => acc)
    ([], [])

/-- `SwapInOutScheduler::wait_for_swap_out_scheduled` over a whole schedule. -/
def wait_for_swap_out_scheduled_run (cfg : Cfg) (ext : Ext) (ord : List RecType)
    (sched : List Nat) : List ExecAct :=
  sched.foldl
    (fun acc i =>
      match ord.get? i with
      | some r => acc ++ wait_for_swap_out_scheduled_emit cfg ext r
      | none => acc)
    []

/-- `SwapInOutScheduler::swap_out_first_iter` body for one record index. -/
def swap_out_first_iter_rec (cfg : Cfg) (ext : Ext) (s : Sys) (i : Nat) : Sys :=
  match s.ord.get? i with
  | none => s
  | some r =>
    if r.tag = RecTag.clear then s
    else if r.ctxClass = cfg.deviceClass then
      if ext.alive r.sawptr ∧ ext.numArrays r.sawptr > 0 then
        let bytes := wmul (ext.extSize r.sawptr) (cfg.sizeofDtype (ext.extDtype r.sawptr))
        { s with
          usedOut := wadd s.usedOut bytes,
          ord := updRec s.ord i (fun q => { q with swappedOut := true, swappedOutBytes := bytes }) }
      else s
    else if r.ctxClass = cfg.hostClass then s
    else { s with err := some ErrKind.typeErr }

/-- The loop of `swap_out_first_iter` over `[i, stop)`. -/
def swap_out_first_iter_loop (cfg : Cfg) (ext : Ext) : Nat → Nat → Nat → Sys → Sys
  | 0, _, _, s => s
  | fuel + 1, i, stop, s =>
    if i ≥ stop then s else
    if s.err.isSome then s else
    swap_out_first_iter_loop cfg ext fuel (i + 1) stop (swap_out_first_iter_rec cfg ext s i)

/-- `SwapInOutScheduler::swap_out_first_iter`.  The loop bounds are the raw
reads `func_block_ends[func_idx - 1]` and `func_block_ends[func_idx]`; the
latter is out of bounds on every first-iteration call (logged in `obLog`); a
missing bound is modelled as an empty loop. -/
def swap_out_first_iter (cfg : Cfg) (ext : Ext) (s : Sys) : Sys :=
  let a := s.ends.get? (s.funcIdx - 1)
  let b := s.ends.get? s.funcIdx
  let s := { s with obLog := s.obLog ++ [a, b] }
  swap_out_first_iter_loop cfg ext (s.ord.length + 1) (a.getD 0) (b.getD 0) s

/-- `SwapInOutScheduler::wait_for_swap_out_first_iter_impl`: pop `order[tail]`
and, if its eviction is in flight, account its completion (the external
`get(host)` it issues does not change scheduler state). -/
def wait_first_impl (s : Sys) : Sys :=
  match s.ord.get? s.tail with
  | none => { s with tail := s.tail + 1 }
  | some r =>
    if r.tag = RecTag.clear then { s with tail := s.tail + 1 }
    else if r.swappedOut then
      { s with
        tail := s.tail + 1,
        ord := updRec s.ord s.tail (fun q => { q with swappedOut := false, swappedOutBytes := 0 }),
        usedOut := wsub s.usedOut r.swappedOutBytes }
    else { s with tail := s.tail + 1 }

/-- `wait_for_swap_out_first_iter`: drain while `used_bytes_swap_out`
exceeds `max_bytes_swap_out` (the source has no bounds guard on `tail`; the
embedding stops at the end of the trace). -/
def wait_for_swap_out_first_iter (cfg : Cfg) : Nat → Sys → Sys
  | 0, s => s
  | fuel + 1, s =>
    if s.usedOut > cfg.maxBytesSwapOut ∧ s.tail < s.ord.length then
      wait_for_swap_out_first_iter cfg fuel (wait_first_impl s)
    else s

/-- `wait_for_all_swap_out`: drain the whole queue. -/
def wait_for_all_swap_out (cfg : Cfg) : Nat → Sys → Sys
  | 0, s => s
  | fuel + 1, s =>
    if s.tail < s.ord.length then wait_for_all_swap_out cfg fuel (wait_first_impl s)
    else s

/-- `SwapInOutScheduler::swap_out_wrong_order` (state change: only the type
error on an uncertain array class; the synchronous casts go to the external
store). -/
def swap_out_wrong_order (cfg : Cfg) (s : Sys) : Sys :=
  if s.wrongOrdered.any (fun r =>
      r.tag != RecTag.clear && r.ctxClass != cfg.deviceClass && r.ctxClass != cfg.hostClass) then
    { s with err := some ErrKind.typeErr }
  else s

/-- `SwapInOutScheduler::swap_out_step`.  In the first iteration it pushes
`order_idx` onto `func_block_ends` first.  The clamp at the end reads
`func_block_ends[func_idx]`, which is out of bounds both on every
first-iteration call and on the `finalize` call of later iterations (logged);
a missing bound is modelled as no clamp.  The clamped `order_idx` is dead
until the next `init()` except for the tracer comparisons of the next block.
`swap_out_clamp` is the tail of `swap_out_step`: the logged read of
`func_block_ends[func_idx]` and the forward clamp of `order_idx`. -/
def swap_out_clamp (s : Sys) : Sys :=
  let c := s.ends.get? s.funcIdx
  let s1 : Sys := { s with obLog := s.obLog ++ [c] }
  match c with
  | some cv => if s1.orderIdx < cv then { s1 with orderIdx := cv } else s1
  | none => s1

def swap_out_step (cfg : Cfg) (ext : Ext) (s : Sys) : Sys :=
  let s1 := if s.firstIter then { s with ends := s.ends ++ [s.orderIdx] } else s
  let s2 :=
    if s1.firstIter then
      wait_for_swap_out_first_iter cfg (s1.ord.length + 1) (swap_out_first_iter cfg ext s1)
    else
      -- swap_out_scheduled and wait_for_swap_out_scheduled: the only
      -- scheduler-state effect is the `precleared` bookkeeping.
      { s1 with
        precleared :=
          (swap_out_scheduled_run ext s1.ord (schedAt s1.schedOut (s1.funcIdx - 1))).2.foldl
            setInsert s1.precleared }
  swap_out_clamp s2

/-- `SwapInOutScheduler::pre_callback` (the callback unset/set around it has
no effect on the recorded state). -/
def pre_callback (cfg : Cfg) (ext : Ext) (s : Sys) : Sys :=
  if s.err.isSome then s else
  let s := if s.funcIdx > 0 then swap_out_step cfg ext s else s
  if s.err.isSome then s else
  { s with funcIdx := s.funcIdx + 1 }

/-- `SwapInOutScheduler::init`. -/
def sysInit (s : Sys) : Sys :=
  { s with tail := 0, usedOut := 0, orderIdx := 0, funcIdx := 0,
           wrongOrdered := [], precleared := [], mapper := [] }

/-- `SwapInOutScheduler::finalize`: final `swap_out_step`, wrong-order drain,
full wait, then (first iteration only) `init()` + `schedule()`, and finally
the switch of the callback from recorder to tracer. -/
def finalize (cfg : Cfg) (ext : Ext) (s : Sys) : Sys :=
  if s.err.isSome then s else
  let s := if s.funcIdx > 0 then swap_out_step cfg ext s else s
  if s.err.isSome then s else
  let s := swap_out_wrong_order cfg s
  if s.err.isSome then s else
  let s := wait_for_all_swap_out cfg (s.ord.length + 1) s
  if s.firstIter then
    let s := sysInit s
    let p := schedulePlan cfg s.ord s.ends
    let s := { s with
      ord := p.ord, tail := p.tail, usedOut := p.usedOut,
      schedIn := p.schedIn, schedOut := p.schedOut, schedWait := p.schedWait,
      obLog := s.obLog ++ p.obLog, err := p.err }
    if s.err.isSome then s else
    { s with recorderActive := false, firstIter := false, iterCount := s.iterCount + 1 }
  else
    { s with recorderActive := false, firstIter := false, iterCount := s.iterCount + 1 }

/-- `SwapInOutScheduler::reset`: `init()`, clear the trace, reinstall the
recorder callback.  Note that neither `first_iter` nor `func_block_ends` nor
the three schedules are restored. -/
def reset (s : Sys) : Sys :=
  { sysInit s with ord := [], recorderActive := true }

/-- One function block: the pre-function (or pre-update) hook followed by the
block's access events. -/
def runBlock (cfg : Cfg) (ext : Ext) (s : Sys) (es : List Event) : Sys :=
  es.foldl (applyCb ext) (pre_callback cfg ext s)

/-- One full training iteration: `start_scheduling()` (= `init` + callback
installation), the function blocks, then `end_scheduling()` (= callback
removal + `finalize`). -/
def runIteration (cfg : Cfg) (ext : Ext) (s : Sys) (stream : List (List Event)) : Sys :=
  finalize cfg ext (stream.foldl (runBlock cfg ext) (sysInit s))

/-! ## Trace-level notions used by the theorems -/

/-- The tag of the first record after the current position that carries the
given `synced_array_id` (the "next event on this ID"); `none` when the id
never occurs again. -/
def nextSameIdTag (l : List RecType) (id : Nat) : Option RecTag :=
  (l.find? (fun r => r.said == id)).map (fun r => r.tag)

/-! ## Lemmas about `schedule_preclear` -/

theorem contains_setInsert (l : List Nat) (x y : Nat) :
    (setInsert l x).contains y = (y == x || l.contains y) := by
  simp only [setInsert]
  by_cases h : l.contains x
  · rw [if_pos h, Bool.eq_iff_iff]
    have hx : x ∈ l := by simpa [List.elem_iff] using h
    simp only [List.elem_iff, Bool.or_eq_true, beq_iff_eq]
    constructor
    · intro hy
      exact Or.inr hy
    · rintro (rfl | hy)
      · exact hx
      · exact hy
  · rw [if_neg h, Bool.eq_iff_iff]
    simp [List.elem_iff, or_comm]

theorem contains_setRemove (l : List Nat) (x y : Nat) :
    (setRemove l x).contains y = (! (y == x) && l.contains y) := by
  simp only [setRemove]
  rw [Bool.eq_iff_iff]
  simp [List.elem_iff, List.mem_filter, and_comm]

/-- The `clear_flag` state reached at the left end of the reverse pass: an id
is flagged exactly when the first event on it in the remaining suffix is a
CLEAR. -/
theorem preclearGo_flags (l : List RecType) (id : Nat) :
    (preclearGo l).2.contains id = decide (nextSameIdTag l id = some RecTag.clear) := by
  induction l with
  | nil => simp [preclearGo, nextSameIdTag]
  | cons r rest ih =>
    by_cases hc : r.tag = RecTag.clear
    · rw [show (preclearGo (r :: rest)).2 = setInsert (preclearGo rest).2 r.said by
        simp [preclearGo, hc]]
      rw [contains_setInsert]
      by_cases hid : id = r.said
      · subst hid
        have hfind : nextSameIdTag (r :: rest) r.said = some r.tag := by
          simp [nextSameIdTag, List.find?_cons_of_pos]
        rw [hfind]
        simp [hc]
      · have hfind : nextSameIdTag (r :: rest) id = nextSameIdTag rest id := by
          have : (r.said == id) = false := by simp [Ne.symm hid]
          simp [nextSameIdTag, List.find?_cons_of_neg, this]
        have hne : (id == r.said) = false := by simp [hid]
        rw [hfind, ← ih, hne]
        simp
    · rw [show (preclearGo (r :: rest)).2 = setRemove (preclearGo rest).2 r.said by
        simp [preclearGo, hc]]
      rw [contains_setRemove]
      by_cases hid : id = r.said
      · subst hid
        have hfind : nextSameIdTag (r :: rest) r.said = some r.tag := by
          simp [nextSameIdTag, List.find?_cons_of_pos]
        rw [hfind]
        simp [hc]
      · have hfind : nextSameIdTag (r :: rest) id = nextSameIdTag rest id := by
          have : (r.said == id) = false := by simp [Ne.symm hid]
          simp [nextSameIdTag, List.find?_cons_of_neg, this]
        have hne : (id == r.said) = false := by simp [hid]
        rw [hfind, ← ih, hne]
        simp

/-- Structural description of `schedule_preclear`: a GETCAST record gets
`preclear` set exactly when the next same-id event is a CLEAR; a CLEAR record
passes through unchanged. -/
theorem schedule_preclear_get (l : List RecType) (i : Nat) :
    (schedule_preclear l).get? i = (l.get? i).map (fun r => if r.tag = RecTag.clear then r else { r with preclear := decide (nextSameIdTag (l.drop (i + 1)) r.said = some RecTag.clear) }) := by
  induction l generalizing i with
  | nil => simp [schedule_preclear, preclearGo]
  | cons r rest ih =>
    by_cases hc : r.tag = RecTag.clear
    · have hsh : schedule_preclear (r :: rest) = r :: schedule_preclear rest := by
        simp [schedule_preclear, preclearGo, hc]
      match i with
      | 0 => rw [hsh]; simp [hc]
      | n + 1 =>
        rw [hsh]
        simpa using ih n
    · have hsh : schedule_preclear (r :: rest)
          = { r with preclear := (preclearGo rest).2.contains r.said } :: schedule_preclear rest := by
        simp [schedule_preclear, preclearGo, hc]
      match i with
      | 0 =>
        rw [hsh]
        rw [preclearGo_flags]
        simp [hc]
      | n + 1 =>
        rw [hsh]
        simpa using ih n

/-! ## Concrete inputs used by counterexamples and witnesses -/

/-- A GETCAST record as the recorder appends it (handle `100 + id`). -/
def mkGet (id sz dt cls : Nat) : RecType :=
  ⟨RecTag.getcast, id, 100 + id, sz, dt, cls, false, false, 0, false⟩

/-- A CLEAR record as the recorder appends it. -/
def mkClear (id cls : Nat) : RecType :=
  ⟨RecTag.clear, id, 100 + id, 0, 0, cls, false, false, 0, false⟩

/-- Host class `0`, device class `1`, budget `8`, every dtype 1 byte. -/
def cfgA : Cfg := ⟨0, 1, 8, fun _ => 1⟩

/-- Trace A: two functions using distinct 3-byte device arrays, then an empty
update block. -/
def traceA : List RecType := [mkGet 0 3 0 1, mkGet 1 3 0 1]

def endsA : List Nat := [1, 2, 2]

/-- Budget `8`, every dtype 4 bytes. -/
def cfgB : Cfg := ⟨0, 1, 8, fun _ => 4⟩

/-- Trace B: the same array used with dtype `0` in function 1 and dtype `1`
in function 2 (a cast re-access after its eviction was scheduled). -/
def traceB : List RecType := [mkGet 0 1 0 1, mkGet 0 1 1 1]

def endsB : List Nat := [1, 2, 2]

def cfgC : Cfg := ⟨0, 1, 100, fun _ => 4⟩

/-- Trace C: one device array per block; the second block is the last one. -/
def traceC : List RecType := [mkGet 0 1 0 1, mkGet 1 1 0 1]

def endsC : List Nat := [1, 2]

def cfgD : Cfg := ⟨0, 1, 8, fun _ => 4⟩

/-- Trace D: function 1 gets array `0` on the host then array `1` on the
device; function 2 gets array `0` on the device. -/
def traceD : List RecType := [mkGet 0 1 0 0, mkGet 1 1 0 1, mkGet 0 1 0 1]

def endsD : List Nat := [2, 3, 3]

/-- Trace E: a single 400-byte device array under budget `8`. -/
def traceE : List RecType := [mkGet 0 100 0 1]

def endsE : List Nat := [1, 1]

def c3ord : List RecType := [mkGet 4 2 0 1, mkClear 4 1]

def c3bad : List RecType := [mkClear 7 1, mkClear 7 1]

def extTriv : Ext := ⟨fun _ => true, fun _ => 1, fun _ => 0, fun _ => 1, fun _ => 0⟩

/-! ## C3: preclear correctness -/

/-- C3 (amended): after `schedule_preclear`, a GETCAST record has
`preclear = true` iff the next event on its id later in the trace is a CLEAR
(equivalently: with no intervening GETCAST on that id), records with no later
same-id event getting `false`; a CLEAR record keeps its prior `preclear`
value (`false` as recorded) even when its own next same-id event is a
CLEAR. -/
theorem c3_preclear_amended (l : List RecType) (i : Nat) (r : RecType)
    (h : l.get? i = some r) :
    (schedule_preclear l).get? i = some (if r.tag = RecTag.clear then r else { r with preclear := decide (nextSameIdTag (l.drop (i + 1)) r.said = some RecTag.clear) }) := by
  rw [schedule_preclear_get, h, Option.map_some']

theorem c3_preclear_amended_witness :
    (schedule_preclear c3ord).get? 0 = some (if (mkGet 4 2 0 1).tag = RecTag.clear then mkGet 4 2 0 1 else { mkGet 4 2 0 1 with preclear := decide (nextSameIdTag (c3ord.drop 1) (mkGet 4 2 0 1).said = some RecTag.clear) }) :=
  c3_preclear_amended c3ord 0 (mkGet 4 2 0 1) (by decide)

/-- C3 counterexample: in the trace `[CLEAR 7, CLEAR 7]` the next event with
id `7` after record `0` is a CLEAR (with no intervening GETCAST), yet
`schedule_preclear` leaves `preclear = false` on record `0` — the claimed
biconditional over *every* record fails for CLEAR records. -/
theorem c3_counterexample :
    ((schedule_preclear c3bad).get? 0).map (fun r => r.preclear) = some false ∧
    nextSameIdTag (c3bad.drop 1) 7 = some RecTag.clear ∧
    (c3bad.get? 0).map (fun r => r.said) = some 7 := by
  decide

/-! ## C1: budget safety -/

/-- C1 counterexample.  Trace A (uniform dtypes): right after
`schedule_swap_out` of the second function, `used_bytes_swap_out = 6`
exceeds `max_bytes_swap_out = B/2 = 4`, before the
`schedule_wait_for_swap_out` drain.  Trace B (one array re-accessed under a
second dtype after its eviction was scheduled): the byte-transfer loop of
`schedule_swap_out` sums over stale zero-count dtype entries, so
`used_bytes_swap_in` underflows (wraps), and
`used_bytes_swap_in + used_bytes_swap_out` exceeds `B`.  Both violate the
claimed invariants at a planner step. -/
theorem c1_counterexample :
    ((schedulePlan cfgA traceA endsA).snaps.any
      (fun sn => decide (sn.usedOut > cfgA.maxBytesSwapOut)) = true) ∧
    ((schedulePlan cfgB traceB endsB).snaps.any
      (fun sn => decide (sn.usedIn + sn.usedOut > cfgB.maxBytesSwapIn)) = true) := by
  decide

/-! ## C2 counterexample -/

/-- C2 counterexample: in trace C the record at index `1` is a device GETCAST
with `preclear = false` (not preclear-dropped), but it lies in the last
function's block, which the planner loop (`fid < func_block_ends.size() - 1`)
never visits: it appears in no `swap_out_schedule[f]` at all.  Planning
succeeds (`err = none`). -/
theorem c2_counterexample :
    (schedulePlan cfgC traceC endsC).err = none ∧
    (traceC.get? 1).map (fun r => (r.tag, r.ctxClass)) = some (RecTag.getcast, cfgC.deviceClass) ∧
    ((schedulePlan cfgC traceC endsC).ord.get? 1).map (fun r => r.preclear) = some false ∧
    (schedulePlan cfgC traceC endsC).schedOut.all (fun p => ! p.2.contains 1) = true := by
  decide

/-! ## C8 counterexample -/

/-- C8 counterexample: in trace D, `schedule_swap_in` for function 1 scans
the host GETCAST of id `0` (the prefetch frontier reaches index 2, past the
whole first block), yet the swap-in pass of function 2 schedules a prefetch
of id `0` (index 2 appears in `swap_in_schedule[1]`): the host pin is a local
variable of `schedule_swap_in` and does not persist across function
boundaries, and no pin entry is ever erased by a count reaching zero. -/
theorem c8_counterexample :
    (schedulePlan cfgD traceD endsD).err = none ∧
    (traceD.get? 0).map (fun r => (r.tag, r.ctxClass, r.said)) =
      some (RecTag.getcast, cfgD.hostClass, 0) ∧
    (schedulePlan cfgD traceD endsD).headsAfterIn = [2, 3] ∧
    (traceD.get? 2).map (fun r => (r.tag, r.ctxClass, r.said)) =
      some (RecTag.getcast, cfgD.deviceClass, 0) ∧
    (schedAt (schedulePlan cfgD traceD endsD).schedIn 1).contains 2 = true := by
  decide

/-! ## C4: out-of-bounds `func_block_ends` reads -/

def cfgR : Cfg := ⟨0, 1, 100, fun _ => 4⟩

def extR : Ext := ⟨fun _ => false, fun _ => 0, fun _ => 0, fun _ => 1, fun _ => 0⟩

def evR (h : Nat) : Event := ⟨h, CbTag.cast, 0, 1, false⟩

/-- A two-block iteration-0 run: one device cast per function block. -/
def streamR : List (List Event) := [[evR 10], [evR 11]]

/-- C4: the out-of-bounds branch of the `func_block_ends` reads is
*reachable*.  Running iteration 0 with two function blocks logs, in order:
`swap_out_first_iter` reading `func_block_ends[0] = 1` and the out-of-bounds
`func_block_ends[1]` (only one element was pushed), the `swap_out_step` clamp
reading `func_block_ends[1]` out of bounds, the same triple again at
`finalize` (`func_block_ends[1] = 2`, out-of-bounds `func_block_ends[2]`
twice), and `schedule_swap_out` at `fid = 0` reading `func_block_ends[-1]`.
Every `none` is a read the claim asserts cannot happen; the run raises no
error, so the reads are on the normal path. -/
theorem c4_oob_reads_reachable :
    (runIteration cfgR extR sys0 streamR).obLog
      = [some 1, none, none, some 2, none, none, none] ∧
    (runIteration cfgR extR sys0 streamR).err = none := by
  decide

/-! ## C6: cancellation coherence -/

/-- C6: if the planner set `no_need_swap_out = true` on a record, then
`swap_out_scheduled` issues no host cast for that record's schedule entry
(at most a `clear()` when it is also a preclear record), and
`wait_for_swap_out_scheduled` issues no synchronous `get(host)` wait for its
wait-schedule entry. -/
theorem c6_cancellation (cfg : Cfg) (ext : Ext) (r : RecType)
    (h : r.noNeedSwapOut = true) :
    (∀ a ∈ (swap_out_scheduled_emit ext r).1, ∀ p d, a ≠ ExecAct.castHost p d) ∧
    wait_for_swap_out_scheduled_emit cfg ext r = [] := by
  constructor
  · intro a ha p d
    by_cases h1 : ext.alive r.sawptr
    · by_cases h2 : r.preclear
      · simp only [swap_out_scheduled_emit, h1, if_pos, h2, List.mem_singleton] at ha
        simp [ha]
      · simp [swap_out_scheduled_emit, h1, h2, h] at ha
    · simp [swap_out_scheduled_emit, h1] at ha
  · simp [wait_for_swap_out_scheduled_emit, h]

def c6rec : RecType := ⟨RecTag.getcast, 3, 103, 2, 0, 1, false, true, 8, true⟩

theorem c6_cancellation_witness :
    (∀ a ∈ (swap_out_scheduled_emit extTriv c6rec).1, ∀ p d, a ≠ ExecAct.castHost p d) ∧
    wait_for_swap_out_scheduled_emit cfgA extTriv c6rec = [] :=
  c6_cancellation cfgA extTriv c6rec (by decide)

/-! ## C9: id-space exhaustion -/

/-- C9: once the id map holds more entries than the maximum value of a
32-bit unsigned integer, the recorder raises the exhaustion error
(`error_code::unclassified`, "Too many SyncedArray...") before assigning
another id: the map and the trace are left unchanged. -/
theorem c9_exhaustion (ext : Ext) (s : Sys) (e : Event) (h0 : s.funcIdx ≠ 0)
    (h : s.mapper.length > uintMax) :
    (synced_array_callback_recorder ext s e).err = some ErrKind.unclassified ∧
    (synced_array_callback_recorder ext s e).mapper = s.mapper ∧
    (synced_array_callback_recorder ext s e).ord = s.ord := by
  simp only [synced_array_callback_recorder, if_neg h0, if_pos h]
  exact ⟨trivial, trivial, trivial⟩

def c9sys : Sys := { sys0 with funcIdx := 1, mapper := List.replicate (2 ^ 32) (0, 0) }

def c9ev : Event := ⟨5, CbTag.get, 0, 1, false⟩

theorem c9_exhaustion_witness :
    (synced_array_callback_recorder extTriv c9sys c9ev).err = some ErrKind.unclassified :=
  (c9_exhaustion extTriv c9sys c9ev
    (by
      have h1 : c9sys.funcIdx = 1 := rfl
      rw [h1]
      exact one_ne_zero)
    (by
      have h1 : c9sys.mapper = List.replicate (2 ^ 32) ((0 : Nat), (0 : Nat)) := rfl
      rw [h1, List.length_replicate, uintMax]
      norm_num)).1

/-! ## C10: schedules after `reset()` and a re-run -/

/-- View of the fields relevant to C10: the three schedules and
`first_iter`.  Only `finalize`'s planning branch ever writes them. -/
def schedView (s : Sys) :
    (List (Nat × List Nat)) × (List (Nat × List Nat)) × (List (Nat × List Nat)) × Bool :=
  (s.schedIn, s.schedOut, s.schedWait, s.firstIter)

theorem schedView_wait_first_impl (s : Sys) : schedView (wait_first_impl s) = schedView s := by
  unfold wait_first_impl
  cases s.ord.get? s.tail with
  | none => rfl
  | some r =>
    dsimp only
    split_ifs <;> rfl

theorem schedView_wait_first_iter (cfg : Cfg) (fuel : Nat) (s : Sys) :
    schedView (wait_for_swap_out_first_iter cfg fuel s) = schedView s := by
  induction fuel generalizing s with
  | zero => rfl
  | succ n ih =>
    unfold wait_for_swap_out_first_iter
    split
    · rw [ih, schedView_wait_first_impl]
    · rfl

theorem schedView_wait_all (cfg : Cfg) (fuel : Nat) (s : Sys) :
    schedView (wait_for_all_swap_out cfg fuel s) = schedView s := by
  induction fuel generalizing s with
  | zero => rfl
  | succ n ih =>
    unfold wait_for_all_swap_out
    split
    · rw [ih, schedView_wait_first_impl]
    · rfl

theorem schedView_swap_out_first_iter_rec (cfg : Cfg) (ext : Ext) (s : Sys) (i : Nat) :
    schedView (swap_out_first_iter_rec cfg ext s i) = schedView s := by
  unfold swap_out_first_iter_rec
  cases s.ord.get? i with
  | none => rfl
  | some r =>
    dsimp only
    split_ifs <;> rfl

theorem schedView_swap_out_first_iter_loop (cfg : Cfg) (ext : Ext) (fuel : Nat) :
    ∀ (i stop : Nat) (s : Sys),
      schedView (swap_out_first_iter_loop cfg ext fuel i stop s) = schedView s := by
  induction fuel with
  | zero => intro i stop s; rfl
  | succ n ih =>
    intro i stop s
    unfold swap_out_first_iter_loop
    split
    · rfl
    · split
      · rfl
      · rw [ih, schedView_swap_out_first_iter_rec]

theorem schedView_swap_out_first_iter (cfg : Cfg) (ext : Ext) (s : Sys) :
    schedView (swap_out_first_iter cfg ext s) = schedView s := by
  unfold swap_out_first_iter
  rw [schedView_swap_out_first_iter_loop]
  rfl

theorem schedView_swap_out_clamp (s : Sys) : schedView (swap_out_clamp s) = schedView s := by
  unfold swap_out_clamp
  cases s.ends.get? s.funcIdx with
  | none => rfl
  | some cv =>
    dsimp only
    split_ifs <;> rfl

theorem schedView_swap_out_step (cfg : Cfg) (ext : Ext) (s : Sys) :
    schedView (swap_out_step cfg ext s) = schedView s := by
  unfold swap_out_step
  rw [schedView_swap_out_clamp]
  by_cases hf : s.firstIter = true
  · simp only [hf, if_true]
    rw [schedView_wait_first_iter, schedView_swap_out_first_iter]
    simp [schedView, hf]
  · simp only [Bool.not_eq_true] at hf
    simp only [hf, Bool.false_eq_true, if_false]
    simp [schedView, hf]

theorem schedView_recorder (ext : Ext) (s : Sys) (e : Event) :
    schedView (synced_array_callback_recorder ext s e) = schedView s := by
  unfold synced_array_callback_recorder
  split_ifs <;> rfl

theorem schedView_tracer_compare (ext : Ext) (t : Sys) (e : Event) (tag : RecTag) :
    schedView (tracer_compare ext t e tag) = schedView t := by
  unfold tracer_compare
  cases t.ord.get? t.orderIdx with
  | none => rfl
  | some rec =>
    dsimp only
    split_ifs <;> rfl

theorem schedView_tracer (ext : Ext) (s : Sys) (e : Event) :
    schedView (synced_array_callback_tracer ext s e) = schedView s := by
  unfold synced_array_callback_tracer
  dsimp only
  split_ifs <;>
    first
      | rfl
      | (rw [schedView_tracer_compare]; rfl)
      | (rw [schedView_tracer_compare])

theorem schedView_applyCb (ext : Ext) (s : Sys) (e : Event) :
    schedView (applyCb ext s e) = schedView s := by
  unfold applyCb
  split_ifs with h1 h2
  · rfl
  · exact schedView_recorder ext s e
  · exact schedView_tracer ext s e

theorem schedView_pre_callback (cfg : Cfg) (ext : Ext) (s : Sys) :
    schedView (pre_callback cfg ext s) = schedView s := by
  unfold pre_callback
  by_cases h1 : s.err.isSome
  · simp only [h1, if_true]
  · simp only [h1, Bool.false_eq_true, if_false]
    generalize ht : (if s.funcIdx > 0 then swap_out_step cfg ext s else s) = t
    have hv : schedView t = schedView s := by
      rw [← ht]
      split_ifs with h2
      · exact schedView_swap_out_step cfg ext s
      · rfl
    by_cases h2 : t.err.isSome
    · simp only [h2, if_true]
      exact hv
    · simp only [h2, Bool.false_eq_true, if_false]
      rw [show schedView { t with funcIdx := t.funcIdx + 1 } = schedView t from rfl, hv]

theorem schedView_runBlock (cfg : Cfg) (ext : Ext) (s : Sys) (es : List Event) :
    schedView (runBlock cfg ext s es) = schedView s := by
  unfold runBlock
  rw [show ∀ t : Sys, schedView (es.foldl (applyCb ext) t) = schedView t from ?_,
    schedView_pre_callback]
  intro t
  induction es generalizing t with
  | nil => rfl
  | cons e rest ih => rw [List.foldl_cons, ih, schedView_applyCb]

theorem schedView_blocks (cfg : Cfg) (ext : Ext) (s : Sys) (stream : List (List Event)) :
    schedView (stream.foldl (runBlock cfg ext) s) = schedView s := by
  induction stream generalizing s with
  | nil => rfl
  | cons b rest ih => rw [List.foldl_cons, ih, schedView_runBlock]

theorem schedView_sysInit (s : Sys) : schedView (sysInit s) = schedView s := rfl

theorem schedView_reset (s : Sys) : schedView (reset s) = schedView s := rfl

/-! ### Error stickiness -/

theorem applyCb_of_err (ext : Ext) (s : Sys) (e : Event) (h : s.err.isSome) :
    applyCb ext s e = s := by
  simp [applyCb, h]

theorem pre_callback_of_err (cfg : Cfg) (ext : Ext) (s : Sys) (h : s.err.isSome) :
    pre_callback cfg ext s = s := by
  simp [pre_callback, h]

theorem runBlock_of_err (cfg : Cfg) (ext : Ext) (s : Sys) (es : List Event)
    (h : s.err.isSome) : runBlock cfg ext s es = s := by
  unfold runBlock
  rw [pre_callback_of_err cfg ext s h]
  induction es with
  | nil => rfl
  | cons e rest ih => rw [List.foldl_cons, applyCb_of_err ext s e h, ih]

theorem blocks_of_err (cfg : Cfg) (ext : Ext) (s : Sys) (stream : List (List Event))
    (h : s.err.isSome) : stream.foldl (runBlock cfg ext) s = s := by
  induction stream with
  | nil => rfl
  | cons b rest ih => rw [List.foldl_cons, runBlock_of_err cfg ext s b h, ih]

theorem finalize_of_err (cfg : Cfg) (ext : Ext) (s : Sys) (h : s.err.isSome) :
    finalize cfg ext s = s := by
  simp [finalize, h]

/-! ### `finalize` facts -/

theorem finalize_schedView_of_not_first (cfg : Cfg) (ext : Ext) (s : Sys)
    (h : s.firstIter = false) :
    schedView (finalize cfg ext s) = (s.schedIn, s.schedOut, s.schedWait, false) := by
  have base : schedView s = (s.schedIn, s.schedOut, s.schedWait, false) := by
    simp [schedView, h]
  unfold finalize
  by_cases h1 : s.err.isSome
  · simp only [h1, if_true]
    exact base
  · simp only [h1, Bool.false_eq_true, if_false]
    generalize hs1 : (if s.funcIdx > 0 then swap_out_step cfg ext s else s) = s1
    have hv1 : schedView s1 = schedView s := by
      rw [← hs1]
      split_ifs with h2
      · exact schedView_swap_out_step cfg ext s
      · rfl
    have hfi1 : s1.firstIter = false := by
      have := congrArg (fun p => p.2.2.2) hv1
      simpa [schedView, h] using this
    by_cases h3 : s1.err.isSome
    · simp only [h3, if_true]
      rw [hv1]
      exact base
    · simp only [h3, Bool.false_eq_true, if_false]
      generalize hs2 : swap_out_wrong_order cfg s1 = s2
      have hv2 : schedView s2 = schedView s1 := by
        rw [← hs2]
        unfold swap_out_wrong_order
        split_ifs <;> rfl
      have hfi2 : s2.firstIter = false := by
        have := congrArg (fun p => p.2.2.2) hv2
        simpa [schedView, hfi1] using this
      by_cases h4 : s2.err.isSome
      · simp only [h4, if_true]
        rw [hv2, hv1]
        exact base
      · simp only [h4, Bool.false_eq_true, if_false]
        generalize hs3 : wait_for_all_swap_out cfg (s2.ord.length + 1) s2 = s3
        have hv3 : schedView s3 = schedView s2 := by
          rw [← hs3]
          exact schedView_wait_all cfg _ s2
        have hfi3 : s3.firstIter = false := by
          have := congrArg (fun p => p.2.2.2) hv3
          simpa [schedView, hfi2] using this
        simp only [hfi3, Bool.false_eq_true, if_false]
        have hchain : schedView s3 = schedView s := by rw [hv3, hv2, hv1]
        have h1' := congrArg (fun p => p.1) hchain
        have h2' := congrArg (fun p => p.2.1) hchain
        have h3' := congrArg (fun p => p.2.2.1) hchain
        simp only [schedView] at h1' h2' h3'
        simp only [schedView]
        rw [h1', h2', h3']

/-- A `finalize` that returns without error has switched `first_iter` off. -/
theorem finalize_firstIter_of_ok (cfg : Cfg) (ext : Ext) (s : Sys)
    (h : (finalize cfg ext s).err = none) : (finalize cfg ext s).firstIter = false := by
  unfold finalize at h ⊢
  by_cases h1 : s.err.isSome
  · simp only [h1, if_true] at h ⊢
    exact absurd h (by simp [Option.isSome_iff_exists] at h1; obtain ⟨v, hv⟩ := h1; simp [hv])
  · simp only [h1, Bool.false_eq_true, if_false] at h ⊢
    generalize hs1 : (if s.funcIdx > 0 then swap_out_step cfg ext s else s) = s1 at h ⊢
    by_cases h3 : s1.err.isSome
    · simp only [h3, if_true] at h ⊢
      exact absurd h (by simp [Option.isSome_iff_exists] at h3; obtain ⟨v, hv⟩ := h3; simp [hv])
    · simp only [h3, Bool.false_eq_true, if_false] at h ⊢
      generalize hs2 : swap_out_wrong_order cfg s1 = s2 at h ⊢
      by_cases h4 : s2.err.isSome
      · simp only [h4, if_true] at h ⊢
        exact absurd h (by simp [Option.isSome_iff_exists] at h4; obtain ⟨v, hv⟩ := h4; simp [hv])
      · simp only [h4, Bool.false_eq_true, if_false] at h ⊢
        generalize hs3 : wait_for_all_swap_out cfg (s2.ord.length + 1) s2 = s3 at h ⊢
        by_cases h5 : s3.firstIter = true
        · simp only [h5, if_true] at h ⊢
          generalize hp : schedulePlan cfg (sysInit s3).ord (sysInit s3).ends = p at h ⊢
          by_cases h6 : ({ sysInit s3 with
              ord := p.ord, tail := p.tail, usedOut := p.usedOut,
              schedIn := p.schedIn, schedOut := p.schedOut, schedWait := p.schedWait,
              obLog := (sysInit s3).obLog ++ p.obLog, err := p.err } : Sys).err.isSome
          · simp only [h6, if_true] at h ⊢
            exact absurd h (by
              simp [Option.isSome_iff_exists] at h6
              obtain ⟨v, hv⟩ := h6
              simp [hv])
          · simp only [h6, Bool.false_eq_true, if_false] at h ⊢
        · simp only [h5, Bool.false_eq_true, if_false] at h ⊢

/-- C10: after `reset()`, re-running a full iteration over the byte-identical
access stream leaves `swap_in_schedule`, `swap_out_schedule` and
`wait_schedule` byte-identical to those computed before the reset.  (`reset`
does not restore `first_iter`, so the planner never re-runs; the schedules
are never rewritten.) -/
theorem c10_reset_rerun_schedules (cfg : Cfg) (ext : Ext) (stream : List (List Event)) :
    (runIteration cfg ext (reset (runIteration cfg ext sys0 stream)) stream).schedIn
        = (runIteration cfg ext sys0 stream).schedIn ∧
    (runIteration cfg ext (reset (runIteration cfg ext sys0 stream)) stream).schedOut
        = (runIteration cfg ext sys0 stream).schedOut ∧
    (runIteration cfg ext (reset (runIteration cfg ext sys0 stream)) stream).schedWait
        = (runIteration cfg ext sys0 stream).schedWait := by
  generalize hs1 : runIteration cfg ext sys0 stream = s1
  by_cases herr : s1.err.isSome
  · -- the first iteration aborted: the error is sticky, the second run is inert
    have hresets : (sysInit (reset s1)).err = s1.err := rfl
    have h2 : runIteration cfg ext (reset s1) stream = sysInit (reset s1) := by
      unfold runIteration
      rw [blocks_of_err cfg ext _ stream (by rw [hresets]; exact herr),
        finalize_of_err cfg ext _ (by rw [hresets]; exact herr)]
    rw [h2]
    exact ⟨rfl, rfl, rfl⟩
  · -- the first iteration completed: `first_iter` is off, so the second run
    -- never reaches the planning branch of `finalize`
    have hfi : s1.firstIter = false := by
      rw [← hs1]
      exact finalize_firstIter_of_ok cfg ext _ (by
        rw [show finalize cfg ext (stream.foldl (runBlock cfg ext) (sysInit sys0))
            = runIteration cfg ext sys0 stream from rfl, hs1]
        simpa [Option.isSome_iff_exists, Option.eq_none_iff_forall_not_mem] using herr)
    have hmid : (stream.foldl (runBlock cfg ext) (sysInit (reset s1))).firstIter = false := by
      have := congrArg (fun p => p.2.2.2)
        (schedView_blocks cfg ext (sysInit (reset s1)) stream)
      simp only [schedView] at this
      rw [this]
      rw [show (sysInit (reset s1)).firstIter = s1.firstIter from rfl, hfi]
    unfold runIteration
    have hfin := finalize_schedView_of_not_first cfg ext
      (stream.foldl (runBlock cfg ext) (sysInit (reset s1))) hmid
    have hmidv := schedView_blocks cfg ext (sysInit (reset s1)) stream
    have hresetv : schedView (sysInit (reset s1)) = schedView s1 := rfl
    have h1' := congrArg (fun p => p.1) hfin
    have h2' := congrArg (fun p => p.2.1) hfin
    have h3' := congrArg (fun p => p.2.2.1) hfin
    simp only [schedView] at h1' h2' h3'
    rw [h1', h2', h3']
    have hb1 := congrArg (fun p => p.1) (hmidv.trans hresetv)
    have hb2 := congrArg (fun p => p.2.1) (hmidv.trans hresetv)
    have hb3 := congrArg (fun p => p.2.2.1) (hmidv.trans hresetv)
    simp only [schedView] at hb1 hb2 hb3
    rw [hb1, hb2, hb3]
    exact ⟨rfl, rfl, rfl⟩

/-! ## C7: tracer identity substitution -/

theorem updRec_get (l : List RecType) (i : Nat) (f : RecType → RecType) (j : Nat) :
    (updRec l i f).get? j = if i = j then (l.get? j).map f else l.get? j := by
  induction l generalizing i j with
  | nil => simp [updRec]
  | cons r rest ih =>
    match i, j with
    | 0, 0 => simp [updRec]
    | 0, n + 1 => simp [updRec]
    | m + 1, 0 => simp [updRec]
    | m + 1, n + 1 =>
      simp only [updRec, List.get?_cons_succ, ih]
      by_cases hmn : m = n
      · simp [hmn]
      · simp [hmn, fun h => hmn (Nat.succ_injective h)]

theorem rewriteAll_get (idxs : List Nat) (ord : List RecType) (h j : Nat) :
    (rewriteAll ord idxs h).get? j =
      if j ∈ idxs then (ord.get? j).map (fun q => { q with sawptr := h }) else ord.get? j := by
  induction idxs generalizing ord with
  | nil => simp [rewriteAll]
  | cons i rest ih =>
    have hstep : rewriteAll ord (i :: rest) h
        = rewriteAll (updRec ord i (fun q => { q with sawptr := h })) rest h := rfl
    rw [hstep, ih]
    by_cases hr : j ∈ rest
    · simp only [hr, if_pos, List.mem_cons, or_true]
      rw [updRec_get]
      by_cases hij : i = j
      · subst hij
        simp only [if_pos rfl, Option.map_map]
        cases ord.get? i <;> rfl
      · simp [hij]
    · simp only [hr, if_neg, not_false_eq_true]
      rw [updRec_get]
      by_cases hij : i = j
      · subst hij
        simp [hr]
      · have : ¬ j ∈ i :: rest := by
          intro hc
          rcases List.mem_cons.mp hc with hc1 | hc2
          · exact hij hc1.symm
          · exact hr hc2
        simp [hij, this]

/-- C7: in an iteration `k ≥ 1` (tracer installed, `func_idx > 0`), when a
live event matches the record at `order[order_idx]` in tag, dtype and context
key but carries a different array handle, and `order_idx` is inside the
current function block (the code's guard `order_idx < func_block_ends[func_idx]`),
and the event's handle is not in the precleared set, the tracer rewrites the
handle reference of every trace entry bearing that record's
`synced_array_id` to the new handle (given that `synced_array_id_to_order_idx`
indexes the trace correctly), appends nothing to the wrong-ordered buffer,
and advances `order_idx`; entries of other ids are untouched. -/
theorem c7_identity_substitution (ext : Ext) (s : Sys) (e : Event) (rec : RecType)
    (h0 : s.funcIdx ≠ 0)
    (hp : s.precleared.contains e.saptr = false)
    (hrec : s.ord.get? s.orderIdx = some rec)
    (hin : s.orderIdx < (s.ends.get? s.funcIdx).getD 0)
    (htag : get_tag e.kind = rec.tag)
    (hdt : e.dtype = rec.dtype)
    (hctx : e.ctxClass = rec.ctxClass)
    (hne : e.saptr ≠ rec.sawptr)
    (hidx : ∀ j r', s.ord.get? j = some r' →
      (j ∈ (alookup s.idToIdx rec.said).getD [] ↔ r'.said = rec.said)) :
    (synced_array_callback_tracer ext s e).wrongOrdered = s.wrongOrdered ∧
    (synced_array_callback_tracer ext s e).orderIdx = s.orderIdx + 1 ∧
    (∀ j r', s.ord.get? j = some r' →
      (synced_array_callback_tracer ext s e).ord.get? j =
        some (if r'.said = rec.said then { r' with sawptr := e.saptr } else r')) := by
  have hlock : some e.saptr ≠ (if ext.alive rec.sawptr = true then some rec.sawptr else none) := by
    split_ifs with ha
    · simp [hne]
    · simp
  have hmain : synced_array_callback_tracer ext s e =
      { s with
        ord := rewriteAll s.ord ((alookup s.idToIdx rec.said).getD []) e.saptr,
        orderIdx := s.orderIdx + 1 } := by
    unfold synced_array_callback_tracer
    rw [if_neg h0]
    rw [if_neg (by rw [hp]; simp)]
    rw [show (if s.precleared.contains e.saptr = true then
        { s with precleared := setRemove s.precleared e.saptr } else s) = s by rw [hp]; simp]
    unfold tracer_compare
    rw [hrec]
    dsimp only
    rw [if_pos ⟨hin, htag, hlock, hdt, hctx⟩]
  refine ⟨by rw [hmain], by rw [hmain], ?_⟩
  intro j r' hj
  rw [hmain]
  show (rewriteAll s.ord ((alookup s.idToIdx rec.said).getD []) e.saptr).get? j = _
  rw [rewriteAll_get]
  by_cases hs : r'.said = rec.said
  · rw [if_pos ((hidx j r' hj).mpr hs), hj]
    simp [hs]
  · rw [if_neg (fun hmem => hs ((hidx j r' hj).mp hmem)), hj]
    simp [hs]

def c7sys : Sys :=
  { sys0 with
    funcIdx := 1,
    orderIdx := 0,
    ord := [mkGet 0 1 0 1, mkGet 0 1 0 1],
    ends := [2, 2],
    idToIdx := [(0, [0, 1])] }

def c7ev : Event := ⟨55, CbTag.cast, 0, 1, false⟩

theorem c7_identity_substitution_witness :
    (synced_array_callback_tracer extTriv c7sys c7ev).wrongOrdered = c7sys.wrongOrdered ∧
    (synced_array_callback_tracer extTriv c7sys c7ev).orderIdx = c7sys.orderIdx + 1 ∧
    (∀ j r', c7sys.ord.get? j = some r' →
      (synced_array_callback_tracer extTriv c7sys c7ev).ord.get? j =
        some (if r'.said = (mkGet 0 1 0 1).said then { r' with sawptr := c7ev.saptr } else r')) :=
  c7_identity_substitution extTriv c7sys c7ev (mkGet 0 1 0 1)
    (by decide) (by decide) (by decide) (by decide) (by decide) (by decide) (by decide)
    (by decide)
    (by
      intro j r' hj
      match j with
      | 0 =>
        rw [show c7sys.ord.get? 0 = some (mkGet 0 1 0 1) from rfl] at hj
        cases hj
        decide
      | 1 =>
        rw [show c7sys.ord.get? 1 = some (mkGet 0 1 0 1) from rfl] at hj
        cases hj
        decide
      | n + 2 =>
        rw [show c7sys.ord.get? (n + 2) = none from by
          show ([] : List RecType).get? n = none
          simp] at hj
        cases hj)

/-! ## Planner frame lemmas -/

theorem updRec_length (l : List RecType) (i : Nat) (f : RecType → RecType) :
    (updRec l i f).length = l.length := by
  induction l generalizing i with
  | nil => rfl
  | cons r rest ih =>
    match i with
    | 0 => rfl
    | n + 1 => simp [updRec, ih]

/-- The planner-state fields `swap_in_body` never writes (plus the trace
length, which its record mutations preserve). -/
def inFrame (s : PSt) :
    Nat × Nat × (List (Nat × List Nat)) × (List (Nat × List Nat)) × (List (Nat × List Nat)) ×
      List Snap × List Nat × List (Option Nat) × Nat :=
  (s.tail, s.usedOut, s.schedIn, s.schedOut, s.schedWait, s.snaps, s.headsAfterIn, s.obLog,
    s.ord.length)

theorem swap_in_body_frame (cfg : Cfg) (fuel : Nat) :
    ∀ (s : PSt) (pins acc : List Nat),
      inFrame (swap_in_body cfg fuel s pins acc).1 = inFrame s := by
  induction fuel with
  | zero => intro s pins acc; rfl
  | succ n ih =>
    intro s pins acc
    unfold swap_in_body
    cases s.ord.get? s.head with
    | none => rfl
    | some r =>
      dsimp only
      split_ifs <;>
        first
          | rfl
          | (rw [ih]; rfl)
          | (rw [ih]; simp [inFrame, updRec_length]; done)
          | (rw [ih]; cases halo : alookup s.soR r.said <;> simp [inFrame, updRec_length])

/-- The planner-state fields `swap_out_body` never writes. -/
def outFrame (s : PSt) :
    Nat × Nat × (List (Nat × List Nat)) × (List (Nat × List Nat)) × (List (Nat × List Nat)) ×
      List Snap × List Nat × List (Option Nat) × Nat :=
  (s.head, s.tail, s.schedIn, s.schedOut, s.schedWait, s.snaps, s.headsAfterIn, s.obLog,
    s.ord.length)

theorem swap_out_body_frame (cfg : Cfg) (fuel : Nat) :
    ∀ (i stop : Nat) (s : PSt) (acc : List Nat),
      outFrame (swap_out_body cfg fuel i stop s acc).1 = outFrame s := by
  induction fuel with
  | zero => intro i stop s acc; rfl
  | succ n ih =>
    intro i stop s acc
    unfold swap_out_body
    split_ifs with hstop
    · rfl
    · cases s.ord.get? i with
      | none => rfl
      | some r =>
        dsimp only
        split_ifs <;>
          first
            | rfl
            | (rw [ih]; done)
            | (rw [ih]; rfl)
            | (rw [ih]; simp [outFrame, updRec_length]; done)
            | (rw [ih]; simp [outFrame, updRec_length])

/-- The planner-state fields `wait_body` never writes. -/
def waitFrame (s : PSt) :
    Nat × Nat × Counts × (List (Nat × Nat)) × (List (Nat × List Nat)) ×
      (List (Nat × List Nat)) × (List (Nat × List Nat)) × List Snap × List Nat ×
      List (Option Nat) × Option ErrKind × Nat :=
  (s.head, s.usedIn, s.counts, s.soR, s.schedIn, s.schedOut, s.schedWait, s.snaps,
    s.headsAfterIn, s.obLog, s.err, s.ord.length)

theorem wait_body_frame (cfg : Cfg) (all : Bool) (fuel : Nat) :
    ∀ (s : PSt) (acc : List Nat),
      waitFrame (wait_body cfg all fuel s acc).1 = waitFrame s := by
  induction fuel with
  | zero => intro s acc; rfl
  | succ n ih =>
    intro s acc
    unfold wait_body
    dsimp only
    split_ifs with hgo
    · cases s.ord.get? s.tail with
      | none => rfl
      | some r =>
        dsimp only
        split_ifs <;>
          first
            | (rw [ih]; done)
            | (rw [ih]; rfl)
            | (rw [ih]; simp [waitFrame, updRec_length]; done)
            | (rw [ih]; simp [waitFrame, updRec_length])
    · rfl

/-- `swap_in_body` either keeps the error field or raises the type error. -/
theorem swap_in_body_err (cfg : Cfg) (fuel : Nat) :
    ∀ (s : PSt) (pins acc : List Nat),
      (swap_in_body cfg fuel s pins acc).1.err = s.err ∨
      (swap_in_body cfg fuel s pins acc).1.err = some ErrKind.typeErr := by
  induction fuel with
  | zero => intro s pins acc; exact Or.inl rfl
  | succ n ih =>
    intro s pins acc
    unfold swap_in_body
    cases s.ord.get? s.head with
    | none => exact Or.inl rfl
    | some r =>
      dsimp only
      split_ifs <;>
        first
          | exact Or.inl rfl
          | exact Or.inr rfl
          | (cases halo : alookup s.soR r.said <;> (try dsimp only) <;>
              exact (ih _ _ _).imp (fun h => h.trans rfl) id)
          | exact (ih _ _ _).imp (fun h => h.trans rfl) id

/-- `swap_out_body` either keeps the error field or raises the type error. -/
theorem swap_out_body_err (cfg : Cfg) (fuel : Nat) :
    ∀ (i stop : Nat) (s : PSt) (acc : List Nat),
      (swap_out_body cfg fuel i stop s acc).1.err = s.err ∨
      (swap_out_body cfg fuel i stop s acc).1.err = some ErrKind.typeErr := by
  induction fuel with
  | zero => intro i stop s acc; exact Or.inl rfl
  | succ n ih =>
    intro i stop s acc
    unfold swap_out_body
    split_ifs with hstop
    · exact Or.inl rfl
    · cases s.ord.get? i with
      | none => exact Or.inl rfl
      | some r =>
        dsimp only
        split_ifs <;>
          first
            | exact Or.inl rfl
            | exact Or.inr rfl
            | exact (ih _ _ _ _).imp (fun h => h.trans rfl) id

/-! ## C5: the out-of-memory check -/

/-- Where `schedule_swap_in`'s loop can stop without raising an error: either
the prefetch frontier has consumed the whole trace, or it points at a
device-class GETCAST record whose bytes do not fit the budget check
`used_bytes_swap_in + bytes > max_bytes_swap_in - max_bytes_swap_out`. -/
theorem swap_in_body_stop (cfg : Cfg) (fuel : Nat) :
    ∀ (s : PSt) (pins acc : List Nat),
      s.head ≤ s.ord.length → s.ord.length + 1 - s.head ≤ fuel → s.err = none →
      (swap_in_body cfg fuel s pins acc).1.err = none →
      ((swap_in_body cfg fuel s pins acc).1.head ≥ (swap_in_body cfg fuel s pins acc).1.ord.length ∨
       ∃ r, (swap_in_body cfg fuel s pins acc).1.ord.get?
              (swap_in_body cfg fuel s pins acc).1.head = some r ∧
         r.tag ≠ RecTag.clear ∧ r.ctxClass = cfg.deviceClass ∧
         wadd (swap_in_body cfg fuel s pins acc).1.usedIn
             (wmul r.size (cfg.sizeofDtype r.dtype)) >
           cfg.maxBytesSwapIn - cfg.maxBytesSwapOut) := by
  induction fuel with
  | zero =>
    intro s pins acc hhead hfuel herr hres
    omega
  | succ n ih =>
    intro s pins acc hhead hfuel herr hres
    rw [swap_in_body] at hres ⊢
    cases hget : s.ord.get? s.head with
    | none =>
      simp only [hget]
      left
      have := List.get?_eq_none.mp hget
      omega
    | some r =>
      have hlt : s.head < s.ord.length := by
        by_contra hge
        rw [List.get?_eq_none.mpr (by omega)] at hget
        exact Option.noConfusion hget
      simp only [hget] at hres ⊢
      try dsimp only at hres ⊢
      by_cases h1 : r.tag = RecTag.clear
      · simp only [h1, if_pos] at hres ⊢
        exact ih _ pins acc (by simpa using hlt) (by simp; omega) herr hres
      · simp only [h1, if_neg, not_false_eq_true] at hres ⊢
        by_cases h2 : r.ctxClass = cfg.deviceClass
        · simp only [h2, if_pos] at hres ⊢
          by_cases h3 : wadd s.usedIn (wmul r.size (cfg.sizeofDtype r.dtype)) >
              cfg.maxBytesSwapIn - cfg.maxBytesSwapOut
          · simp only [h3, if_pos] at hres ⊢
            right
            exact ⟨r, hget, h1, h2, h3⟩
          · simp only [h3, if_neg, not_false_eq_true] at hres ⊢
            by_cases h4 : innerGet (countsGet s.counts r.said) r.dtype = 0 ∧
                ¬ pins.contains r.said = true ∧ s.soFlag.contains r.said = true
            · simp only [h4, if_pos] at hres ⊢
              cases halo : alookup s.soR r.said with
              | some j =>
                simp only [halo] at hres ⊢
                split_ifs at hres ⊢ <;>
                  exact ih _ pins _ (by simp [updRec_length]; omega)
                    (by simp [updRec_length]; omega) herr hres
              | none =>
                simp only [halo] at hres ⊢
                split_ifs at hres ⊢ <;>
                  exact ih _ pins _ (by simp; omega) (by simp; omega) herr hres
            · simp only [h4, if_neg, not_false_eq_true] at hres ⊢
              split_ifs at hres ⊢ <;>
                exact ih _ pins _ (by simp; omega) (by simp; omega) herr hres
        · simp only [h2, if_neg, not_false_eq_true] at hres ⊢
          by_cases h5 : r.ctxClass = cfg.hostClass
          · simp only [h5, if_pos] at hres ⊢
            exact ih _ _ acc (by simpa using hlt) (by simp; omega) herr hres
          · simp only [h5, if_neg, not_false_eq_true] at hres ⊢
            exact absurd hres (by simp)

/-- No logged prefetch frontier stops short of its function's block end. -/
def noShortLog (ends : List Nat) (s : PSt) : Prop :=
  ∀ k h e, s.headsAfterIn.get? k = some h → ends.get? k = some e → ¬ h < e

/-- Invariant of the planner loop tying the `memory` error to the logged
frontier positions. -/
def planInv (ends : List Nat) (n : Nat) (s : PSt) : Prop :=
  (s.err = some ErrKind.memory →
    ∃ k h e, s.headsAfterIn.get? k = some h ∧ ends.get? k = some e ∧ h < e) ∧
  (s.err ≠ some ErrKind.memory → noShortLog ends s) ∧
  (s.err = none → s.headsAfterIn.length = n)

theorem concat_get?_lt {α : Type _} (l : List α) (a : α) (k : Nat) (h : k < l.length) :
    (l ++ [a]).get? k = l.get? k := List.get?_append h

theorem concat_get?_gt {α : Type _} (l : List α) (a : α) (k : Nat) (h : l.length < k) :
    (l ++ [a]).get? k = none := by
  rw [List.get?_eq_none]
  simp only [List.length_append, List.length_singleton]
  omega

theorem planStep_inv (cfg : Cfg) (ends : List Nat) (fid : Nat) (s : PSt)
    (h : planInv ends fid s) : planInv ends (fid + 1) (planStep cfg ends fid s) := by
  obtain ⟨hA, hB, hC⟩ := h
  unfold planStep
  by_cases h1 : s.err.isSome
  · simp only [h1, if_true]
    exact ⟨hA, hB, fun hn => by rw [hn] at h1; exact absurd h1 (by simp)⟩
  · simp only [h1, Bool.false_eq_true, if_false]
    have hserr : s.err = none := by
      cases hc : s.err with
      | none => rfl
      | some v => rw [hc] at h1; exact absurd (by simp) h1
    generalize hp1 : schedule_swap_in cfg s = p1
    have hframe1 : inFrame p1.1 = inFrame s := by
      rw [← hp1]; exact swap_in_body_frame cfg _ s [] []
    have hlog1 : p1.1.headsAfterIn = s.headsAfterIn :=
      congrArg (fun t => t.2.2.2.2.2.2.1) hframe1
    have herr1 : p1.1.err = s.err ∨ p1.1.err = some ErrKind.typeErr := by
      rw [← hp1]; exact swap_in_body_err cfg _ s [] []
    by_cases h2 : p1.1.err.isSome
    · simp only [h2, if_true]
      have htyp : p1.1.err = some ErrKind.typeErr := by
        rcases herr1 with hx | hx
        · rw [hx, hserr] at h2; exact absurd h2 (by simp)
        · exact hx
      refine ⟨fun hm => ?_, fun _ => ?_, fun hn => ?_⟩
      · rw [htyp] at hm; exact absurd hm (by simp)
      · intro k h' e hk he
        exact hB (by rw [hserr]; simp) k h' e (by rwa [hlog1] at hk) he
      · rw [htyp] at hn; exact absurd hn (by simp)
    · have hp1err : p1.1.err = none := by
        cases hc : p1.1.err with
        | none => rfl
        | some v => rw [hc] at h2; exact absurd (by simp) h2
      simp only [h2, Bool.false_eq_true, if_false]
      have hlen : s.headsAfterIn.length = fid := hC hserr
      generalize hs1 : logAfterIn fid p1 = s1
      have hs1log : s1.headsAfterIn = s.headsAfterIn ++ [p1.1.head] := by
        rw [← hs1]
        show p1.1.headsAfterIn ++ [p1.1.head] = _
        rw [hlog1]
      have hs1err : s1.err = none := by rw [← hs1]; exact hp1err
      have hs1head : s1.head = p1.1.head := by rw [← hs1]; rfl
      by_cases h3 : s1.head < (ends.get? fid).getD 0
      · simp only [h3, if_pos]
        refine ⟨fun _ => ?_, fun hne => absurd (by rfl) hne, fun hn => absurd hn (by simp)⟩
        cases hce : ends.get? fid with
        | none => rw [hce] at h3; simp at h3
        | some e =>
          refine ⟨fid, s1.head, e, ?_, hce, by rw [hce] at h3; simpa using h3⟩
          show s1.headsAfterIn.get? fid = some s1.head
          rw [hs1log, hs1head, ← hlen]
          exact List.get?_concat_length _ _
      · simp only [h3, if_neg, not_false_eq_true]
        generalize hs1b : logBlockStartRead ends fid s1 = s1b
        have hs1blog : s1b.headsAfterIn = s1.headsAfterIn := by rw [← hs1b]; rfl
        have hs1berr : s1b.err = none := by rw [← hs1b]; exact hs1err
        have noshort1 : ∀ k h' e, s1b.headsAfterIn.get? k = some h' →
            ends.get? k = some e → ¬ h' < e := by
          intro k h' e hk he
          rw [hs1blog, hs1log] at hk
          rcases Nat.lt_trichotomy k fid with hlt | heq | hgt
          · rw [concat_get?_lt _ _ _ (by omega)] at hk
            exact hB (by rw [hserr]; simp) k h' e hk he
          · subst heq
            rw [← hlen] at hk
            rw [List.get?_concat_length] at hk
            cases hk
            rw [he] at h3
            rw [hs1head] at h3
            simpa using h3
          · rw [concat_get?_gt _ _ _ (by omega)] at hk
            exact Option.noConfusion hk
        generalize hp2 : schedule_swap_out cfg ends fid s1b = p2
        have hframe2 : outFrame p2.1 = outFrame s1b := by
          rw [← hp2]; exact swap_out_body_frame cfg _ _ _ s1b []
        have hlog2 : p2.1.headsAfterIn = s1b.headsAfterIn :=
          congrArg (fun t => t.2.2.2.2.2.2.1) hframe2
        have herr2 : p2.1.err = none ∨ p2.1.err = some ErrKind.typeErr := by
          have hx : p2.1.err = s1b.err ∨ p2.1.err = some ErrKind.typeErr := by
            rw [← hp2]; exact swap_out_body_err cfg _ _ _ s1b []
          rcases hx with hx | hx
          · left; rw [hx, hs1berr]
          · right; exact hx
        by_cases h4 : p2.1.err.isSome
        · simp only [h4, if_true]
          have htyp2 : p2.1.err = some ErrKind.typeErr := by
            rcases herr2 with hx | hx
            · rw [hx] at h4; exact absurd h4 (by simp)
            · exact hx
          refine ⟨fun hm => ?_, fun _ => ?_, fun hn => ?_⟩
          · rw [htyp2] at hm; exact absurd hm (by simp)
          · intro k h' e hk he
            rw [hlog2] at hk
            exact noshort1 k h' e hk he
          · rw [htyp2] at hn; exact absurd hn (by simp)
        · have hp2err : p2.1.err = none := by
            rcases herr2 with hx | hx
            · exact hx
            · rw [hx] at h4; exact absurd (by simp) h4
          simp only [h4, Bool.false_eq_true, if_false]
          generalize hs2 : logAfterOut fid p2 = s2
          have hs2log : s2.headsAfterIn = p2.1.headsAfterIn := by rw [← hs2]; rfl
          have hs2err : s2.err = none := by rw [← hs2]; exact hp2err
          generalize hp3 : schedule_wait_for_swap_out cfg s2 = p3
          have hw : waitFrame p3.1 = waitFrame s2 := by
            rw [← hp3]; exact wait_body_frame cfg false _ s2 []
          have hlog3 : p3.1.headsAfterIn = s2.headsAfterIn :=
            congrArg (fun t => t.2.2.2.2.2.2.2.2.1) hw
          have herr3 : p3.1.err = s2.err :=
            congrArg (fun t => t.2.2.2.2.2.2.2.2.2.2.1) hw
          refine ⟨fun hm => ?_, fun _ => ?_, fun _ => ?_⟩
          · have hok : (logAfterWait fid p3).err = none := by
              show p3.1.err = none
              rw [herr3, hs2err]
            rw [hok] at hm
            exact absurd hm (by simp)
          · intro k h' e hk he
            have hrw : (logAfterWait fid p3).headsAfterIn = s1b.headsAfterIn := by
              show p3.1.headsAfterIn = _
              rw [hlog3, hs2log, hlog2]
            rw [hrw] at hk
            exact noshort1 k h' e hk he
          · show (logAfterWait fid p3).headsAfterIn.length = fid + 1
            have hrw : (logAfterWait fid p3).headsAfterIn = s.headsAfterIn ++ [p1.1.head] := by
              show p3.1.headsAfterIn = _
              rw [hlog3, hs2log, hlog2, hs1blog, hs1log]
            rw [hrw, List.length_append, hlen]
            rfl

theorem planFold_inv (cfg : Cfg) (order : List RecType) (ends : List Nat) (n : Nat) :
    planInv ends n ((List.range n).foldl (fun t fid => planStep cfg ends fid t)
      (planInit order)) := by
  induction n with
  | zero =>
    refine ⟨fun hm => ?_, fun _ => ?_, fun _ => rfl⟩
    · exact absurd hm (by simp [planInit])
    · intro k h' e hk he
      exact absurd hk (by simp [planInit])
  | succ n ih =>
    rw [List.range_succ, List.foldl_append, List.foldl_cons, List.foldl_nil]
    exact planStep_inv cfg ends n _ ih

/-- `planInv` only looks at the error field and the frontier log. -/
theorem planInv_congr (ends : List Nat) (n : Nat) (s t : PSt)
    (herr : t.err = s.err) (hlog : t.headsAfterIn = s.headsAfterIn)
    (h : planInv ends n s) : planInv ends n t := by
  obtain ⟨hA, hB, hC⟩ := h
  refine ⟨fun hm => ?_, fun hne => ?_, fun hn => ?_⟩
  · obtain ⟨k, h', e, hk, he, hlt⟩ := hA (by rwa [herr] at hm)
    exact ⟨k, h', e, by rwa [hlog], he, hlt⟩
  · intro k h' e hk he
    exact hB (by rwa [herr] at hne) k h' e (by rwa [hlog] at hk) he
  · rw [hlog]
    exact hC (by rwa [herr] at hn)

theorem schedulePlan_inv (cfg : Cfg) (order : List RecType) (ends : List Nat) :
    planInv ends (ends.length - 1) (schedulePlan cfg order ends) := by
  unfold schedulePlan
  dsimp only
  have hfold := planFold_inv cfg order ends (ends.length - 1)
  generalize hs1 : (List.range (ends.length - 1)).foldl
    (fun t fid => planStep cfg ends fid t) (planInit order) = s1
  rw [hs1] at hfold
  by_cases h1 : s1.err.isSome
  · simp only [h1, if_true]
    exact hfold
  · simp only [h1, Bool.false_eq_true, if_false]
    generalize hp : schedule_wait_for_all_swap_out cfg s1 = p
    have hw : waitFrame p.1 = waitFrame s1 := by
      rw [← hp]; exact wait_body_frame cfg true _ s1 []
    have hlog : p.1.headsAfterIn = s1.headsAfterIn :=
      congrArg (fun t => t.2.2.2.2.2.2.2.2.1) hw
    have herr : p.1.err = s1.err :=
      congrArg (fun t => t.2.2.2.2.2.2.2.2.2.2.1) hw
    exact planInv_congr ends _ s1 _ herr hlog hfold

/-- C5: the planner raises the out-of-memory error iff at some function `f`
the swap-in scan (whose final frontier position is logged in
`headsAfterIn[f]`) left the frontier strictly below `func_block_ends[f]`; and
whenever `schedule_swap_in` returns without error with its frontier short of
the trace end, the scan stopped at a device GETCAST record that failed the
budget check `used_bytes_swap_in + bytes > B - B/2` — so no out-of-memory
error can arise when every per-function working set fits. -/
theorem c5_oom_iff (cfg : Cfg) (order : List RecType) (ends : List Nat) :
    ((schedulePlan cfg order ends).err = some ErrKind.memory ↔
      ∃ k h e, (schedulePlan cfg order ends).headsAfterIn.get? k = some h ∧
        ends.get? k = some e ∧ h < e) ∧
    (∀ s : PSt, s.err = none →
      (schedule_swap_in cfg s).1.err = none →
      (schedule_swap_in cfg s).1.head < (schedule_swap_in cfg s).1.ord.length →
      ∃ r, (schedule_swap_in cfg s).1.ord.get? (schedule_swap_in cfg s).1.head = some r ∧
        r.tag ≠ RecTag.clear ∧ r.ctxClass = cfg.deviceClass ∧
        wadd (schedule_swap_in cfg s).1.usedIn (wmul r.size (cfg.sizeofDtype r.dtype)) >
          cfg.maxBytesSwapIn - cfg.maxBytesSwapOut) := by
  obtain ⟨hA, hB, hC⟩ := schedulePlan_inv cfg order ends
  constructor
  · constructor
    · exact hA
    · intro hex
      by_contra hne
      obtain ⟨k, h', e, hk, he, hlt⟩ := hex
      exact hB hne k h' e hk he hlt
  · intro s hserr hres hshort
    simp only [schedule_swap_in] at hres hshort ⊢
    by_cases hhead : s.head ≤ s.ord.length
    · have := swap_in_body_stop cfg (s.ord.length + 1 - s.head) s [] [] hhead
        (le_refl _) hserr hres
      rcases this with hge | hex
      · exact absurd hshort (by omega)
      · obtain ⟨r, hr, h1, h2, h3⟩ := hex
        exact ⟨r, hr, h1, h2, h3⟩
    · exfalso
      have hzero : s.ord.length + 1 - s.head = 0 := by omega
      rw [hzero] at hshort
      have h0 : swap_in_body cfg 0 s [] [] = (s, []) := rfl
      rw [h0] at hshort
      dsimp only at hshort
      omega

def cfgE : Cfg := ⟨0, 1, 8, fun _ => 4⟩

theorem c5_oom_iff_witness :
    (schedulePlan cfgE traceE endsE).err = some ErrKind.memory :=
  (c5_oom_iff cfgE traceE endsE).1.mpr ⟨0, 0, 1, by decide, by decide, by decide⟩

/-! ## Counting infrastructure for exact byte accounting -/

theorem alookup_map_overwrite_ne {α : Type _} (m : List (Nat × α)) (k : Nat) (v : α) (q : Nat)
    (hqk : q ≠ k) :
    alookup (m.map (fun p => if p.1 == k then (k, v) else p)) q = alookup m q := by
  induction m with
  | nil => rfl
  | cons x rest ih =>
    by_cases hx : x.1 = k
    · have hb : (x.1 == k) = true := by simpa using hx
      have hxq : (x.1 == q) = false := by simp [hx, Ne.symm hqk]
      have hkq : ((k : Nat) == q) = false := by simp [Ne.symm hqk]
      simp only [alookup, List.map_cons, hb, if_pos, List.find?_cons, hkq, hxq]
      exact ih
    · have hb : (x.1 == k) = false := by simpa using hx
      simp only [alookup, List.map_cons, hb, Bool.false_eq_true, if_neg, not_false_eq_true,
        List.find?_cons]
      cases hxq : (x.1 == q) with
      | true => rfl
      | false => exact ih

theorem alookup_map_overwrite_eq {α : Type _} (m : List (Nat × α)) (k : Nat) (v : α)
    (hmem : ∃ p ∈ m, p.1 = k) :
    alookup (m.map (fun p => if p.1 == k then (k, v) else p)) k = some v := by
  induction m with
  | nil => simp at hmem
  | cons x rest ih =>
    by_cases hx : x.1 = k
    · have hb : (x.1 == k) = true := by simpa using hx
      simp only [alookup, List.map_cons, hb, if_pos, List.find?_cons, beq_self_eq_true]
      rfl
    · have hb : (x.1 == k) = false := by simpa using hx
      simp only [alookup, List.map_cons, hb, Bool.false_eq_true, if_neg, not_false_eq_true,
        List.find?_cons, hb]
      rcases hmem with ⟨p, hp, hpk⟩
      rcases List.mem_cons.mp hp with hph | hpt
      · exact absurd (hph ▸ hpk) hx
      · exact ih ⟨p, hpt, hpk⟩

/-- The characteristic law of `aset`. -/
theorem alookup_aset {α : Type _} (m : List (Nat × α)) (k : Nat) (v : α) (q : Nat) :
    alookup (aset m k v) q = if q = k then some v else alookup m q := by
  by_cases hany : m.any (fun p => p.1 == k)
  · rw [aset, if_pos hany]
    by_cases hq : q = k
    · subst hq
      rw [if_pos rfl]
      exact alookup_map_overwrite_eq m q v
        (by rcases List.any_eq_true.mp hany with ⟨p, hp, hpk⟩; exact ⟨p, hp, by simpa using hpk⟩)
    · rw [if_neg hq]
      exact alookup_map_overwrite_ne m k v q hq
  · rw [aset, if_neg hany]
    have hnone : alookup m k = none := by
      rw [alookup, Option.map_eq_none', List.find?_eq_none]
      intro p hp
      have := (List.any_eq_true.not.mp hany)
      push_neg at this
      simpa using this p hp
    rw [alookup]
    rw [List.find?_append]
    by_cases hq : q = k
    · subst hq
      rw [show m.find? (fun p => p.1 == q) = none from by
        rw [alookup, Option.map_eq_none'] at hnone; exact hnone]
      simp [if_pos rfl]
    · cases hfind : m.find? (fun p => p.1 == q) with
      | some p => simp [alookup, hfind, hq]
      | none =>
        have hkq : ((k : Nat) == q) = false := by simp [Ne.symm hq]
        simp [alookup, hfind, hq, hkq]

/-- `j` holds a device-class GETCAST of id `id` in trace `l`. -/
def devIdAt (cfg : Cfg) (l : List RecType) (id j : Nat) : Bool :=
  match l.get? j with
  | some r => r.tag == RecTag.getcast && r.ctxClass == cfg.deviceClass && r.said == id
  | none => false

/-- Device GETCASTs of `id` among the `n` positions `a, a+1, …`. -/
def occGo (cfg : Cfg) (l : List RecType) (id : Nat) : Nat → Nat → Nat
  | _, 0 => 0
  | a, n + 1 => (if devIdAt cfg l id a then 1 else 0) + occGo cfg l id (a + 1) n

/-- Device GETCASTs of `id` in the half-open window `[a, b)`: the count the
planner keeps in `synced_array_counts[id][dtype]`. -/
def occD (cfg : Cfg) (l : List RecType) (id a b : Nat) : Nat :=
  occGo cfg l id a (b - a)

theorem occGo_add (cfg : Cfg) (l : List RecType) (id : Nat) :
    ∀ (n m a : Nat), occGo cfg l id a (n + m) = occGo cfg l id a n + occGo cfg l id (a + n) m := by
  intro n
  induction n with
  | zero => intro m a; simp [occGo]
  | succ k ih =>
    intro m a
    have h1 : k + 1 + m = (k + m) + 1 := by omega
    rw [h1]
    show (if devIdAt cfg l id a then 1 else 0) + occGo cfg l id (a + 1) (k + m) = _
    rw [ih m (a + 1)]
    show _ = (if devIdAt cfg l id a then 1 else 0) + occGo cfg l id (a + 1) k +
      occGo cfg l id (a + (k + 1)) m
    have h2 : a + 1 + k = a + (k + 1) := by omega
    rw [h2]
    omega

theorem occD_of_le (cfg : Cfg) (l : List RecType) (id : Nat) {a b : Nat} (h : b ≤ a) :
    occD cfg l id a b = 0 := by
  unfold occD
  rw [show b - a = 0 from by omega]
  rfl

theorem occD_succ_left (cfg : Cfg) (l : List RecType) (id : Nat) {a b : Nat} (h : a < b) :
    occD cfg l id a b = (if devIdAt cfg l id a then 1 else 0) + occD cfg l id (a + 1) b := by
  unfold occD
  rw [show b - a = (b - (a + 1)) + 1 from by omega]
  rfl

theorem occD_succ_right (cfg : Cfg) (l : List RecType) (id : Nat) {a b : Nat} (h : a ≤ b) :
    occD cfg l id a (b + 1) = occD cfg l id a b + (if devIdAt cfg l id b then 1 else 0) := by
  unfold occD
  rw [show b + 1 - a = (b - a) + 1 from by omega, occGo_add cfg l id (b - a) 1 a,
    show a + (b - a) = b from by omega]
  show _ + ((if devIdAt cfg l id b then 1 else 0) + 0) = _
  omega

theorem occD_split (cfg : Cfg) (l : List RecType) (id : Nat) {a b c : Nat}
    (h1 : a ≤ b) (h2 : b ≤ c) :
    occD cfg l id a c = occD cfg l id a b + occD cfg l id b c := by
  unfold occD
  rw [show c - a = (b - a) + (c - b) from by omega, occGo_add,
    show a + (b - a) = b from by omega]

theorem occD_pos_of_devIdAt (cfg : Cfg) (l : List RecType) (id : Nat) {a b j : Nat}
    (hj : devIdAt cfg l id j = true) (h1 : a ≤ j) (h2 : j < b) :
    0 < occD cfg l id a b := by
  rw [occD_split cfg l id h1 (by omega : j ≤ b), occD_succ_left cfg l id h2, hj]
  simp

/-- Ids carried by the device-class GETCAST records of a trace, deduplicated. -/
def devIds (cfg : Cfg) (l : List RecType) : List Nat :=
  ((l.filter (fun r => r.tag == RecTag.getcast && r.ctxClass == cfg.deviceClass)).map
    (fun r => r.said)).dedup

/-- Byte size of one id under the uniform size/dtype assignment. -/
def idBytes (cfg : Cfg) (sz dt : Nat → Nat) (id : Nat) : Nat :=
  sz id * cfg.sizeofDtype (dt id)

/-- Bytes of the ids with a pending device GETCAST in the window `[p, h)`:
the exact value of `used_bytes_swap_in` during planning. -/
def activeBytes (cfg : Cfg) (sz dt : Nat → Nat) (l : List RecType) (p h : Nat) : Nat :=
  ((devIds cfg l).map
    (fun id => if 0 < occD cfg l id p h then idBytes cfg sz dt id else 0)).sum

theorem devIds_nodup (cfg : Cfg) (l : List RecType) : (devIds cfg l).Nodup :=
  List.nodup_dedup _

theorem mem_devIds_of_devIdAt (cfg : Cfg) (l : List RecType) {id j : Nat}
    (hj : devIdAt cfg l id j = true) : id ∈ devIds cfg l := by
  unfold devIdAt at hj
  cases hget : l.get? j with
  | none => rw [hget] at hj; cases hj
  | some r =>
    rw [hget] at hj
    have hr : (r.tag = RecTag.getcast ∧ r.ctxClass = cfg.deviceClass) ∧ r.said = id := by
      simpa using hj
    unfold devIds
    rw [List.mem_dedup]
    refine List.mem_map.mpr ⟨r, ?_, hr.2⟩
    rw [List.mem_filter]
    exact ⟨List.get?_mem hget, by simp [hr.1.1, hr.1.2]⟩

/-- Replacing the summand pointwise on the index list leaves the sum. -/
theorem sum_map_congr {α : Type _} {L : List α} {f g : α → Nat}
    (h : ∀ y ∈ L, f y = g y) : (L.map f).sum = (L.map g).sum := by
  rw [List.map_congr_left h]

/-- Updating the summand at one index of a duplicate-free list. -/
theorem sum_map_update {α : Type _} [DecidableEq α] {L : List α} {f g : α → Nat} {x : α}
    (hn : L.Nodup) (hx : x ∈ L) (hoff : ∀ y ∈ L, y ≠ x → g y = f y) :
    (L.map g).sum + f x = (L.map f).sum + g x := by
  induction L with
  | nil => cases hx
  | cons y ys ih =>
    have hny : y ∉ ys := (List.nodup_cons.mp hn).1
    have hnys : ys.Nodup := (List.nodup_cons.mp hn).2
    rcases List.mem_cons.mp hx with hxy | hxys
    · subst hxy
      have hagree : ∀ z ∈ ys, g z = f z := fun z hz =>
        hoff z (List.mem_cons_of_mem _ hz) (fun hzx => hny (hzx ▸ hz))
      have : (ys.map g).sum = (ys.map f).sum := sum_map_congr hagree
      simp only [List.map_cons, List.sum_cons]
      omega
    · have hyx : y ≠ x := fun hyx => hny (hyx ▸ hxys)
      have hgy : g y = f y := hoff y (List.mem_cons_self _ _) hyx
      have := ih hnys hxys (fun z hz hzx => hoff z (List.mem_cons_of_mem _ hz) hzx)
      simp only [List.map_cons, List.sum_cons, hgy]
      omega

/-- One summand bounds the sum. -/
theorem sum_map_le {α : Type _} {L : List α} {f : α → Nat} {x : α} (hx : x ∈ L) :
    f x ≤ (L.map f).sum :=
  List.single_le_sum (fun _ _ => Nat.zero_le _) _ (List.mem_map_of_mem f hx)

/-- Per-record contribution to `used_bytes_swap_out`. -/
def flagTerm (r : RecType) : Nat := if r.swappedOut then r.swappedOutBytes else 0

/-- Bytes of the records flagged swapped-out and not yet waited on: the exact
value of `used_bytes_swap_out` during planning. -/
def flagBytes (l : List RecType) : Nat := (l.map flagTerm).sum

theorem flagBytes_updRec (l : List RecType) (j : Nat) (f : RecType → RecType) {r : RecType}
    (hget : l.get? j = some r) :
    flagBytes (updRec l j f) + flagTerm r = flagBytes l + flagTerm (f r) := by
  induction l generalizing j with
  | nil => cases hget
  | cons x rest ih =>
    match j with
    | 0 =>
      have hx : x = r := by simpa using hget
      rw [show updRec (x :: rest) 0 f = f x :: rest from rfl, hx]
      unfold flagBytes
      simp only [List.map_cons, List.sum_cons]
      omega
    | n + 1 =>
      have hget2 : rest.get? n = some r := by simpa using hget
      have hrec := ih n hget2
      rw [show updRec (x :: rest) (n + 1) f = x :: updRec rest n f from rfl]
      unfold flagBytes at hrec ⊢
      simp only [List.map_cons, List.sum_cons]
      omega

theorem flagTerm_le_flagBytes (l : List RecType) {j : Nat} {r : RecType}
    (hget : l.get? j = some r) : flagTerm r ≤ flagBytes l :=
  sum_map_le (List.get?_mem hget)

theorem flagBytes_eq_zero (l : List RecType) (h : ∀ r ∈ l, r.swappedOut = false) :
    flagBytes l = 0 := by
  unfold flagBytes
  rw [List.sum_eq_zero]
  intro x hx
  rcases List.mem_map.mp hx with ⟨r, hr, hrx⟩
  rw [← hrx]
  unfold flagTerm
  rw [h r hr]
  rfl

theorem exists_flag_of_flagBytes_pos (l : List RecType) (h : 0 < flagBytes l) :
    ∃ j r, l.get? j = some r ∧ r.swappedOut = true := by
  by_contra hno
  push_neg at hno
  have : ∀ r ∈ l, r.swappedOut = false := by
    intro r hr
    rcases List.mem_iff_get?.mp hr with ⟨j, hj⟩
    have := hno j r hj
    simpa using this
  rw [flagBytes_eq_zero l this] at h
  exact absurd h (by omega)

/-- `j` holds a host-class GETCAST of id `id` in trace `l`. -/
def hostIdAt (cfg : Cfg) (l : List RecType) (id j : Nat) : Bool :=
  match l.get? j with
  | some r => r.tag == RecTag.getcast && r.ctxClass == cfg.hostClass && r.said == id
  | none => false

theorem devIdAt_iff (cfg : Cfg) (l : List RecType) {j : Nat} {r0 : RecType}
    (hget : l.get? j = some r0) (id : Nat) :
    devIdAt cfg l id j = true ↔
      (r0.tag = RecTag.getcast ∧ r0.ctxClass = cfg.deviceClass ∧ r0.said = id) := by
  unfold devIdAt
  rw [hget]
  simp [and_assoc]

theorem hostIdAt_iff (cfg : Cfg) (l : List RecType) {j : Nat} {r0 : RecType}
    (hget : l.get? j = some r0) (id : Nat) :
    hostIdAt cfg l id j = true ↔
      (r0.tag = RecTag.getcast ∧ r0.ctxClass = cfg.hostClass ∧ r0.said = id) := by
  unfold hostIdAt
  rw [hget]
  simp [and_assoc]

theorem countsGet_aset (m : Counts) (k : Nat) (v : Inner) (q : Nat) :
    countsGet (aset m k v) q = if q = k then v else countsGet m q := by
  unfold countsGet
  rw [alookup_aset]
  split_ifs <;> rfl

theorem innerGet_single (d : Nat) (c : Int) : innerGet [(d, c)] d = c := by
  simp [innerGet, alookup]

theorem aset_nil {α : Type _} (k : Nat) (v : α) : aset [] k v = [(k, v)] := rfl

theorem aset_single_self {α : Type _} (d : Nat) (c v : α) : aset [(d, c)] d v = [(d, v)] := by
  simp [aset]

/-- `counts[id][d] += dv` seen through `countsGet`. -/
theorem countsGet_countsBump (m : Counts) (id d : Nat) (dv : Int) (q : Nat) :
    countsGet (countsBump m id d dv) q =
      if q = id then aset (countsGet m id) d (innerGet (countsGet m id) d + dv)
      else countsGet m q := by
  unfold countsBump
  rw [countsGet_aset]

/-- Uniformity assumptions on the recorded trace under which the planner's
byte accounting is exact: every GETCAST record is on the device or the host
class and the two differ, device GETCASTs of one id agree on size and dtype
(read off by `sz`/`dt`), per-id byte sizes cannot wrap the 64-bit budget
arithmetic, and no record starts flagged as swapped out. -/
structure Uniform (cfg : Cfg) (sz dt : Nat → Nat) (l : List RecType) : Prop where
  devhost : cfg.deviceClass ≠ cfg.hostClass
  classes : ∀ r ∈ l, r.tag = RecTag.getcast →
    r.ctxClass = cfg.deviceClass ∨ r.ctxClass = cfg.hostClass
  uni : ∀ r ∈ l, r.tag = RecTag.getcast → r.ctxClass = cfg.deviceClass →
    r.size = sz r.said ∧ r.dtype = dt r.said
  small : ∀ r ∈ l, idBytes cfg sz dt r.said + cfg.maxBytesSwapIn < wordSize
  flags0 : ∀ r ∈ l, r.swappedOut = false ∧ r.swappedOutBytes = 0
  Bword : cfg.maxBytesSwapIn < wordSize

/-- The per-function-loop invariant tying planner state `s` to the fixed
preclear-marked trace `l`, with `p` the processed marker (records below `p`
have left the look-ahead window; `[p, head)` is the window). -/
structure Inv (cfg : Cfg) (sz dt : Nat → Nat) (l : List RecType) (s : PSt) (p : Nat) : Prop where
  core : ∀ j r0, l.get? j = some r0 → ∃ r, s.ord.get? j = some r ∧
    r.tag = r0.tag ∧ r.said = r0.said ∧ r.size = r0.size ∧ r.dtype = r0.dtype ∧
    r.ctxClass = r0.ctxClass ∧ r.preclear = r0.preclear
  len : s.ord.length = l.length
  pLe : p ≤ s.head
  headLe : s.head ≤ l.length
  tailLe : s.tail ≤ p
  cnt : ∀ id, (countsGet s.counts id = [] ∧ occD cfg l id p s.head = 0) ∨
    countsGet s.counts id = [(dt id, (occD cfg l id p s.head : Int))]
  inEq : s.usedIn = activeBytes cfg sz dt l p s.head
  inLe : s.usedIn ≤ cfg.maxBytesSwapIn - cfg.maxBytesSwapOut
  outEq : s.usedOut = flagBytes s.ord
  located : ∀ j r, s.ord.get? j = some r → r.swappedOut = true → s.tail ≤ j ∧ j < p
  err : s.err = none

/-- Inverse direction of `Inv.core`: a record of the evolving trace projects
onto the fixed trace. -/
theorem Inv_coreInv {cfg : Cfg} {sz dt : Nat → Nat} {l : List RecType} {s : PSt} {p : Nat}
    (I : Inv cfg sz dt l s p) {j : Nat} {r : RecType} (hs : s.ord.get? j = some r) :
    ∃ r0, l.get? j = some r0 ∧
      r.tag = r0.tag ∧ r.said = r0.said ∧ r.size = r0.size ∧ r.dtype = r0.dtype ∧
      r.ctxClass = r0.ctxClass ∧ r.preclear = r0.preclear := by
  have hj : j < l.length := by
    rw [← I.len]
    exact List.get?_eq_some.mp hs |>.1
  obtain ⟨r0, hr0⟩ : ∃ r0, l.get? j = some r0 := by
    cases hget : l.get? j with
    | none => exact absurd (List.get?_eq_none.mp hget) (by omega)
    | some r0 => exact ⟨r0, rfl⟩
  obtain ⟨r1, hr1, hfields⟩ := I.core j r0 hr0
  rw [hs] at hr1
  cases hr1
  exact ⟨r0, hr0, hfields⟩


/-- Selection predicate of the swap-in pass: scanning from `h0` with the
pinned-id set `pins` and window base `p`, position `j` is scheduled iff it
is a device GETCAST whose id has no pending use in `[p, j)`, is not pinned
on entry, and saw no host GETCAST earlier in the same pass. -/
def inPick (cfg : Cfg) (l : List RecType) (pins : List Nat) (h0 p j : Nat) : Prop :=
  ∃ r0, l.get? j = some r0 ∧ r0.tag = RecTag.getcast ∧ r0.ctxClass = cfg.deviceClass ∧
    occD cfg l r0.said p j = 0 ∧
    pins.contains r0.said = false ∧
    ∀ k, h0 ≤ k → k < j → hostIdAt cfg l r0.said k = false

/-- Advancing the scan over a record that pins nothing and is not a host
GETCAST leaves the selection predicate unchanged. -/
theorem inPick_shift_other (cfg : Cfg) (l : List RecType) (pins : List Nat) {a p j : Nat}
    (hnohost : ∀ id, hostIdAt cfg l id a = false) :
    inPick cfg l pins a p j ↔ inPick cfg l pins (a + 1) p j := by
  unfold inPick
  constructor
  · rintro ⟨r0, h1, h2, h3, h4, h5, h6⟩
    exact ⟨r0, h1, h2, h3, h4, h5, fun k hk1 hk2 => h6 k (by omega) hk2⟩
  · rintro ⟨r0, h1, h2, h3, h4, h5, h6⟩
    refine ⟨r0, h1, h2, h3, h4, h5, fun k hk1 hk2 => ?_⟩
    rcases Nat.eq_or_lt_of_le hk1 with hk | hk
    · rw [← hk]; exact hnohost r0.said
    · exact h6 k (by omega) hk2

/-- Advancing the scan over a host GETCAST of `id0` trades the host-history
condition at `a` for a pin of `id0`. -/
theorem inPick_shift_host (cfg : Cfg) (l : List RecType) (pins : List Nat) {a p j id0 : Nat}
    (hhost : hostIdAt cfg l id0 a = true)
    (honly : ∀ id, hostIdAt cfg l id a = true → id = id0) (hj : a + 1 ≤ j) :
    inPick cfg l pins a p j ↔ inPick cfg l (setInsert pins id0) (a + 1) p j := by
  unfold inPick
  constructor
  · rintro ⟨r0, h1, h2, h3, h4, h5, h6⟩
    have hne : r0.said ≠ id0 := by
      intro he
      have := h6 a (by omega) (by omega)
      rw [he, hhost] at this
      cases this
    refine ⟨r0, h1, h2, h3, h4, ?_, fun k hk1 hk2 => h6 k (by omega) hk2⟩
    rw [contains_setInsert]
    simp only [Bool.or_eq_false_iff]
    exact ⟨by simpa using hne, h5⟩
  · rintro ⟨r0, h1, h2, h3, h4, h5, h6⟩
    rw [contains_setInsert, Bool.or_eq_false_iff] at h5
    have hne : r0.said ≠ id0 := by
      have := h5.1
      simpa using this
    refine ⟨r0, h1, h2, h3, h4, h5.2, fun k hk1 hk2 => ?_⟩
    rcases Nat.eq_or_lt_of_le hk1 with hk | hk
    · rw [← hk]
      cases hcase : hostIdAt cfg l r0.said a with
      | false => rfl
      | true => exact absurd (honly r0.said hcase) hne
    · exact h6 k (by omega) hk2

/-- Membership bookkeeping when the scan advances without scheduling `a`. -/
theorem inPick_bridge_none (cfg : Cfg) (l : List RecType) (pins0 pins1 acc : List Nat)
    {a p hd : Nat}
    (hshift : ∀ j, a + 1 ≤ j → (inPick cfg l pins0 a p j ↔ inPick cfg l pins1 (a + 1) p j))
    (hself : ¬ inPick cfg l pins0 a p a) (j : Nat) :
    (j ∈ acc ∨ (a + 1 ≤ j ∧ j < hd ∧ inPick cfg l pins1 (a + 1) p j)) ↔
    (j ∈ acc ∨ (a ≤ j ∧ j < hd ∧ inPick cfg l pins0 a p j)) := by
  constructor
  · rintro (h | ⟨h1, h2, h3⟩)
    · exact Or.inl h
    · exact Or.inr ⟨by omega, h2, (hshift j h1).mpr h3⟩
  · rintro (h | ⟨h1, h2, h3⟩)
    · exact Or.inl h
    · rcases Nat.eq_or_lt_of_le h1 with hj | hj
      · exact absurd ((hj ▸ h3 : inPick cfg l pins0 a p a)) hself
      · exact Or.inr ⟨by omega, h2, (hshift j (by omega)).mp h3⟩

/-- Membership bookkeeping when the scan schedules `a` and advances. -/
theorem inPick_bridge_push (cfg : Cfg) (l : List RecType) (pins0 pins1 acc : List Nat)
    {a p hd : Nat} (hhd : a + 1 ≤ hd)
    (hshift : ∀ j, a + 1 ≤ j → (inPick cfg l pins0 a p j ↔ inPick cfg l pins1 (a + 1) p j))
    (hself : inPick cfg l pins0 a p a) (j : Nat) :
    (j ∈ acc ++ [a] ∨ (a + 1 ≤ j ∧ j < hd ∧ inPick cfg l pins1 (a + 1) p j)) ↔
    (j ∈ acc ∨ (a ≤ j ∧ j < hd ∧ inPick cfg l pins0 a p j)) := by
  rw [List.mem_append, List.mem_singleton]
  constructor
  · rintro ((h | h) | ⟨h1, h2, h3⟩)
    · exact Or.inl h
    · exact Or.inr ⟨by omega, by omega, h ▸ hself⟩
    · exact Or.inr ⟨by omega, h2, (hshift j h1).mpr h3⟩
  · rintro (h | ⟨h1, h2, h3⟩)
    · exact Or.inl (Or.inl h)
    · rcases Nat.eq_or_lt_of_le h1 with hj | hj
      · exact Or.inl (Or.inr hj.symm)
      · exact Or.inr ⟨by omega, h2, (hshift j (by omega)).mp h3⟩

theorem tag_not_clear {t : RecTag} (h : t ≠ RecTag.clear) : t = RecTag.getcast := by
  cases t with
  | getcast => rfl
  | clear => exact absurd rfl h

theorem activeBytes_eq_of_occ (cfg : Cfg) (sz dt : Nat → Nat) (l : List RecType)
    {p1 h1 p2 h2 : Nat} (h : ∀ id, occD cfg l id p1 h1 = occD cfg l id p2 h2) :
    activeBytes cfg sz dt l p1 h1 = activeBytes cfg sz dt l p2 h2 :=
  sum_map_congr (fun id _ => by rw [h id])

/-- Advancing the frontier over a device GETCAST whose id was idle adds the
id’s bytes to the active sum. -/
theorem activeBytes_succ_dev_new (cfg : Cfg) (sz dt : Nat → Nat) (l : List RecType)
    {p h : Nat} {r0 : RecType} (hget : l.get? h = some r0) (h2 : r0.tag = RecTag.getcast)
    (h3 : r0.ctxClass = cfg.deviceClass) (hp : p ≤ h)
    (hocc : occD cfg l r0.said p h = 0) :
    activeBytes cfg sz dt l p (h + 1) = activeBytes cfg sz dt l p h + idBytes cfg sz dt r0.said := by
  have hdev : devIdAt cfg l r0.said h = true := (devIdAt_iff cfg l hget r0.said).mpr ⟨h2, h3, rfl⟩
  have hind : ∀ id, occD cfg l id p (h + 1) =
      occD cfg l id p h + (if id = r0.said then 1 else 0) := by
    intro id
    rw [occD_succ_right cfg l id hp]
    by_cases hid : id = r0.said
    · rw [if_pos hid, hid, hdev, if_pos rfl]
    · rw [if_neg hid, show devIdAt cfg l id h = false from ?_, if_neg (by simp)]
      cases hcase : devIdAt cfg l id h with
      | false => rfl
      | true =>
        exact absurd ((devIdAt_iff cfg l hget id).mp hcase).2.2.symm hid
  have key := sum_map_update (α := Nat)
    (L := devIds cfg l)
    (f := fun id => if 0 < occD cfg l id p h then idBytes cfg sz dt id else 0)
    (g := fun id => if 0 < occD cfg l id p (h + 1) then idBytes cfg sz dt id else 0)
    (x := r0.said)
    (devIds_nodup cfg l) (mem_devIds_of_devIdAt cfg l hdev)
    (fun y _ hy => by
      show (if 0 < occD cfg l y p (h + 1) then idBytes cfg sz dt y else 0)
        = (if 0 < occD cfg l y p h then idBytes cfg sz dt y else 0)
      rw [hind y, if_neg hy]
      simp)
  have hf0 : (fun id => if 0 < occD cfg l id p h then idBytes cfg sz dt id else 0) r0.said
      = 0 := by
    show (if 0 < occD cfg l r0.said p h then idBytes cfg sz dt r0.said else 0) = 0
    rw [hocc]
    simp
  have hg1 : (fun id => if 0 < occD cfg l id p (h + 1) then idBytes cfg sz dt id else 0) r0.said
      = idBytes cfg sz dt r0.said := by
    show (if 0 < occD cfg l r0.said p (h + 1) then idBytes cfg sz dt r0.said else 0) = _
    rw [hind r0.said, if_pos rfl, hocc]
    simp
  rw [hf0, hg1] at key
  unfold activeBytes
  omega

/-- Advancing the frontier over a device GETCAST whose id was already pending
leaves the active sum unchanged. -/
theorem activeBytes_succ_dev_old (cfg : Cfg) (sz dt : Nat → Nat) (l : List RecType)
    {p h : Nat} {r0 : RecType} (hget : l.get? h = some r0) (hp : p ≤ h)
    (hocc : occD cfg l r0.said p h ≠ 0) :
    activeBytes cfg sz dt l p (h + 1) = activeBytes cfg sz dt l p h := by
  apply sum_map_congr
  intro y hy
  show (if 0 < occD cfg l y p (h + 1) then idBytes cfg sz dt y else 0)
    = (if 0 < occD cfg l y p h then idBytes cfg sz dt y else 0)
  rw [occD_succ_right cfg l y hp]
  by_cases hid : y = r0.said
  · rw [hid]
    have hpos : 0 < occD cfg l r0.said p h := by omega
    have hpos2 : 0 < occD cfg l r0.said p h + (if devIdAt cfg l r0.said h then 1 else 0) := by
      split_ifs <;> omega
    rw [if_pos hpos2, if_pos hpos]
  · rw [show devIdAt cfg l y h = false from ?_]
    · simp
    · cases hcase : devIdAt cfg l y h with
      | false => rfl
      | true => exact absurd ((devIdAt_iff cfg l hget y).mp hcase).2.2.symm hid

/-- Advancing the frontier over a record that is not a device GETCAST (a CLEAR
or a host GETCAST) preserves the whole invariant. -/
theorem Inv_bump_head {cfg : Cfg} {sz dt : Nat → Nat} {l : List RecType} {s : PSt} {p : Nat}
    (I : Inv cfg sz dt l s p) {r0 : RecType} (hget : l.get? s.head = some r0)
    (hnodev : ∀ id, devIdAt cfg l id s.head = false) :
    Inv cfg sz dt l { s with head := s.head + 1 } p := by
  have hlt : s.head < l.length := List.get?_eq_some.mp hget |>.1
  have hocc : ∀ id, occD cfg l id p (s.head + 1) = occD cfg l id p s.head := by
    intro id
    rw [occD_succ_right cfg l id I.pLe, hnodev id]
    simp
  refine ⟨I.core, I.len, ?_, ?_, I.tailLe, ?_, ?_, I.inLe, I.outEq, I.located, I.err⟩
  · have := I.pLe
    show p ≤ s.head + 1
    omega
  · show s.head + 1 ≤ l.length
    omega
  · intro id
    show (countsGet s.counts id = [] ∧ occD cfg l id p (s.head + 1) = 0) ∨
      countsGet s.counts id = [(dt id, (occD cfg l id p (s.head + 1) : Int))]
    rw [hocc id]
    exact I.cnt id
  · show s.usedIn = activeBytes cfg sz dt l p (s.head + 1)
    rw [activeBytes_eq_of_occ cfg sz dt l hocc]
    exact I.inEq

/-- Marking a record `no_need_swap_out` (and rewriting the `swapped_out`
flag map) preserves the invariant. -/
theorem Inv_cancel {cfg : Cfg} {sz dt : Nat → Nat} {l : List RecType} {s : PSt} {p : Nat}
    (I : Inv cfg sz dt l s p) (jj : Nat) (flags : List Nat) :
    Inv cfg sz dt l
      { s with ord := updRec s.ord jj (fun q => { q with noNeedSwapOut := true }),
               soFlag := flags } p := by
  have hget : ∀ j, (updRec s.ord jj (fun q => { q with noNeedSwapOut := true })).get? j =
      if jj = j then (s.ord.get? j).map (fun q => { q with noNeedSwapOut := true })
      else s.ord.get? j := fun j => updRec_get s.ord jj _ j
  refine ⟨?_, ?_, I.pLe, I.headLe, I.tailLe, I.cnt, I.inEq, I.inLe, ?_, ?_, I.err⟩
  · intro j r0 h0
    obtain ⟨r, hr, hf⟩ := I.core j r0 h0
    by_cases hjj : jj = j
    · exact ⟨{ r with noNeedSwapOut := true }, by rw [hget j, if_pos hjj, hr]; rfl, hf⟩
    · exact ⟨r, by rw [hget j, if_neg hjj]; exact hr, hf⟩
  · show (updRec s.ord jj _).length = l.length
    rw [updRec_length]
    exact I.len
  · show s.usedOut = flagBytes (updRec s.ord jj _)
    cases hj : s.ord.get? jj with
    | none =>
      have : updRec s.ord jj (fun q => { q with noNeedSwapOut := true }) = s.ord := by
        apply List.ext
        intro n
        rw [hget n]
        by_cases hn : jj = n
        · rw [if_pos hn, ← hn, hj]; rfl
        · rw [if_neg hn]
      rw [this]
      exact I.outEq
    | some r =>
      have := flagBytes_updRec s.ord jj (fun q => { q with noNeedSwapOut := true }) hj
      have hterm : flagTerm { r with noNeedSwapOut := true } = flagTerm r := rfl
      rw [hterm] at this
      have := I.outEq
      omega
  · intro j r hj hflag
    rw [hget j] at hj
    by_cases hjj : jj = j
    · rw [if_pos hjj] at hj
      cases hj2 : s.ord.get? j with
      | none => rw [hj2] at hj; cases hj
      | some q =>
        rw [hj2] at hj
        have hq : r = { q with noNeedSwapOut := true } := by
          simpa using hj.symm
        have : q.swappedOut = true := by rw [hq] at hflag; exact hflag
        exact I.located j q hj2 this
    · rw [if_neg hjj] at hj
      exact I.located j r hj hflag

/-- Pointwise window-count change when the frontier passes a device GETCAST. -/
theorem occD_succ_head_dev (cfg : Cfg) (l : List RecType) {p h : Nat} {r0 : RecType}
    (hget : l.get? h = some r0) (htag : r0.tag = RecTag.getcast)
    (hctx : r0.ctxClass = cfg.deviceClass) (hp : p ≤ h) (id : Nat) :
    occD cfg l id p (h + 1) = occD cfg l id p h + (if id = r0.said then 1 else 0) := by
  rw [occD_succ_right cfg l id hp]
  by_cases hid : id = r0.said
  · rw [if_pos hid, hid,
      (devIdAt_iff cfg l hget r0.said).mpr ⟨htag, hctx, rfl⟩, if_pos rfl]
  · rw [if_neg hid, show devIdAt cfg l id h = false from ?_, if_neg (by simp)]
    cases hcase : devIdAt cfg l id h with
    | false => rfl
    | true => exact absurd ((devIdAt_iff cfg l hget id).mp hcase).2.2.symm hid

/-- Advancing the frontier over a device GETCAST with an idle id: the byte
counter gains the id's bytes (the source's `used_bytes_swap_in +=
next_array_bytes`) and the count map gains one use. -/
theorem Inv_fetch_advance {cfg : Cfg} {sz dt : Nat → Nat} {l : List RecType} {s : PSt} {p : Nat}
    (U : Uniform cfg sz dt l) (I : Inv cfg sz dt l s p)
    {r0 : RecType} (hr0 : l.get? s.head = some r0) (htag : r0.tag = RecTag.getcast)
    (hctx : r0.ctxClass = cfg.deviceClass)
    (hocc : occD cfg l r0.said p s.head = 0)
    (hguard : wadd s.usedIn (wmul (sz r0.said) (cfg.sizeofDtype (dt r0.said))) ≤
      cfg.maxBytesSwapIn - cfg.maxBytesSwapOut) :
    Inv cfg sz dt l
      { s with usedIn := wadd s.usedIn (wmul (sz r0.said) (cfg.sizeofDtype (dt r0.said))),
               counts := countsBump s.counts r0.said (dt r0.said) 1,
               head := s.head + 1 } p := by
  have hlt : s.head < l.length := List.get?_eq_some.mp hr0 |>.1
  have hmem : r0 ∈ l := List.get?_mem hr0
  have hsmall := U.small r0 hmem
  have hBlt : cfg.maxBytesSwapIn < wordSize := by
    unfold idBytes at hsmall
    omega
  have hnb : wmul (sz r0.said) (cfg.sizeofDtype (dt r0.said)) = idBytes cfg sz dt r0.said := by
    unfold wmul idBytes
    unfold idBytes at hsmall
    exact Nat.mod_eq_of_lt (by omega)
  have hinLe := I.inLe
  have hcap : cfg.maxBytesSwapIn - cfg.maxBytesSwapOut ≤ cfg.maxBytesSwapIn := by omega
  have hwadd : wadd s.usedIn (wmul (sz r0.said) (cfg.sizeofDtype (dt r0.said)))
      = s.usedIn + idBytes cfg sz dt r0.said := by
    rw [hnb]
    unfold wadd
    unfold idBytes at hsmall
    exact Nat.mod_eq_of_lt (by unfold idBytes; omega)
  have hind := occD_succ_head_dev cfg l hr0 htag hctx I.pLe
  refine ⟨I.core, I.len, ?_, ?_, I.tailLe, ?_, ?_, ?_, I.outEq, I.located, I.err⟩
  · show p ≤ s.head + 1
    have := I.pLe
    omega
  · show s.head + 1 ≤ l.length
    omega
  · intro id
    show (countsGet (countsBump s.counts r0.said (dt r0.said) 1) id = [] ∧
        occD cfg l id p (s.head + 1) = 0) ∨
      countsGet (countsBump s.counts r0.said (dt r0.said) 1) id =
        [(dt id, (occD cfg l id p (s.head + 1) : Int))]
    rw [countsGet_countsBump, hind id]
    by_cases hid : id = r0.said
    · rw [if_pos hid, if_pos hid, hid, hocc]
      rcases I.cnt r0.said with ⟨hnil, _⟩ | hone
      · rw [hnil, aset_nil]
        right
        show [(dt r0.said, innerGet [] (dt r0.said) + 1)] = _
        rw [show innerGet [] (dt r0.said) = 0 from rfl]
        norm_num
      · rw [hone, hocc] at *
        rw [hone]
        right
        rw [innerGet_single, aset_single_self]
        norm_num
    · rw [if_neg hid, if_neg hid]
      have := I.cnt id
      simpa using this
  · show wadd s.usedIn (wmul (sz r0.said) (cfg.sizeofDtype (dt r0.said)))
      = activeBytes cfg sz dt l p (s.head + 1)
    rw [hwadd, activeBytes_succ_dev_new cfg sz dt l hr0 htag hctx I.pLe hocc, I.inEq]
  · exact hguard

/-- Advancing the frontier over a device GETCAST whose id is already pending:
only the count map changes. -/
theorem Inv_nofetch_advance {cfg : Cfg} {sz dt : Nat → Nat} {l : List RecType} {s : PSt} {p : Nat}
    (I : Inv cfg sz dt l s p)
    {r0 : RecType} (hr0 : l.get? s.head = some r0) (htag : r0.tag = RecTag.getcast)
    (hctx : r0.ctxClass = cfg.deviceClass)
    (hocc : occD cfg l r0.said p s.head ≠ 0) :
    Inv cfg sz dt l
      { s with counts := countsBump s.counts r0.said (dt r0.said) 1,
               head := s.head + 1 } p := by
  have hlt : s.head < l.length := List.get?_eq_some.mp hr0 |>.1
  have hind := occD_succ_head_dev cfg l hr0 htag hctx I.pLe
  refine ⟨I.core, I.len, ?_, ?_, I.tailLe, ?_, ?_, I.inLe, I.outEq, I.located, I.err⟩
  · show p ≤ s.head + 1
    have := I.pLe
    omega
  · show s.head + 1 ≤ l.length
    omega
  · intro id
    show (countsGet (countsBump s.counts r0.said (dt r0.said) 1) id = [] ∧
        occD cfg l id p (s.head + 1) = 0) ∨
      countsGet (countsBump s.counts r0.said (dt r0.said) 1) id =
        [(dt id, (occD cfg l id p (s.head + 1) : Int))]
    rw [countsGet_countsBump, hind id]
    by_cases hid : id = r0.said
    · rw [if_pos hid, if_pos hid, hid]
      rcases I.cnt r0.said with ⟨_, hz⟩ | hone
      · exact absurd hz hocc
      · rw [hone, innerGet_single, aset_single_self]
        right
        norm_num
    · rw [if_neg hid, if_neg hid]
      have := I.cnt id
      simpa using this
  · show s.usedIn = activeBytes cfg sz dt l p (s.head + 1)
    rw [activeBytes_succ_dev_old cfg sz dt l hr0 I.pLe hocc]
    exact I.inEq

theorem mem_self_bridge {acc : List Nat} {a : Nat} (P : Nat → Prop) (j : Nat) :
    j ∈ acc ↔ j ∈ acc ∨ (a ≤ j ∧ j < a ∧ P j) := by
  constructor
  · exact Or.inl
  · rintro (h | ⟨h1, h2, _⟩)
    · exact h
    · omega

/-- Main invariant/coverage lemma of `schedule_swap_in`'s loop: under the
uniformity assumptions the invariant is preserved with the window base `p`
fixed, the prefetch frontier only advances, and the returned schedule extends
`acc` by exactly the scanned positions satisfying the selection predicate. -/
theorem swap_in_body_inv (cfg : Cfg) (sz dt : Nat → Nat) (l : List RecType)
    (U : Uniform cfg sz dt l) :
    ∀ (fuel : Nat) (s : PSt) (pins acc : List Nat) (p : Nat),
      Inv cfg sz dt l s p →
      Inv cfg sz dt l (swap_in_body cfg fuel s pins acc).1 p ∧
      s.head ≤ (swap_in_body cfg fuel s pins acc).1.head ∧
      (∀ j, j ∈ (swap_in_body cfg fuel s pins acc).2 ↔ j ∈ acc ∨
        (s.head ≤ j ∧ j < (swap_in_body cfg fuel s pins acc).1.head ∧
          inPick cfg l pins s.head p j)) := by
  intro fuel
  induction fuel with
  | zero =>
    intro s pins acc p I
    exact ⟨I, Nat.le_refl _, fun j => mem_self_bridge _ j⟩
  | succ n ih =>
    intro s pins acc p I
    rw [swap_in_body]
    cases hget : s.ord.get? s.head with
    | none =>
      simp only [hget]
      exact ⟨I, Nat.le_refl _, fun j => mem_self_bridge _ j⟩
    | some r =>
      simp only [hget]
      obtain ⟨r0, hr0, hftag, hfsaid, hfsize, hfdtype, hfctx, hfpre⟩ := Inv_coreInv I hget
      have hmem : r0 ∈ l := List.get?_mem hr0
      by_cases h1 : r.tag = RecTag.clear
      · rw [if_pos h1]
        have htag0 : r0.tag = RecTag.clear := by rw [← hftag]; exact h1
        have hnodev : ∀ id, devIdAt cfg l id s.head = false := by
          intro id
          cases hcase : devIdAt cfg l id s.head with
          | false => rfl
          | true =>
            have h := ((devIdAt_iff cfg l hr0 id).mp hcase).1
            rw [htag0] at h
            cases h
        have hnohost : ∀ id, hostIdAt cfg l id s.head = false := by
          intro id
          cases hcase : hostIdAt cfg l id s.head with
          | false => rfl
          | true =>
            have h := ((hostIdAt_iff cfg l hr0 id).mp hcase).1
            rw [htag0] at h
            cases h
        have I2 := Inv_bump_head I hr0 hnodev
        obtain ⟨IH1, IH2, IH3⟩ := ih { s with head := s.head + 1 } pins acc p I2
        refine ⟨IH1, le_trans (Nat.le_succ _) IH2, fun j => ?_⟩
        refine (IH3 j).trans (inPick_bridge_none cfg l pins pins acc
          (fun j2 _ => inPick_shift_other cfg l pins hnohost) ?_ j)
        rintro ⟨r0b, hr0b, htagb, -⟩
        rw [hr0] at hr0b
        cases hr0b
        rw [htag0] at htagb
        cases htagb
      · rw [if_neg h1]
        have htag0 : r0.tag = RecTag.getcast :=
          tag_not_clear (fun hc => h1 (by rw [hftag, hc]))
        by_cases h2 : r.ctxClass = cfg.deviceClass
        · rw [if_pos h2]
          have hctx0 : r0.ctxClass = cfg.deviceClass := by rw [← hfctx]; exact h2
          have hsz : r.size = sz r0.said := by
            rw [hfsize]
            exact (U.uni r0 hmem htag0 hctx0).1
          have hdt2 : r.dtype = dt r0.said := by
            rw [hfdtype]
            exact (U.uni r0 hmem htag0 hctx0).2
          rw [hsz, hdt2, hfsaid]
          by_cases h3 : wadd s.usedIn (wmul (sz r0.said) (cfg.sizeofDtype (dt r0.said))) >
              cfg.maxBytesSwapIn - cfg.maxBytesSwapOut
          · rw [if_pos h3]
            exact ⟨I, Nat.le_refl _, fun j => mem_self_bridge _ j⟩
          · rw [if_neg h3]
            have hguard : wadd s.usedIn (wmul (sz r0.said) (cfg.sizeofDtype (dt r0.said))) ≤
                cfg.maxBytesSwapIn - cfg.maxBytesSwapOut := by omega
            have hnohost : ∀ id, hostIdAt cfg l id s.head = false := by
              intro id
              cases hcase : hostIdAt cfg l id s.head with
              | false => rfl
              | true =>
                have h := ((hostIdAt_iff cfg l hr0 id).mp hcase).2.1
                exact absurd (hctx0.symm.trans h) U.devhost
            have hshift : ∀ j2, s.head + 1 ≤ j2 →
                (inPick cfg l pins s.head p j2 ↔ inPick cfg l pins (s.head + 1) p j2) :=
              fun j2 _ => inPick_shift_other cfg l pins hnohost
            by_cases hfetch : innerGet (countsGet s.counts r0.said) (dt r0.said) = 0
            · have hocc : occD cfg l r0.said p s.head = 0 := by
                rcases I.cnt r0.said with ⟨hnil, hz⟩ | hone
                · exact hz
                · rw [hone, innerGet_single] at hfetch
                  exact_mod_cast hfetch
              by_cases hpin : pins.contains r0.said = true
              · have hc1 : ¬ (innerGet (countsGet s.counts r0.said) (dt r0.said) = 0 ∧
                    ¬ pins.contains r0.said = true) := fun hc => hc.2 hpin
                have hc2 : ¬ (innerGet (countsGet s.counts r0.said) (dt r0.said) = 0 ∧
                    ¬ pins.contains r0.said = true ∧ s.soFlag.contains r0.said = true) :=
                  fun hc => hc.2.1 hpin
                rw [if_neg hc1, if_neg hc2, if_pos hfetch]
                have I2 := Inv_fetch_advance U I hr0 htag0 hctx0 hocc hguard
                obtain ⟨IH1, IH2, IH3⟩ := ih _ pins acc p I2
                refine ⟨IH1, le_trans (Nat.le_succ _) IH2, fun j => ?_⟩
                refine (IH3 j).trans (inPick_bridge_none cfg l pins pins acc hshift ?_ j)
                rintro ⟨r0b, hr0b, -, -, -, hpinb, -⟩
                rw [hr0] at hr0b
                cases hr0b
                rw [hpin] at hpinb
                cases hpinb
              · have hself : inPick cfg l pins s.head p s.head := by
                  refine ⟨r0, hr0, htag0, hctx0, hocc, ?_, fun k hk1 hk2 => absurd hk1 (by omega)⟩
                  cases hcp : pins.contains r0.said with
                  | false => rfl
                  | true => exact absurd hcp hpin
                have hc1 : innerGet (countsGet s.counts r0.said) (dt r0.said) = 0 ∧
                    ¬ pins.contains r0.said = true := ⟨hfetch, hpin⟩
                rw [if_pos hc1]
                by_cases hso : s.soFlag.contains r0.said = true
                · have hc2 : innerGet (countsGet s.counts r0.said) (dt r0.said) = 0 ∧
                      ¬ pins.contains r0.said = true ∧ s.soFlag.contains r0.said = true :=
                    ⟨hfetch, hpin, hso⟩
                  rw [if_pos hc2]
                  cases halo : alookup s.soR r0.said with
                  | some jj =>
                    simp only [halo]
                    rw [if_pos hfetch]
                    have I2 := Inv_fetch_advance U
                      (Inv_cancel I jj (setRemove s.soFlag r0.said)) hr0 htag0 hctx0 hocc hguard
                    obtain ⟨IH1, IH2, IH3⟩ := ih _ pins (acc ++ [s.head]) p I2
                    refine ⟨IH1, le_trans (Nat.le_succ _) IH2, fun j => ?_⟩
                    exact (IH3 j).trans
                      (inPick_bridge_push cfg l pins pins acc IH2 hshift hself j)
                  | none =>
                    simp only [halo]
                    rw [if_pos hfetch]
                    have I2 := Inv_fetch_advance U I hr0 htag0 hctx0 hocc hguard
                    obtain ⟨IH1, IH2, IH3⟩ := ih _ pins (acc ++ [s.head]) p I2
                    refine ⟨IH1, le_trans (Nat.le_succ _) IH2, fun j => ?_⟩
                    exact (IH3 j).trans
                      (inPick_bridge_push cfg l pins pins acc IH2 hshift hself j)
                · have hc2 : ¬ (innerGet (countsGet s.counts r0.said) (dt r0.said) = 0 ∧
                      ¬ pins.contains r0.said = true ∧ s.soFlag.contains r0.said = true) :=
                    fun hc => hso hc.2.2
                  rw [if_neg hc2, if_pos hfetch]
                  have I2 := Inv_fetch_advance U I hr0 htag0 hctx0 hocc hguard
                  obtain ⟨IH1, IH2, IH3⟩ := ih _ pins (acc ++ [s.head]) p I2
                  refine ⟨IH1, le_trans (Nat.le_succ _) IH2, fun j => ?_⟩
                  exact (IH3 j).trans
                    (inPick_bridge_push cfg l pins pins acc IH2 hshift hself j)
            · have hocc : occD cfg l r0.said p s.head ≠ 0 := by
                intro hz
                rcases I.cnt r0.said with ⟨hnil, -⟩ | hone
                · apply hfetch
                  rw [hnil]
                  rfl
                · apply hfetch
                  rw [hone, innerGet_single, hz]
                  rfl
              have hc1 : ¬ (innerGet (countsGet s.counts r0.said) (dt r0.said) = 0 ∧
                  ¬ pins.contains r0.said = true) := fun hc => hfetch hc.1
              have hc2 : ¬ (innerGet (countsGet s.counts r0.said) (dt r0.said) = 0 ∧
                  ¬ pins.contains r0.said = true ∧ s.soFlag.contains r0.said = true) :=
                fun hc => hfetch hc.1
              rw [if_neg hc1, if_neg hc2, if_neg hfetch]
              have I2 := Inv_nofetch_advance I hr0 htag0 hctx0 hocc
              obtain ⟨IH1, IH2, IH3⟩ := ih _ pins acc p I2
              refine ⟨IH1, le_trans (Nat.le_succ _) IH2, fun j => ?_⟩
              refine (IH3 j).trans (inPick_bridge_none cfg l pins pins acc hshift ?_ j)
              rintro ⟨r0b, hr0b, -, -, hoccb, -, -⟩
              rw [hr0] at hr0b
              cases hr0b
              exact hocc hoccb
        · by_cases h5 : r.ctxClass = cfg.hostClass
          · rw [if_neg h2, if_pos h5]
            have hctx0 : r0.ctxClass = cfg.hostClass := by rw [← hfctx]; exact h5
            have hnodev : ∀ id, devIdAt cfg l id s.head = false := by
              intro id
              cases hcase : devIdAt cfg l id s.head with
              | false => rfl
              | true =>
                have h := ((devIdAt_iff cfg l hr0 id).mp hcase).2.1
                exact absurd (h.symm.trans hctx0) U.devhost
            have hhost : hostIdAt cfg l r0.said s.head = true :=
              (hostIdAt_iff cfg l hr0 r0.said).mpr ⟨htag0, hctx0, rfl⟩
            have honly : ∀ id, hostIdAt cfg l id s.head = true → id = r0.said :=
              fun id hc => ((hostIdAt_iff cfg l hr0 id).mp hc).2.2.symm
            rw [hfsaid]
            have I2 := Inv_bump_head I hr0 hnodev
            obtain ⟨IH1, IH2, IH3⟩ :=
              ih { s with head := s.head + 1 } (setInsert pins r0.said) acc p I2
            refine ⟨IH1, le_trans (Nat.le_succ _) IH2, fun j => ?_⟩
            refine (IH3 j).trans (inPick_bridge_none cfg l pins (setInsert pins r0.said) acc
              (fun j2 hj2 => inPick_shift_host cfg l pins hhost honly hj2) ?_ j)
            rintro ⟨r0b, hr0b, -, hctxb, -⟩
            rw [hr0] at hr0b
            cases hr0b
            exact U.devhost (hctxb.symm.trans hctx0)
          · rcases U.classes r0 hmem htag0 with hc | hc
            · exact absurd (hfctx.trans hc) h2
            · exact absurd (hfctx.trans hc) h5

/-! ## Exactness of the wrapped arithmetic -/

theorem wadd_eq (a b : Nat) (h : a + b < wordSize) : wadd a b = a + b :=
  Nat.mod_eq_of_lt h

theorem wsub_eq (a b : Nat) (hb : b ≤ a) (ha : a < wordSize) : wsub a b = a - b := by
  unfold wsub
  rw [Nat.mod_eq_of_lt (show b < wordSize by omega)]
  rw [show a + (wordSize - b) = wordSize + (a - b) from by omega]
  rw [Nat.add_mod_left]
  exact Nat.mod_eq_of_lt (by omega)

theorem wmul_idBytes (cfg : Cfg) (sz dt : Nat → Nat) (id : Nat)
    (h : idBytes cfg sz dt id + cfg.maxBytesSwapIn < wordSize) :
    wmul (sz id) (cfg.sizeofDtype (dt id)) = idBytes cfg sz dt id := by
  unfold wmul
  unfold idBytes at h ⊢
  exact Nat.mod_eq_of_lt (by omega)

/-! ## Window shrinking at the tail (the `schedule_swap_out` scan) -/

theorem occD_succ_tail_dev (cfg : Cfg) (l : List RecType) {i h : Nat} {r0 : RecType}
    (hget : l.get? i = some r0) (htag : r0.tag = RecTag.getcast)
    (hctx : r0.ctxClass = cfg.deviceClass) (hih : i < h) (id : Nat) :
    occD cfg l id i h = (if id = r0.said then 1 else 0) + occD cfg l id (i + 1) h := by
  rw [occD_succ_left cfg l id hih]
  by_cases hid : id = r0.said
  · rw [if_pos hid, hid, (devIdAt_iff cfg l hget r0.said).mpr ⟨htag, hctx, rfl⟩, if_pos rfl]
  · rw [if_neg hid, show devIdAt cfg l id i = false from ?_, if_neg (by simp)]
    cases hcase : devIdAt cfg l id i with
    | false => rfl
    | true => exact absurd ((devIdAt_iff cfg l hget id).mp hcase).2.2.symm hid

theorem occD_succ_tail_nodev (cfg : Cfg) (l : List RecType) {i h : Nat}
    (hnodev : ∀ id, devIdAt cfg l id i = false) (hih : i < h) (id : Nat) :
    occD cfg l id i h = occD cfg l id (i + 1) h := by
  rw [occD_succ_left cfg l id hih, hnodev id]
  simp

/-- Passing the last pending device GETCAST of an id removes its bytes from
the active sum. -/
theorem activeBytes_pred_dev_last (cfg : Cfg) (sz dt : Nat → Nat) (l : List RecType)
    {i h : Nat} {r0 : RecType} (hget : l.get? i = some r0) (htag : r0.tag = RecTag.getcast)
    (hctx : r0.ctxClass = cfg.deviceClass) (hih : i < h)
    (hdead : occD cfg l r0.said (i + 1) h = 0) :
    activeBytes cfg sz dt l (i + 1) h + idBytes cfg sz dt r0.said
      = activeBytes cfg sz dt l i h := by
  have hdev : devIdAt cfg l r0.said i = true := (devIdAt_iff cfg l hget r0.said).mpr ⟨htag, hctx, rfl⟩
  have hind := occD_succ_tail_dev cfg l hget htag hctx hih
  have key := sum_map_update (α := Nat)
    (L := devIds cfg l)
    (f := fun id => if 0 < occD cfg l id i h then idBytes cfg sz dt id else 0)
    (g := fun id => if 0 < occD cfg l id (i + 1) h then idBytes cfg sz dt id else 0)
    (x := r0.said)
    (devIds_nodup cfg l) (mem_devIds_of_devIdAt cfg l hdev)
    (fun y _ hy => by
      show (if 0 < occD cfg l y (i + 1) h then idBytes cfg sz dt y else 0)
        = (if 0 < occD cfg l y i h then idBytes cfg sz dt y else 0)
      rw [hind y, if_neg hy]
      simp)
  have hf1 : (fun id => if 0 < occD cfg l id i h then idBytes cfg sz dt id else 0) r0.said
      = idBytes cfg sz dt r0.said := by
    show (if 0 < occD cfg l r0.said i h then idBytes cfg sz dt r0.said else 0) = _
    rw [hind r0.said, if_pos rfl, hdead]
    simp
  have hg0 : (fun id => if 0 < occD cfg l id (i + 1) h then idBytes cfg sz dt id else 0) r0.said
      = 0 := by
    show (if 0 < occD cfg l r0.said (i + 1) h then idBytes cfg sz dt r0.said else 0) = 0
    rw [hdead]
    simp
  rw [hf1, hg0] at key
  unfold activeBytes
  omega

/-- Passing a device GETCAST whose id stays pending leaves the active sum. -/
theorem activeBytes_pred_dev_live (cfg : Cfg) (sz dt : Nat → Nat) (l : List RecType)
    {i h : Nat} {r0 : RecType} (hget : l.get? i = some r0) (htag : r0.tag = RecTag.getcast)
    (hctx : r0.ctxClass = cfg.deviceClass) (hih : i < h)
    (hlive : occD cfg l r0.said (i + 1) h ≠ 0) :
    activeBytes cfg sz dt l (i + 1) h = activeBytes cfg sz dt l i h := by
  have hind := occD_succ_tail_dev cfg l hget htag hctx hih
  apply sum_map_congr
  intro y hy
  show (if 0 < occD cfg l y (i + 1) h then idBytes cfg sz dt y else 0)
    = (if 0 < occD cfg l y i h then idBytes cfg sz dt y else 0)
  rw [hind y]
  by_cases hid : y = r0.said
  · rw [if_pos hid]
    rw [hid] at *
    rw [if_pos (by omega), if_pos (by omega)]
  · rw [if_neg hid]
    simp

theorem activeBytes_pred_nodev (cfg : Cfg) (sz dt : Nat → Nat) (l : List RecType)
    {i h : Nat} (hnodev : ∀ id, devIdAt cfg l id i = false) (hih : i < h) :
    activeBytes cfg sz dt l (i + 1) h = activeBytes cfg sz dt l i h := by
  apply sum_map_congr
  intro y hy
  show (if 0 < occD cfg l y (i + 1) h then idBytes cfg sz dt y else 0)
    = (if 0 < occD cfg l y i h then idBytes cfg sz dt y else 0)
  rw [occD_succ_tail_nodev cfg l hnodev hih y]

/-! ## Scan bookkeeping bridges -/

theorem scan_bridge_none {acc : List Nat} {i stop : Nat} (P : Nat → Prop)
    (hself : ¬ P i) (j : Nat) :
    (j ∈ acc ∨ (i + 1 ≤ j ∧ j < stop ∧ P j)) ↔ (j ∈ acc ∨ (i ≤ j ∧ j < stop ∧ P j)) := by
  constructor
  · rintro (h | ⟨h1, h2, h3⟩)
    · exact Or.inl h
    · exact Or.inr ⟨by omega, h2, h3⟩
  · rintro (h | ⟨h1, h2, h3⟩)
    · exact Or.inl h
    · rcases Nat.eq_or_lt_of_le h1 with hj | hj
      · exact absurd (hj ▸ h3) hself
      · exact Or.inr ⟨by omega, h2, h3⟩

theorem scan_bridge_push {acc : List Nat} {i stop : Nat} (P : Nat → Prop)
    (hself : P i) (hi : i < stop) (j : Nat) :
    (j ∈ acc ++ [i] ∨ (i + 1 ≤ j ∧ j < stop ∧ P j)) ↔
    (j ∈ acc ∨ (i ≤ j ∧ j < stop ∧ P j)) := by
  rw [List.mem_append, List.mem_singleton]
  constructor
  · rintro ((h | h) | ⟨h1, h2, h3⟩)
    · exact Or.inl h
    · exact Or.inr ⟨by omega, by omega, h ▸ hself⟩
    · exact Or.inr ⟨by omega, h2, h3⟩
  · rintro (h | ⟨h1, h2, h3⟩)
    · exact Or.inl (Or.inl h)
    · rcases Nat.eq_or_lt_of_le h1 with hj | hj
      · exact Or.inl (Or.inr hj.symm)
      · exact Or.inr ⟨by omega, h2, h3⟩

/-- Swap-out scan step over a non-device record: only the processed marker
moves. -/
theorem Inv_out_nodev_advance {cfg : Cfg} {sz dt : Nat → Nat} {l : List RecType} {s : PSt}
    {i : Nat} (I : Inv cfg sz dt l s i)
    (hnodev : ∀ id, devIdAt cfg l id i = false) (hih : i < s.head) :
    Inv cfg sz dt l s (i + 1) := by
  refine ⟨I.core, I.len, by omega, I.headLe, ?_, ?_, ?_, I.inLe, I.outEq, ?_, I.err⟩
  · have := I.tailLe
    omega
  · intro id
    rw [show occD cfg l id (i + 1) s.head = occD cfg l id i s.head from
      (occD_succ_tail_nodev cfg l hnodev hih id).symm]
    exact I.cnt id
  · rw [activeBytes_pred_nodev cfg sz dt l hnodev hih]
    exact I.inEq
  · intro j r hj hflag
    have := I.located j r hj hflag
    omega

/-- The record mutation of `schedule_swap_out`'s flagging branch. -/
def flagRec (b : Nat) (q : RecType) : RecType :=
  { q with swappedOut := true, swappedOutBytes := b }

/-- Swap-out scan step over the last pending device GETCAST of an id, not
precleared: the record is flagged and its bytes move from `used_bytes_swap_in`
to `used_bytes_swap_out`. -/
theorem Inv_out_transfer {cfg : Cfg} {sz dt : Nat → Nat} {l : List RecType} {s : PSt}
    {i : Nat} (U : Uniform cfg sz dt l) (I : Inv cfg sz dt l s i)
    {r0 : RecType} (hr0 : l.get? i = some r0) (htag : r0.tag = RecTag.getcast)
    (hctx : r0.ctxClass = cfg.deviceClass) (hih : i < s.head)
    (hocc1 : occD cfg l r0.said i s.head = 1)
    (hsum : s.usedIn + s.usedOut ≤ cfg.maxBytesSwapIn)
    (flags : List Nat) (soRv : List (Nat × Nat)) :
    Inv cfg sz dt l
      { s with
        ord := updRec s.ord i (flagRec (wadd 0 (wmul (sz r0.said) (cfg.sizeofDtype (dt r0.said))))),
        usedOut := wadd s.usedOut (wmul (sz r0.said) (cfg.sizeofDtype (dt r0.said))),
        soFlag := flags, soR := soRv,
        usedIn := wsub s.usedIn (wmul (sz r0.said) (cfg.sizeofDtype (dt r0.said))),
        counts := countsBump s.counts r0.said (dt r0.said) (-1) } (i + 1) ∧
    wsub s.usedIn (wmul (sz r0.said) (cfg.sizeofDtype (dt r0.said))) +
      wadd s.usedOut (wmul (sz r0.said) (cfg.sizeofDtype (dt r0.said)))
      = s.usedIn + s.usedOut := by
  have hmem : r0 ∈ l := List.get?_mem hr0
  have hsmall := U.small r0 hmem
  have hX : wmul (sz r0.said) (cfg.sizeofDtype (dt r0.said)) = idBytes cfg sz dt r0.said :=
    wmul_idBytes cfg sz dt r0.said hsmall
  have hdev : devIdAt cfg l r0.said i = true :=
    (devIdAt_iff cfg l hr0 r0.said).mpr ⟨htag, hctx, rfl⟩
  have hIle : idBytes cfg sz dt r0.said ≤ s.usedIn := by
    rw [I.inEq]
    have hterm := sum_map_le (L := devIds cfg l)
      (f := fun id => if 0 < occD cfg l id i s.head then idBytes cfg sz dt id else 0)
      (mem_devIds_of_devIdAt cfg l hdev)
    rw [show (fun id => if 0 < occD cfg l id i s.head then idBytes cfg sz dt id else 0) r0.said
        = idBytes cfg sz dt r0.said from by
      show (if 0 < occD cfg l r0.said i s.head then idBytes cfg sz dt r0.said else 0) = _
      rw [hocc1]
      simp] at hterm
    exact hterm
  have hBW : cfg.maxBytesSwapIn < wordSize := by unfold idBytes at hsmall; omega
  have hwsub : wsub s.usedIn (wmul (sz r0.said) (cfg.sizeofDtype (dt r0.said)))
      = s.usedIn - idBytes cfg sz dt r0.said := by
    rw [hX]
    exact wsub_eq s.usedIn (idBytes cfg sz dt r0.said) hIle (by have := I.inLe; omega)
  have hwadd : wadd s.usedOut (wmul (sz r0.said) (cfg.sizeofDtype (dt r0.said)))
      = s.usedOut + idBytes cfg sz dt r0.said := by
    rw [hX]
    exact wadd_eq s.usedOut (idBytes cfg sz dt r0.said) (by omega)
  have hdead : occD cfg l r0.said (i + 1) s.head = 0 := by
    have := occD_succ_tail_dev cfg l hr0 htag hctx hih r0.said
    rw [if_pos rfl] at this
    omega
  have hsob : wadd 0 (wmul (sz r0.said) (cfg.sizeofDtype (dt r0.said)))
      = idBytes cfg sz dt r0.said := by
    rw [hX]
    show (0 + idBytes cfg sz dt r0.said) % wordSize = idBytes cfg sz dt r0.said
    rw [Nat.zero_add]
    exact Nat.mod_eq_of_lt (by omega)
  obtain ⟨r, hr, hfields⟩ := I.core i r0 hr0
  have hrflag : r.swappedOut = false := by
    cases hcase : r.swappedOut with
    | false => rfl
    | true =>
      have := (I.located i r hr hcase).2
      omega
  have hone : countsGet s.counts r0.said = [(dt r0.said, (1 : Int))] := by
    rcases I.cnt r0.said with ⟨-, hz⟩ | hone
    · rw [hocc1] at hz
      cases hz
    · rw [hocc1] at hone
      exact_mod_cast hone
  have hgetupd : ∀ j, (updRec s.ord i
        (flagRec (wadd 0 (wmul (sz r0.said) (cfg.sizeofDtype (dt r0.said)))))).get? j =
      if i = j then (s.ord.get? j).map
        (flagRec (wadd 0 (wmul (sz r0.said) (cfg.sizeofDtype (dt r0.said)))))
      else s.ord.get? j := fun j => updRec_get _ _ _ _
  refine ⟨⟨?_, ?_, by show i + 1 ≤ s.head; omega, I.headLe, ?_, ?_, ?_, ?_, ?_, ?_, I.err⟩,
    by rw [hwsub, hwadd]; omega⟩
  · intro j q0 hq0
    obtain ⟨q, hq, hfq⟩ := I.core j q0 hq0
    by_cases hij : i = j
    · exact ⟨flagRec (wadd 0 (wmul (sz r0.said) (cfg.sizeofDtype (dt r0.said)))) q,
        by rw [hgetupd j, if_pos hij, hq]; rfl, hfq⟩
    · exact ⟨q, by rw [hgetupd j, if_neg hij]; exact hq, hfq⟩
  · show (updRec s.ord i _).length = l.length
    rw [updRec_length]
    exact I.len
  · show s.tail ≤ i + 1
    have := I.tailLe
    omega
  · intro id
    show (countsGet (countsBump s.counts r0.said (dt r0.said) (-1)) id = [] ∧
        occD cfg l id (i + 1) s.head = 0) ∨
      countsGet (countsBump s.counts r0.said (dt r0.said) (-1)) id =
        [(dt id, (occD cfg l id (i + 1) s.head : Int))]
    rw [countsGet_countsBump]
    by_cases hid : id = r0.said
    · rw [if_pos hid, hid, hone, innerGet_single, aset_single_self, hdead]
      right
      norm_num
    · rw [if_neg hid]
      rw [show occD cfg l id (i + 1) s.head = occD cfg l id i s.head from by
        have := occD_succ_tail_dev cfg l hr0 htag hctx hih id
        rw [if_neg hid] at this
        omega]
      exact I.cnt id
  · show wsub s.usedIn (wmul (sz r0.said) (cfg.sizeofDtype (dt r0.said)))
      = activeBytes cfg sz dt l (i + 1) s.head
    rw [hwsub]
    have hlast := activeBytes_pred_dev_last cfg sz dt l hr0 htag hctx hih hdead
    have := I.inEq
    omega
  · show wsub s.usedIn (wmul (sz r0.said) (cfg.sizeofDtype (dt r0.said)))
      ≤ cfg.maxBytesSwapIn - cfg.maxBytesSwapOut
    rw [hwsub]
    have := I.inLe
    omega
  · show wadd s.usedOut (wmul (sz r0.said) (cfg.sizeofDtype (dt r0.said)))
      = flagBytes (updRec s.ord i _)
    rw [hwadd]
    have hupd := flagBytes_updRec s.ord i
      (flagRec (wadd 0 (wmul (sz r0.said) (cfg.sizeofDtype (dt r0.said))))) hr
    rw [show flagTerm r = 0 from by unfold flagTerm; rw [hrflag]; rfl] at hupd
    rw [show flagTerm (flagRec (wadd 0 (wmul (sz r0.said) (cfg.sizeofDtype (dt r0.said)))) r)
      = idBytes cfg sz dt r0.said from by
        unfold flagTerm flagRec
        rw [if_pos rfl]
        exact hsob] at hupd
    have := I.outEq
    omega
  · intro j q hj hflag
    show s.tail ≤ j ∧ j < i + 1
    rw [hgetupd j] at hj
    by_cases hij : i = j
    · rw [if_pos hij] at hj
      have := I.tailLe
      omega
    · rw [if_neg hij] at hj
      have := I.located j q hj hflag
      omega

/-- Swap-out scan step over the last pending device GETCAST of a precleared
record: the bytes leave `used_bytes_swap_in` and nothing is flagged. -/
theorem Inv_out_precleared {cfg : Cfg} {sz dt : Nat → Nat} {l : List RecType} {s : PSt}
    {i : Nat} (U : Uniform cfg sz dt l) (I : Inv cfg sz dt l s i)
    {r0 : RecType} (hr0 : l.get? i = some r0) (htag : r0.tag = RecTag.getcast)
    (hctx : r0.ctxClass = cfg.deviceClass) (hih : i < s.head)
    (hocc1 : occD cfg l r0.said i s.head = 1) :
    Inv cfg sz dt l
      { s with
        usedIn := wsub s.usedIn (wmul (sz r0.said) (cfg.sizeofDtype (dt r0.said))),
        counts := countsBump s.counts r0.said (dt r0.said) (-1) } (i + 1) ∧
    wsub s.usedIn (wmul (sz r0.said) (cfg.sizeofDtype (dt r0.said))) ≤ s.usedIn := by
  have hmem : r0 ∈ l := List.get?_mem hr0
  have hsmall := U.small r0 hmem
  have hX : wmul (sz r0.said) (cfg.sizeofDtype (dt r0.said)) = idBytes cfg sz dt r0.said :=
    wmul_idBytes cfg sz dt r0.said hsmall
  have hdev : devIdAt cfg l r0.said i = true :=
    (devIdAt_iff cfg l hr0 r0.said).mpr ⟨htag, hctx, rfl⟩
  have hIle : idBytes cfg sz dt r0.said ≤ s.usedIn := by
    rw [I.inEq]
    have hterm := sum_map_le (L := devIds cfg l)
      (f := fun id => if 0 < occD cfg l id i s.head then idBytes cfg sz dt id else 0)
      (mem_devIds_of_devIdAt cfg l hdev)
    rw [show (fun id => if 0 < occD cfg l id i s.head then idBytes cfg sz dt id else 0) r0.said
        = idBytes cfg sz dt r0.said from by
      show (if 0 < occD cfg l r0.said i s.head then idBytes cfg sz dt r0.said else 0) = _
      rw [hocc1]
      simp] at hterm
    exact hterm
  have hBW : cfg.maxBytesSwapIn < wordSize := by unfold idBytes at hsmall; omega
  have hwsub : wsub s.usedIn (wmul (sz r0.said) (cfg.sizeofDtype (dt r0.said)))
      = s.usedIn - idBytes cfg sz dt r0.said := by
    rw [hX]
    exact wsub_eq s.usedIn (idBytes cfg sz dt r0.said) hIle (by have := I.inLe; omega)
  have hdead : occD cfg l r0.said (i + 1) s.head = 0 := by
    have := occD_succ_tail_dev cfg l hr0 htag hctx hih r0.said
    rw [if_pos rfl] at this
    omega
  have hone : countsGet s.counts r0.said = [(dt r0.said, (1 : Int))] := by
    rcases I.cnt r0.said with ⟨-, hz⟩ | hone
    · rw [hocc1] at hz
      cases hz
    · rw [hocc1] at hone
      exact_mod_cast hone
  refine ⟨⟨I.core, I.len, by show i + 1 ≤ s.head; omega, I.headLe, ?_, ?_, ?_, ?_, I.outEq,
    ?_, I.err⟩, by rw [hwsub]; omega⟩
  · show s.tail ≤ i + 1
    have := I.tailLe
    omega
  · intro id
    show (countsGet (countsBump s.counts r0.said (dt r0.said) (-1)) id = [] ∧
        occD cfg l id (i + 1) s.head = 0) ∨
      countsGet (countsBump s.counts r0.said (dt r0.said) (-1)) id =
        [(dt id, (occD cfg l id (i + 1) s.head : Int))]
    rw [countsGet_countsBump]
    by_cases hid : id = r0.said
    · rw [if_pos hid, hid, hone, innerGet_single, aset_single_self, hdead]
      right
      norm_num
    · rw [if_neg hid]
      rw [show occD cfg l id (i + 1) s.head = occD cfg l id i s.head from by
        have := occD_succ_tail_dev cfg l hr0 htag hctx hih id
        rw [if_neg hid] at this
        omega]
      exact I.cnt id
  · show wsub s.usedIn (wmul (sz r0.said) (cfg.sizeofDtype (dt r0.said)))
      = activeBytes cfg sz dt l (i + 1) s.head
    rw [hwsub]
    have hlast := activeBytes_pred_dev_last cfg sz dt l hr0 htag hctx hih hdead
    have := I.inEq
    omega
  · show wsub s.usedIn (wmul (sz r0.said) (cfg.sizeofDtype (dt r0.said)))
      ≤ cfg.maxBytesSwapIn - cfg.maxBytesSwapOut
    rw [hwsub]
    have := I.inLe
    omega
  · intro j q hj hflag
    show s.tail ≤ j ∧ j < i + 1
    have := I.located j q hj hflag
    omega

/-- Swap-out scan step over a device GETCAST with other pending uses: only the
count is decremented. -/
theorem Inv_out_keep {cfg : Cfg} {sz dt : Nat → Nat} {l : List RecType} {s : PSt}
    {i : Nat} (I : Inv cfg sz dt l s i)
    {r0 : RecType} (hr0 : l.get? i = some r0) (htag : r0.tag = RecTag.getcast)
    (hctx : r0.ctxClass = cfg.deviceClass) (hih : i < s.head)
    (hocc2 : 2 ≤ occD cfg l r0.said i s.head) :
    Inv cfg sz dt l
      { s with counts := countsBump s.counts r0.said (dt r0.said) (-1) } (i + 1) := by
  have hlive : occD cfg l r0.said (i + 1) s.head ≠ 0 := by
    have := occD_succ_tail_dev cfg l hr0 htag hctx hih r0.said
    rw [if_pos rfl] at this
    omega
  have hone : countsGet s.counts r0.said
      = [(dt r0.said, (occD cfg l r0.said i s.head : Int))] := by
    rcases I.cnt r0.said with ⟨-, hz⟩ | hone
    · omega
    · exact hone
  refine ⟨I.core, I.len, by show i + 1 ≤ s.head; omega, I.headLe, ?_, ?_, ?_, I.inLe, I.outEq,
    ?_, I.err⟩
  · show s.tail ≤ i + 1
    have := I.tailLe
    omega
  · intro id
    show (countsGet (countsBump s.counts r0.said (dt r0.said) (-1)) id = [] ∧
        occD cfg l id (i + 1) s.head = 0) ∨
      countsGet (countsBump s.counts r0.said (dt r0.said) (-1)) id =
        [(dt id, (occD cfg l id (i + 1) s.head : Int))]
    rw [countsGet_countsBump]
    by_cases hid : id = r0.said
    · rw [if_pos hid, hid, hone, innerGet_single, aset_single_self]
      right
      rw [show occD cfg l r0.said (i + 1) s.head = occD cfg l r0.said i s.head - 1 from by
        have := occD_succ_tail_dev cfg l hr0 htag hctx hih r0.said
        rw [if_pos rfl] at this
        omega]
      congr 1
      congr 1
      push_cast [Nat.cast_sub (by omega : 1 ≤ occD cfg l r0.said i s.head)]
      ring
    · rw [if_neg hid]
      rw [show occD cfg l id (i + 1) s.head = occD cfg l id i s.head from by
        have := occD_succ_tail_dev cfg l hr0 htag hctx hih id
        rw [if_neg hid] at this
        omega]
      exact I.cnt id
  · show s.usedIn = activeBytes cfg sz dt l (i + 1) s.head
    rw [activeBytes_pred_dev_live cfg sz dt l hr0 htag hctx hih hlive]
    exact I.inEq
  · intro j q hj hflag
    show s.tail ≤ j ∧ j < i + 1
    have := I.located j q hj hflag
    omega

/-- Selection predicate of the swap-out pass with frontier `hd`: position `j`
is scheduled iff it holds a device GETCAST that is the last pending use of
its id below the frontier. -/
def outPick (cfg : Cfg) (l : List RecType) (hd j : Nat) : Prop :=
  ∃ r0, l.get? j = some r0 ∧ r0.tag = RecTag.getcast ∧ r0.ctxClass = cfg.deviceClass ∧
    occD cfg l r0.said j hd = 1

/-- Main invariant/coverage lemma of `schedule_swap_out`'s loop: scanning
`[i, stop)` moves the processed marker to `stop`, never increases
`used_bytes_swap_in + used_bytes_swap_out`, and schedules exactly the last
pending device GETCASTs of the scanned ids. -/
theorem swap_out_body_inv (cfg : Cfg) (sz dt : Nat → Nat) (l : List RecType)
    (U : Uniform cfg sz dt l) :
    ∀ (fuel i stop : Nat) (s : PSt) (acc : List Nat),
      Inv cfg sz dt l s i → i ≤ stop → stop ≤ s.head →
      s.usedIn + s.usedOut ≤ cfg.maxBytesSwapIn →
      stop ≤ i + fuel →
      Inv cfg sz dt l (swap_out_body cfg fuel i stop s acc).1 stop ∧
      (swap_out_body cfg fuel i stop s acc).1.usedIn +
        (swap_out_body cfg fuel i stop s acc).1.usedOut ≤ s.usedIn + s.usedOut ∧
      (∀ j, j ∈ (swap_out_body cfg fuel i stop s acc).2 ↔ j ∈ acc ∨
        (i ≤ j ∧ j < stop ∧ outPick cfg l s.head j)) := by
  intro fuel
  induction fuel with
  | zero =>
    intro i stop s acc I his hsh hsum hfuel
    have hi : i = stop := by omega
    subst hi
    exact ⟨I, Nat.le_refl _, fun j => mem_self_bridge _ j⟩
  | succ n ih =>
    intro i stop s acc I his hsh hsum hfuel
    rw [swap_out_body]
    by_cases hstop : i ≥ stop
    · rw [if_pos hstop]
      have hi : i = stop := by omega
      subst hi
      exact ⟨I, Nat.le_refl _, fun j => mem_self_bridge _ j⟩
    · rw [if_neg hstop]
      have hlt : i < s.head := by omega
      cases hget : s.ord.get? i with
      | none =>
        exfalso
        have h1 := List.get?_eq_none.mp hget
        have h2 := I.len
        have h3 := I.headLe
        omega
      | some r =>
        simp only [hget]
        obtain ⟨r0, hr0, hftag, hfsaid, hfsize, hfdtype, hfctx, hfpre⟩ := Inv_coreInv I hget
        have hmem : r0 ∈ l := List.get?_mem hr0
        by_cases h1 : r.tag = RecTag.clear
        · rw [if_pos h1]
          have htag0 : r0.tag = RecTag.clear := by rw [← hftag]; exact h1
          have hnodev : ∀ id, devIdAt cfg l id i = false := by
            intro id
            cases hcase : devIdAt cfg l id i with
            | false => rfl
            | true =>
              have h := ((devIdAt_iff cfg l hr0 id).mp hcase).1
              rw [htag0] at h
              cases h
          have I2 := Inv_out_nodev_advance I hnodev hlt
          obtain ⟨IH1, IH2, IH3⟩ := ih (i + 1) stop s acc I2 (by omega) hsh hsum (by omega)
          refine ⟨IH1, IH2, fun j => ?_⟩
          refine (IH3 j).trans (scan_bridge_none _ ?_ j)
          rintro ⟨r0b, hr0b, htagb, -⟩
          rw [hr0] at hr0b
          cases hr0b
          rw [htag0] at htagb
          cases htagb
        · rw [if_neg h1]
          have htag0 : r0.tag = RecTag.getcast :=
            tag_not_clear (fun hc => h1 (by rw [hftag, hc]))
          by_cases h2 : r.ctxClass = cfg.deviceClass
          · rw [if_pos h2]
            have hctx0 : r0.ctxClass = cfg.deviceClass := by rw [← hfctx]; exact h2
            have hsz : r.size = sz r0.said := by
              rw [hfsize]
              exact (U.uni r0 hmem htag0 hctx0).1
            have hdt2 : r.dtype = dt r0.said := by
              rw [hfdtype]
              exact (U.uni r0 hmem htag0 hctx0).2
            rw [hsz, hdt2, hfsaid, hfpre]
            have hdev : devIdAt cfg l r0.said i = true :=
              (devIdAt_iff cfg l hr0 r0.said).mpr ⟨htag0, hctx0, rfl⟩
            have hoccpos : 0 < occD cfg l r0.said i s.head :=
              occD_pos_of_devIdAt cfg l r0.said hdev (Nat.le_refl i) hlt
            have hone : countsGet s.counts r0.said
                = [(dt r0.said, (occD cfg l r0.said i s.head : Int))] := by
              rcases I.cnt r0.said with ⟨-, hz⟩ | hone
              · omega
              · exact hone
            rw [hone]
            have haccum : accumulate_counts [(dt r0.said, (occD cfg l r0.said i s.head : Int))]
                = (occD cfg l r0.said i s.head : Int) := by
              show (0 : Int) + _ = _
              ring
            rw [haccum]
            by_cases hocc1 : occD cfg l r0.said i s.head = 1
            · have hhit : (occD cfg l r0.said i s.head : Int) = 1 := by exact_mod_cast hocc1
              rw [if_pos hhit]
              have hself : outPick cfg l s.head i := ⟨r0, hr0, htag0, hctx0, hocc1⟩
              by_cases hpre : r0.preclear = true
              · have hc1 : ¬ ((occD cfg l r0.said i s.head : Int) = 1 ∧
                    ¬ r0.preclear = true) := fun hc => hc.2 hpre
                rw [if_neg hc1, if_pos hhit]
                obtain ⟨I2, hle⟩ := Inv_out_precleared U I hr0 htag0 hctx0 hlt hocc1
                obtain ⟨IH1, IH2, IH3⟩ := ih (i + 1) stop _ (acc ++ [i]) I2 (by omega) hsh
                  (by show wsub s.usedIn (wmul (sz r0.said) (cfg.sizeofDtype (dt r0.said)))
                        + s.usedOut ≤ cfg.maxBytesSwapIn
                      omega)
                  (by omega)
                refine ⟨IH1, ?_, fun j => ?_⟩
                · refine le_trans IH2 ?_
                  show wsub s.usedIn (wmul (sz r0.said) (cfg.sizeofDtype (dt r0.said)))
                      + s.usedOut ≤ s.usedIn + s.usedOut
                  omega
                · exact (IH3 j).trans (scan_bridge_push _ hself (by omega) j)
              · have hc1 : (occD cfg l r0.said i s.head : Int) = 1 ∧
                    ¬ r0.preclear = true := ⟨hhit, hpre⟩
                rw [if_pos hc1, if_pos hhit]
                obtain ⟨I2, hsumEq⟩ := Inv_out_transfer U I hr0 htag0 hctx0 hlt hocc1 hsum
                  (setInsert s.soFlag r0.said) (aset s.soR r0.said i)
                obtain ⟨IH1, IH2, IH3⟩ := ih (i + 1) stop _ (acc ++ [i]) I2 (by omega) hsh
                  (by show wsub s.usedIn (wmul (sz r0.said) (cfg.sizeofDtype (dt r0.said)))
                        + wadd s.usedOut (wmul (sz r0.said) (cfg.sizeofDtype (dt r0.said)))
                        ≤ cfg.maxBytesSwapIn
                      omega)
                  (by omega)
                refine ⟨IH1, ?_, fun j => ?_⟩
                · refine le_trans IH2 ?_
                  show wsub s.usedIn (wmul (sz r0.said) (cfg.sizeofDtype (dt r0.said)))
                      + wadd s.usedOut (wmul (sz r0.said) (cfg.sizeofDtype (dt r0.said)))
                      ≤ s.usedIn + s.usedOut
                  omega
                · exact (IH3 j).trans (scan_bridge_push _ hself (by omega) j)
            · have hhit : ¬ ((occD cfg l r0.said i s.head : Int) = 1) :=
                fun hc => hocc1 (by exact_mod_cast hc)
              rw [if_neg hhit]
              rw [if_neg (fun hc => hhit hc.1)]
              rw [if_neg hhit]
              have hocc2 : 2 ≤ occD cfg l r0.said i s.head := by omega
              have I2 := Inv_out_keep I hr0 htag0 hctx0 hlt hocc2
              obtain ⟨IH1, IH2, IH3⟩ := ih (i + 1) stop _ acc I2 (by omega) hsh hsum (by omega)
              refine ⟨IH1, IH2, fun j => ?_⟩
              refine (IH3 j).trans (scan_bridge_none _ ?_ j)
              rintro ⟨r0b, hr0b, -, -, hoccb⟩
              rw [hr0] at hr0b
              cases hr0b
              exact hocc1 hoccb
          · by_cases h5 : r.ctxClass = cfg.hostClass
            · rw [if_neg h2, if_pos h5]
              have hctx0 : r0.ctxClass = cfg.hostClass := by rw [← hfctx]; exact h5
              have hnodev : ∀ id, devIdAt cfg l id i = false := by
                intro id
                cases hcase : devIdAt cfg l id i with
                | false => rfl
                | true =>
                  have h := ((devIdAt_iff cfg l hr0 id).mp hcase).2.1
                  exact absurd (h.symm.trans hctx0) U.devhost
              have I2 := Inv_out_nodev_advance I hnodev hlt
              obtain ⟨IH1, IH2, IH3⟩ := ih (i + 1) stop s acc I2 (by omega) hsh hsum (by omega)
              refine ⟨IH1, IH2, fun j => ?_⟩
              refine (IH3 j).trans (scan_bridge_none _ ?_ j)
              rintro ⟨r0b, hr0b, -, hctxb, -⟩
              rw [hr0] at hr0b
              cases hr0b
              exact U.devhost (hctxb.symm.trans hctx0)
            · rcases U.classes r0 hmem htag0 with hc | hc
              · exact absurd (hfctx.trans hc) h2
              · exact absurd (hfctx.trans hc) h5
/-- The record mutation of the wait drain. -/
def unflagRec (q : RecType) : RecType := { q with swappedOut := false, swappedOutBytes := 0 }

/-- Draining one flagged record at the queue tail. -/
theorem Inv_wait_pop {cfg : Cfg} {sz dt : Nat → Nat} {l : List RecType} {s : PSt} {p : Nat}
    (I : Inv cfg sz dt l s p) {r : RecType} (hget : s.ord.get? s.tail = some r)
    (hflag : r.swappedOut = true) (hW : s.usedOut < wordSize) (flags : List Nat) :
    Inv cfg sz dt l
      { s with ord := updRec s.ord s.tail unflagRec,
               usedOut := wsub s.usedOut r.swappedOutBytes,
               soFlag := flags, tail := s.tail + 1 } p ∧
    wsub s.usedOut r.swappedOutBytes = s.usedOut - r.swappedOutBytes := by
  have hbytes : flagTerm r ≤ flagBytes s.ord := flagTerm_le_flagBytes s.ord hget
  have hterm : flagTerm r = r.swappedOutBytes := by
    unfold flagTerm
    rw [hflag]
    rfl
  have hble : r.swappedOutBytes ≤ s.usedOut := by
    rw [I.outEq]
    omega
  have hwsub : wsub s.usedOut r.swappedOutBytes = s.usedOut - r.swappedOutBytes :=
    wsub_eq _ _ hble hW
  have htp : s.tail < p := (I.located s.tail r hget hflag).2
  have hgetupd : ∀ j, (updRec s.ord s.tail unflagRec).get? j =
      if s.tail = j then (s.ord.get? j).map unflagRec else s.ord.get? j :=
    fun j => updRec_get _ _ _ _
  refine ⟨⟨?_, ?_, I.pLe, I.headLe, ?_, I.cnt, I.inEq, I.inLe, ?_, ?_, I.err⟩, hwsub⟩
  · intro j q0 hq0
    obtain ⟨q, hq, hfq⟩ := I.core j q0 hq0
    by_cases hij : s.tail = j
    · exact ⟨unflagRec q, by rw [hgetupd j, if_pos hij, hq]; rfl, hfq⟩
    · exact ⟨q, by rw [hgetupd j, if_neg hij]; exact hq, hfq⟩
  · show (updRec s.ord s.tail unflagRec).length = l.length
    rw [updRec_length]
    exact I.len
  · show s.tail + 1 ≤ p
    omega
  · show wsub s.usedOut r.swappedOutBytes = flagBytes (updRec s.ord s.tail unflagRec)
    have hupd := flagBytes_updRec s.ord s.tail unflagRec hget
    rw [show flagTerm (unflagRec r) = 0 from rfl] at hupd
    rw [hwsub]
    have := I.outEq
    omega
  · intro j q hj hqf
    show s.tail + 1 ≤ j ∧ j < p
    rw [hgetupd j] at hj
    by_cases hij : s.tail = j
    · rw [if_pos hij] at hj
      exfalso
      cases hq2 : s.ord.get? j with
      | none => rw [hq2] at hj; cases hj
      | some q2 =>
        rw [hq2] at hj
        have : q = unflagRec q2 := by simpa using hj.symm
        rw [this] at hqf
        exact absurd hqf (by simp [unflagRec])
    · rw [if_neg hij] at hj
      have := I.located j q hj hqf
      omega

/-- Passing an unflagged record at the queue tail while flagged bytes remain. -/
theorem Inv_wait_skip {cfg : Cfg} {sz dt : Nat → Nat} {l : List RecType} {s : PSt} {p : Nat}
    (I : Inv cfg sz dt l s p) {r : RecType} (hget : s.ord.get? s.tail = some r)
    (hflag : r.swappedOut = false) (hpos : 0 < s.usedOut) :
    Inv cfg sz dt l { s with tail := s.tail + 1 } p := by
  obtain ⟨j0, q0, hq0, hq0f⟩ : ∃ j q, s.ord.get? j = some q ∧ q.swappedOut = true := by
    apply exists_flag_of_flagBytes_pos
    rw [← I.outEq]
    exact hpos
  have htp : s.tail < p := by
    have := I.located j0 q0 hq0 hq0f
    omega
  refine ⟨I.core, I.len, I.pLe, I.headLe, by show s.tail + 1 ≤ p; omega, I.cnt, I.inEq,
    I.inLe, I.outEq, ?_, I.err⟩
  intro j q hj hqf
  show s.tail + 1 ≤ j ∧ j < p
  have hloc := I.located j q hj hqf
  rcases Nat.eq_or_lt_of_le hloc.1 with he | hlt2
  · exfalso
    rw [← he] at hj
    rw [hget] at hj
    cases hj
    rw [hflag] at hqf
    cases hqf
  · omega

/-- `schedule_wait_for_swap_out`: the drain preserves the invariant and leaves
at most `max_bytes_swap_out` enqueued bytes. -/
theorem wait_body_false_inv (cfg : Cfg) (sz dt : Nat → Nat) (l : List RecType) :
    ∀ (fuel : Nat) (s : PSt) (acc : List Nat) (p : Nat),
      Inv cfg sz dt l s p →
      s.usedOut < wordSize →
      l.length + 1 - s.tail ≤ fuel →
      Inv cfg sz dt l (wait_body cfg false fuel s acc).1 p ∧
      (wait_body cfg false fuel s acc).1.usedOut ≤ cfg.maxBytesSwapOut ∧
      (wait_body cfg false fuel s acc).1.usedOut ≤ s.usedOut := by
  intro fuel
  induction fuel with
  | zero =>
    intro s acc p I hW hfuel
    exfalso
    have h1 := I.tailLe
    have h2 := I.pLe
    have h3 := I.headLe
    omega
  | succ n ih =>
    intro s acc p I hW hfuel
    rw [wait_body]
    by_cases hg1 : s.tail < s.ord.length
    · by_cases hg2 : s.usedOut > cfg.maxBytesSwapOut
      · rw [if_pos (by simp [hg1, hg2])]
        cases hget : s.ord.get? s.tail with
        | none =>
          exfalso
          have := List.get?_eq_none.mp hget
          omega
        | some r =>
          dsimp only
          cases hflag : r.swappedOut with
          | true =>
            rw [if_pos rfl]
            obtain ⟨I2, hwsub⟩ := Inv_wait_pop I hget hflag hW (setRemove s.soFlag r.said)
            have hlen2 : (updRec s.ord s.tail unflagRec).length = s.ord.length :=
              updRec_length _ _ _
            obtain ⟨IH1, IH2, IH3⟩ := ih _ (acc ++ [s.tail]) p I2
              (by show wsub s.usedOut r.swappedOutBytes < wordSize; omega)
              (by show l.length + 1 - (s.tail + 1) ≤ n; omega)
            refine ⟨IH1, IH2, ?_⟩
            refine le_trans IH3 ?_
            show wsub s.usedOut r.swappedOutBytes ≤ s.usedOut
            omega
          | false =>
            rw [if_neg (by simp)]
            have I2 := Inv_wait_skip I hget hflag (by omega)
            obtain ⟨IH1, IH2, IH3⟩ := ih _ acc p I2 hW
              (by show l.length + 1 - (s.tail + 1) ≤ n; omega)
            exact ⟨IH1, IH2, IH3⟩
      · rw [if_neg (by simp [hg2])]
        exact ⟨I, by show s.usedOut ≤ cfg.maxBytesSwapOut; omega, Nat.le_refl _⟩
    · rw [if_neg (by simp [hg1])]
      refine ⟨I, ?_, Nat.le_refl _⟩
      have hzero : flagBytes s.ord = 0 := by
        apply flagBytes_eq_zero
        intro q hq
        cases hqf : q.swappedOut with
        | false => rfl
        | true =>
          exfalso
          rcases List.mem_iff_get?.mp hq with ⟨j, hj⟩
          have hloc := I.located j q hj hqf
          have hlen := I.len
          have h2 := List.get?_eq_some.mp hj |>.1
          have := I.pLe
          have := I.headLe
          have := I.tailLe
          omega
      rw [I.outEq, hzero]
      omega

/-- `schedule_wait_for_all_swap_out` empties the swapped-out queue. -/
theorem wait_all_drain (cfg : Cfg) :
    ∀ (fuel : Nat) (s : PSt) (acc : List Nat),
      s.usedOut = flagBytes s.ord →
      (∀ j r, s.ord.get? j = some r → r.swappedOut = true → s.tail ≤ j) →
      s.usedOut < wordSize →
      s.ord.length + 1 - s.tail ≤ fuel →
      (wait_body cfg true fuel s acc).1.usedOut = 0 := by
  intro fuel
  induction fuel with
  | zero =>
    intro s acc hout hloc hW hfuel
    show s.usedOut = 0
    have hzero : flagBytes s.ord = 0 := by
      apply flagBytes_eq_zero
      intro q hq
      cases hqf : q.swappedOut with
      | false => rfl
      | true =>
        exfalso
        rcases List.mem_iff_get?.mp hq with ⟨j, hj⟩
        have h1 := hloc j q hj hqf
        have h2 := List.get?_eq_some.mp hj |>.1
        omega
    omega
  | succ n ih =>
    intro s acc hout hloc hW hfuel
    rw [wait_body]
    by_cases hg1 : s.tail < s.ord.length
    · rw [if_pos (by simp [hg1])]
      cases hget : s.ord.get? s.tail with
      | none =>
        exfalso
        have := List.get?_eq_none.mp hget
        omega
      | some r =>
        dsimp only
        cases hflag : r.swappedOut with
        | true =>
          rw [if_pos rfl]
          have hbytes : flagTerm r ≤ flagBytes s.ord := flagTerm_le_flagBytes s.ord hget
          have hterm : flagTerm r = r.swappedOutBytes := by
            unfold flagTerm
            rw [hflag]
            rfl
          have hble : r.swappedOutBytes ≤ s.usedOut := by omega
          have hwsub : wsub s.usedOut r.swappedOutBytes = s.usedOut - r.swappedOutBytes :=
            wsub_eq _ _ hble hW
          have hupd := flagBytes_updRec s.ord s.tail unflagRec hget
          rw [show flagTerm (unflagRec r) = 0 from rfl] at hupd
          apply ih
          · show wsub s.usedOut r.swappedOutBytes = flagBytes (updRec s.ord s.tail unflagRec)
            omega
          · intro j q hj hqf
            show s.tail + 1 ≤ j
            rw [updRec_get] at hj
            by_cases hij : s.tail = j
            · rw [if_pos hij] at hj
              exfalso
              cases hq2 : s.ord.get? j with
              | none => rw [hq2] at hj; cases hj
              | some q2 =>
                rw [hq2] at hj
                have hq3 : q = unflagRec q2 := by simpa using hj.symm
                rw [hq3] at hqf
                exact absurd hqf (by simp [unflagRec])
            · rw [if_neg hij] at hj
              have := hloc j q hj hqf
              omega
          · show wsub s.usedOut r.swappedOutBytes < wordSize
            omega
          · show (updRec s.ord s.tail unflagRec).length + 1 - (s.tail + 1) ≤ n
            rw [updRec_length]
            omega
        | false =>
          rw [if_neg (by simp)]
          apply ih
          · exact hout
          · intro j q hj hqf
            show s.tail + 1 ≤ j
            rcases Nat.eq_or_lt_of_le (hloc j q hj hqf) with he | hlt2
            · exfalso
              rw [← he, hget] at hj
              cases hj
              rw [hflag] at hqf
              cases hqf
            · omega
          · exact hW
          · show s.ord.length + 1 - (s.tail + 1) ≤ n
            omega
    · rw [if_neg (by simp [hg1])]
      show s.usedOut = 0
      have hzero : flagBytes s.ord = 0 := by
        apply flagBytes_eq_zero
        intro q hq
        cases hqf : q.swappedOut with
        | false => rfl
        | true =>
          exfalso
          rcases List.mem_iff_get?.mp hq with ⟨j, hj⟩
          have h1 := hloc j q hj hqf
          have h2 := List.get?_eq_some.mp hj |>.1
          omega
      omega
/-- The preclear pass only writes the `preclear` field, so the uniformity
assumptions transfer from the recorded trace to the preclear-marked one. -/
theorem Uniform_preclear (cfg : Cfg) (sz dt : Nat → Nat) (l : List RecType)
    (U : Uniform cfg sz dt l) : Uniform cfg sz dt (schedule_preclear l) := by
  have htrans : ∀ r2 ∈ schedule_preclear l, ∃ r ∈ l,
      r2.tag = r.tag ∧ r2.said = r.said ∧ r2.size = r.size ∧ r2.dtype = r.dtype ∧
      r2.ctxClass = r.ctxClass ∧ r2.swappedOut = r.swappedOut ∧
      r2.swappedOutBytes = r.swappedOutBytes := by
    intro r2 hr2
    rcases List.mem_iff_get?.mp hr2 with ⟨i, hi⟩
    rw [schedule_preclear_get] at hi
    cases hget : l.get? i with
    | none => rw [hget] at hi; cases hi
    | some r =>
      rw [hget] at hi
      simp only [Option.map_some'] at hi
      refine ⟨r, List.get?_mem hget, ?_⟩
      by_cases hc : r.tag = RecTag.clear
      · rw [if_pos hc] at hi
        cases hi
        exact ⟨rfl, rfl, rfl, rfl, rfl, rfl, rfl⟩
      · rw [if_neg hc] at hi
        cases hi
        exact ⟨rfl, rfl, rfl, rfl, rfl, rfl, rfl⟩
  refine ⟨U.devhost, ?_, ?_, ?_, ?_, U.Bword⟩
  · intro r2 hr2 htag
    obtain ⟨r, hr, hf⟩ := htrans r2 hr2
    rw [hf.2.2.2.2.1]
    exact U.classes r hr (by rw [← hf.1]; exact htag)
  · intro r2 hr2 htag hctx
    obtain ⟨r, hr, hf⟩ := htrans r2 hr2
    rw [hf.2.2.1, hf.2.2.2.1, hf.2.1]
    exact U.uni r hr (by rw [← hf.1]; exact htag) (by rw [← hf.2.2.2.2.1]; exact hctx)
  · intro r2 hr2
    obtain ⟨r, hr, hf⟩ := htrans r2 hr2
    rw [hf.2.1]
    exact U.small r hr
  · intro r2 hr2
    obtain ⟨r, hr, hf⟩ := htrans r2 hr2
    rw [hf.2.2.2.2.2.1, hf.2.2.2.2.2.2]
    exact U.flags0 r hr

/-- The three budget facts claimed for every snapshot. -/
def snapGood (cfg : Cfg) (sn : Snap) : Prop :=
  sn.usedIn + sn.usedOut ≤ cfg.maxBytesSwapIn ∧
  sn.usedIn ≤ cfg.maxBytesSwapIn - cfg.maxBytesSwapOut ∧
  (sn.phase ≠ Phase.afterOut → sn.usedOut ≤ cfg.maxBytesSwapOut)

/-- The prefetch frontier at which function `f`'s swap-in pass starts, read
from the logged frontiers. -/
def loHead (hs : List Nat) (f : Nat) : Nat :=
  if f = 0 then 0 else (hs.get? (f - 1)).getD 0

theorem schedAt_aset (m : List (Nat × List Nat)) (k : Nat) (v : List Nat) (q : Nat) :
    schedAt (aset m k v) q = if q = k then v else schedAt m q := by
  unfold schedAt
  rw [alookup_aset]
  split_ifs <;> rfl

theorem blockStart_succ (ends : List Nat) (f : Nat) :
    blockStart ends (f + 1) = (ends.get? f).getD 0 := by
  unfold blockStart
  rw [if_neg (Nat.succ_ne_zero f)]
  simp

theorem loHead_concat (hs : List Nat) (x : Nat) (k : Nat) (hk : k ≤ hs.length) :
    loHead (hs ++ [x]) k = loHead hs k := by
  unfold loHead
  by_cases h0 : k = 0
  · rw [if_pos h0, if_pos h0]
  · rw [if_neg h0, if_neg h0, concat_get?_lt hs x (k - 1) (by omega)]

/-- Rebuilding the invariant on a state that differs only in fields it does
not mention. -/
theorem Inv_same_core {cfg : Cfg} {sz dt : Nat → Nat} {l : List RecType} {s t : PSt} {p : Nat}
    (I : Inv cfg sz dt l s p)
    (hord : t.ord = s.ord) (hhead : t.head = s.head) (htail : t.tail = s.tail)
    (hin : t.usedIn = s.usedIn) (hout : t.usedOut = s.usedOut) (hcnt : t.counts = s.counts)
    (herr : t.err = s.err) : Inv cfg sz dt l t p := by
  refine ⟨?_, ?_, ?_, ?_, ?_, ?_, ?_, ?_, ?_, ?_, ?_⟩
  · rw [hord]; exact I.core
  · rw [hord]; exact I.len
  · rw [hhead]; exact I.pLe
  · rw [hhead]; exact I.headLe
  · rw [htail]; exact I.tailLe
  · rw [hcnt, hhead]; exact I.cnt
  · rw [hin, hhead]; exact I.inEq
  · rw [hin]; exact I.inLe
  · rw [hout, hord]; exact I.outEq
  · rw [hord, htail]; exact I.located
  · rw [herr]; exact I.err

/-- The per-function-loop invariant of `schedule()` after `n` iterations:
every logged snapshot satisfies the budget facts, and on the error-free path
the planner invariant holds at the block boundary, the drained queue is below
`max_bytes_swap_out`, and the stored schedules are exactly characterised by
the selection predicates over the logged frontiers. -/
def FInv (cfg : Cfg) (sz dt : Nat → Nat) (l : List RecType) (ends : List Nat)
    (n : Nat) (s : PSt) : Prop :=
  (∀ sn ∈ s.snaps, snapGood cfg sn) ∧
  (s.err = none →
    Inv cfg sz dt l s (blockStart ends n) ∧
    s.usedOut ≤ cfg.maxBytesSwapOut ∧
    s.headsAfterIn.length = n ∧
    s.head = loHead s.headsAfterIn n ∧
    (∀ f, n ≤ f → schedAt s.schedIn f = [] ∧ schedAt s.schedOut f = []) ∧
    (∀ f, f < n → ∀ j,
      (j ∈ schedAt s.schedIn f ↔
        loHead s.headsAfterIn f ≤ j ∧ j < (s.headsAfterIn.get? f).getD 0 ∧
        inPick cfg l [] (loHead s.headsAfterIn f) (blockStart ends f) j) ∧
      (j ∈ schedAt s.schedOut f ↔
        blockStart ends f ≤ j ∧ j < (ends.get? f).getD 0 ∧
        outPick cfg l ((s.headsAfterIn.get? f).getD 0) j)))

/-- One iteration of the planner loop preserves the fold invariant. -/
theorem planStep_FInv (cfg : Cfg) (sz dt : Nat → Nat) (l : List RecType) (ends : List Nat)
    (U : Uniform cfg sz dt l)
    (n : Nat) (hmn : blockStart ends n ≤ (ends.get? n).getD 0) (s : PSt)
    (H : FInv cfg sz dt l ends n s) :
    FInv cfg sz dt l ends (n + 1) (planStep cfg ends n s) := by
  unfold FInv at H
  obtain ⟨Hsnaps, Hrest⟩ := H
  unfold planStep
  by_cases herr : s.err.isSome = true
  · rw [if_pos herr]
    refine ⟨Hsnaps, fun hnone => ?_⟩
    rw [hnone] at herr
    exact absurd herr (by simp)
  · rw [if_neg herr]
    have hnone : s.err = none := by
      cases hcase : s.err with
      | none => rfl
      | some v => rw [hcase] at herr; exact absurd (by simp) herr
    obtain ⟨I, HoutLe, Hhlen, Hhlast, Hempty, Hchar⟩ := Hrest hnone
    have hcapmo : cfg.maxBytesSwapIn - cfg.maxBytesSwapOut + cfg.maxBytesSwapOut
        ≤ cfg.maxBytesSwapIn := by
      unfold Cfg.maxBytesSwapOut
      omega
    obtain ⟨I1, hhead1, hmem1a⟩ := swap_in_body_inv cfg sz dt l U
      (s.ord.length + 1 - s.head) s [] [] (blockStart ends n) I
    have hfr1 : inFrame (swap_in_body cfg (s.ord.length + 1 - s.head) s [] []).1 = inFrame s :=
      swap_in_body_frame cfg (s.ord.length + 1 - s.head) s [] []
    have I1' : Inv cfg sz dt l (schedule_swap_in cfg s).1 (blockStart ends n) := I1
    have hhead1' : s.head ≤ (schedule_swap_in cfg s).1.head := hhead1
    have hmem1 : ∀ j, j ∈ (schedule_swap_in cfg s).2 ↔ j ∈ ([] : List Nat) ∨
        (s.head ≤ j ∧ j < (schedule_swap_in cfg s).1.head ∧
          inPick cfg l [] s.head (blockStart ends n) j) := hmem1a
    have hOut1 : (schedule_swap_in cfg s).1.usedOut = s.usedOut :=
      congrArg (fun t => t.2.1) hfr1
    have hSnaps1 : (schedule_swap_in cfg s).1.snaps = s.snaps :=
      congrArg (fun t => t.2.2.2.2.2.1) hfr1
    have hHeads1 : (schedule_swap_in cfg s).1.headsAfterIn = s.headsAfterIn :=
      congrArg (fun t => t.2.2.2.2.2.2.1) hfr1
    have hSchedIn1 : (schedule_swap_in cfg s).1.schedIn = s.schedIn :=
      congrArg (fun t => t.2.2.1) hfr1
    have hSchedOut1 : (schedule_swap_in cfg s).1.schedOut = s.schedOut :=
      congrArg (fun t => t.2.2.2.1) hfr1
    rw [if_neg (show ¬ (schedule_swap_in cfg s).1.err.isSome = true from by
      rw [I1'.err]; simp)]
    have hinSnapGood : snapGood cfg
        (Snap.mk Phase.afterIn n (schedule_swap_in cfg s).1.usedIn
          (schedule_swap_in cfg s).1.usedOut) := by
      refine ⟨?_, I1'.inLe, fun _ => ?_⟩
      · have h1 := I1'.inLe
        rw [hOut1]
        show (schedule_swap_in cfg s).1.usedIn + s.usedOut ≤ cfg.maxBytesSwapIn
        omega
      · rw [hOut1]
        exact HoutLe
    have hsnaps1good : ∀ sn ∈ (logAfterIn n (schedule_swap_in cfg s)).snaps, snapGood cfg sn := by
      intro sn hsn
      have : sn ∈ s.snaps ++ [Snap.mk Phase.afterIn n (schedule_swap_in cfg s).1.usedIn
          (schedule_swap_in cfg s).1.usedOut] := by
        rw [show (logAfterIn n (schedule_swap_in cfg s)).snaps
            = (schedule_swap_in cfg s).1.snaps ++ [Snap.mk Phase.afterIn n
              (schedule_swap_in cfg s).1.usedIn (schedule_swap_in cfg s).1.usedOut] from rfl,
          hSnaps1] at hsn
        exact hsn
      rcases List.mem_append.mp this with h | h
      · exact Hsnaps sn h
      · rw [List.mem_singleton] at h
        rw [h]
        exact hinSnapGood
    by_cases hoom : (logAfterIn n (schedule_swap_in cfg s)).head < (ends.get? n).getD 0
    · rw [if_pos hoom]
      refine ⟨hsnaps1good, fun hnone2 => ?_⟩
      exact absurd hnone2 (by simp)
    · rw [if_neg hoom]
      have hstop : (ends.get? n).getD 0 ≤ (schedule_swap_in cfg s).1.head := by
        have : ¬ (schedule_swap_in cfg s).1.head < (ends.get? n).getD 0 := hoom
        omega
      -- the swap-out pass
      have I1b : Inv cfg sz dt l
          (logBlockStartRead ends n (logAfterIn n (schedule_swap_in cfg s)))
          (blockStart ends n) :=
        Inv_same_core I1' rfl rfl rfl rfl rfl rfl rfl
      obtain ⟨I2a, hsum2a, hmem2a⟩ := swap_out_body_inv cfg sz dt l U
        ((logBlockStartRead ends n (logAfterIn n (schedule_swap_in cfg s))).ord.length + 1)
        (blockStart ends n) ((ends.get? n).getD 0)
        (logBlockStartRead ends n (logAfterIn n (schedule_swap_in cfg s))) []
        I1b hmn hstop
        (by show (schedule_swap_in cfg s).1.usedIn + (schedule_swap_in cfg s).1.usedOut
              ≤ cfg.maxBytesSwapIn
            rw [hOut1]
            have h1 := I1'.inLe
            omega)
        (by have h1 : (schedule_swap_in cfg s).1.head ≤ l.length := I1'.headLe
            have h2 : (schedule_swap_in cfg s).1.ord.length = l.length := I1'.len
            show (ends.get? n).getD 0 ≤ blockStart ends n
              + ((schedule_swap_in cfg s).1.ord.length + 1)
            omega)
      have I2 : Inv cfg sz dt l
          (schedule_swap_out cfg ends n
            (logBlockStartRead ends n (logAfterIn n (schedule_swap_in cfg s)))).1
          ((ends.get? n).getD 0) := I2a
      have hsum2 : (schedule_swap_out cfg ends n
            (logBlockStartRead ends n (logAfterIn n (schedule_swap_in cfg s)))).1.usedIn +
          (schedule_swap_out cfg ends n
            (logBlockStartRead ends n (logAfterIn n (schedule_swap_in cfg s)))).1.usedOut ≤
          (schedule_swap_in cfg s).1.usedIn + s.usedOut := by
        refine le_trans hsum2a ?_
        show (schedule_swap_in cfg s).1.usedIn + (schedule_swap_in cfg s).1.usedOut ≤ _
        rw [hOut1]
      have hmem2 : ∀ j, j ∈ (schedule_swap_out cfg ends n
            (logBlockStartRead ends n (logAfterIn n (schedule_swap_in cfg s)))).2 ↔
          j ∈ ([] : List Nat) ∨
          (blockStart ends n ≤ j ∧ j < (ends.get? n).getD 0 ∧
            outPick cfg l (schedule_swap_in cfg s).1.head j) := hmem2a
      have hfr2 : outFrame (schedule_swap_out cfg ends n
          (logBlockStartRead ends n (logAfterIn n (schedule_swap_in cfg s)))).1
          = outFrame (logBlockStartRead ends n (logAfterIn n (schedule_swap_in cfg s))) :=
        swap_out_body_frame cfg _ _ _ _ _
      have hHead2 : (schedule_swap_out cfg ends n
          (logBlockStartRead ends n (logAfterIn n (schedule_swap_in cfg s)))).1.head
          = (schedule_swap_in cfg s).1.head := congrArg (fun t => t.1) hfr2
      have hSnaps2 : (schedule_swap_out cfg ends n
          (logBlockStartRead ends n (logAfterIn n (schedule_swap_in cfg s)))).1.snaps
          = (logAfterIn n (schedule_swap_in cfg s)).snaps :=
        congrArg (fun t => t.2.2.2.2.2.1) hfr2
      have hHeads2 : (schedule_swap_out cfg ends n
          (logBlockStartRead ends n (logAfterIn n (schedule_swap_in cfg s)))).1.headsAfterIn
          = s.headsAfterIn ++ [(schedule_swap_in cfg s).1.head] := by
        have h0 : (schedule_swap_out cfg ends n
            (logBlockStartRead ends n (logAfterIn n (schedule_swap_in cfg s)))).1.headsAfterIn
            = (schedule_swap_in cfg s).1.headsAfterIn ++ [(schedule_swap_in cfg s).1.head] :=
          congrArg (fun t => t.2.2.2.2.2.2.1) hfr2
        rw [h0, hHeads1]
      have hSchedIn2 : (schedule_swap_out cfg ends n
          (logBlockStartRead ends n (logAfterIn n (schedule_swap_in cfg s)))).1.schedIn
          = aset s.schedIn n (schedule_swap_in cfg s).2 := by
        have h0 : (schedule_swap_out cfg ends n
            (logBlockStartRead ends n (logAfterIn n (schedule_swap_in cfg s)))).1.schedIn
            = aset (schedule_swap_in cfg s).1.schedIn n (schedule_swap_in cfg s).2 :=
          congrArg (fun t => t.2.2.1) hfr2
        rw [h0, hSchedIn1]
      have hSchedOut2 : (schedule_swap_out cfg ends n
          (logBlockStartRead ends n (logAfterIn n (schedule_swap_in cfg s)))).1.schedOut
          = s.schedOut := by
        have h0 : (schedule_swap_out cfg ends n
            (logBlockStartRead ends n (logAfterIn n (schedule_swap_in cfg s)))).1.schedOut
            = (schedule_swap_in cfg s).1.schedOut :=
          congrArg (fun t => t.2.2.2.1) hfr2
        rw [h0, hSchedOut1]
      rw [if_neg (show ¬ (schedule_swap_out cfg ends n
          (logBlockStartRead ends n (logAfterIn n (schedule_swap_in cfg s)))).1.err.isSome = true
        from by rw [I2.err]; simp)]
      set Q1 := schedule_swap_in cfg s with hQ1
      set Q2 := schedule_swap_out cfg ends n
        (logBlockStartRead ends n (logAfterIn n Q1)) with hQ2
      -- the wait pass
      have I2w : Inv cfg sz dt l (logAfterOut n Q2) ((ends.get? n).getD 0) :=
        Inv_same_core I2 rfl rfl rfl rfl rfl rfl rfl
      have hsumB : Q2.1.usedIn + Q2.1.usedOut ≤ cfg.maxBytesSwapIn := by
        have h1 := I1'.inLe
        have h2 := hsum2
        omega
      obtain ⟨I3a, hOut3a, hOutle3a⟩ := wait_body_false_inv cfg sz dt l
        ((logAfterOut n Q2).ord.length + 1) (logAfterOut n Q2) [] ((ends.get? n).getD 0)
        I2w
        (by show Q2.1.usedOut < wordSize
            have := U.Bword
            omega)
        (by show l.length + 1 - Q2.1.tail ≤ Q2.1.ord.length + 1
            have hlen := I2.len
            omega)
      set Q3 := schedule_wait_for_swap_out cfg (logAfterOut n Q2) with hQ3
      have I3 : Inv cfg sz dt l Q3.1 ((ends.get? n).getD 0) := I3a
      have hOut3 : Q3.1.usedOut ≤ cfg.maxBytesSwapOut := hOut3a
      have hfr3 : waitFrame Q3.1 = waitFrame (logAfterOut n Q2) :=
        wait_body_frame cfg false ((logAfterOut n Q2).ord.length + 1) (logAfterOut n Q2) []
      have hHead3 : Q3.1.head = Q1.1.head := by
        have h0 : Q3.1.head = Q2.1.head := congrArg (fun t => t.1) hfr3
        rw [h0, hHead2]
      have hSnaps3 : Q3.1.snaps = (logAfterOut n Q2).snaps :=
        congrArg (fun t => t.2.2.2.2.2.2.2.1) hfr3
      have hHeads3 : Q3.1.headsAfterIn = s.headsAfterIn ++ [Q1.1.head] := by
        have h0 : Q3.1.headsAfterIn = Q2.1.headsAfterIn :=
          congrArg (fun t => t.2.2.2.2.2.2.2.2.1) hfr3
        rw [h0, hHeads2]
      have hSchedIn3 : Q3.1.schedIn = aset s.schedIn n Q1.2 := by
        have h0 : Q3.1.schedIn = Q2.1.schedIn := congrArg (fun t => t.2.2.2.2.1) hfr3
        rw [h0, hSchedIn2]
      have hSchedOut3 : Q3.1.schedOut = aset s.schedOut n Q2.2 := by
        have h0 : Q3.1.schedOut = aset Q2.1.schedOut n Q2.2 :=
          congrArg (fun t => t.2.2.2.2.2.1) hfr3
        rw [h0, hSchedOut2]
      -- snapshot goodness of the two remaining snapshots
      have houtSnapGood : snapGood cfg (Snap.mk Phase.afterOut n Q2.1.usedIn Q2.1.usedOut) := by
        refine ⟨hsumB, I2.inLe, fun hph => absurd rfl hph⟩
      have hwaitSnapGood : snapGood cfg (Snap.mk Phase.afterWait n Q3.1.usedIn Q3.1.usedOut) := by
        refine ⟨?_, I3.inLe, fun _ => hOut3⟩
        show Q3.1.usedIn + Q3.1.usedOut ≤ cfg.maxBytesSwapIn
        have h1 := I3.inLe
        omega
      -- assembling the invariant for n + 1
      refine ⟨?_, fun _ => ?_⟩
      · intro sn hsn
        have hmemsn : sn ∈ (logAfterOut n Q2).snaps
            ++ [Snap.mk Phase.afterWait n Q3.1.usedIn Q3.1.usedOut] := by
          rw [show (logAfterWait n Q3).snaps
              = Q3.1.snaps ++ [Snap.mk Phase.afterWait n Q3.1.usedIn Q3.1.usedOut] from rfl,
            hSnaps3] at hsn
          exact hsn
        rw [show (logAfterOut n Q2).snaps
            = Q2.1.snaps ++ [Snap.mk Phase.afterOut n Q2.1.usedIn Q2.1.usedOut] from rfl,
          hSnaps2] at hmemsn
        rcases List.mem_append.mp hmemsn with h | h
        · rcases List.mem_append.mp h with h2 | h2
          · exact hsnaps1good sn h2
          · rw [List.mem_singleton] at h2
            rw [h2]
            exact houtSnapGood
        · rw [List.mem_singleton] at h
          rw [h]
          exact hwaitSnapGood
      · have hheads4 : (logAfterWait n Q3).headsAfterIn = s.headsAfterIn ++ [Q1.1.head] :=
          hHeads3
        have hschedIn4 : (logAfterWait n Q3).schedIn = aset s.schedIn n Q1.2 := hSchedIn3
        have hschedOut4 : (logAfterWait n Q3).schedOut = aset s.schedOut n Q2.2 := hSchedOut3
        have hhead4 : (logAfterWait n Q3).head = Q1.1.head := hHead3
        refine ⟨?_, hOut3, ?_, ?_, ?_, ?_⟩
        · rw [blockStart_succ]
          exact Inv_same_core I3 rfl rfl rfl rfl rfl rfl rfl
        · rw [hheads4]
          rw [List.length_append, Hhlen]
          rfl
        · rw [hhead4, hheads4]
          unfold loHead
          rw [if_neg (Nat.succ_ne_zero n)]
          rw [show n + 1 - 1 = n from rfl]
          rw [show (s.headsAfterIn ++ [Q1.1.head]).get? n = some Q1.1.head from by
            rw [← Hhlen]
            exact List.get?_concat_length s.headsAfterIn Q1.1.head]
          rfl
        · intro f hf
          rw [hschedIn4, hschedOut4, schedAt_aset, schedAt_aset]
          rw [if_neg (by omega : ¬ f = n), if_neg (by omega : ¬ f = n)]
          exact Hempty f (by omega)
        · intro f hf j
          rw [hschedIn4, hschedOut4, hheads4, schedAt_aset, schedAt_aset]
          by_cases hfn : f = n
          · subst hfn
            rw [if_pos rfl, if_pos rfl]
            have hgetf : (s.headsAfterIn ++ [Q1.1.head]).get? f = some Q1.1.head := by
              rw [← Hhlen]
              exact List.get?_concat_length s.headsAfterIn Q1.1.head
            have hlof : loHead (s.headsAfterIn ++ [Q1.1.head]) f = s.head := by
              rw [loHead_concat s.headsAfterIn Q1.1.head f (by omega), ← Hhlast]
            constructor
            · rw [hgetf]
              refine (hmem1 j).trans ?_
              rw [hlof]
              simp only [List.not_mem_nil, false_or]
              rfl
            · rw [hgetf]
              refine (hmem2 j).trans ?_
              simp only [List.not_mem_nil, false_or]
              rfl
          · have hfn2 : f < n := by omega
            rw [if_neg hfn, if_neg hfn]
            have hgetf : (s.headsAfterIn ++ [Q1.1.head]).get? f = s.headsAfterIn.get? f :=
              concat_get?_lt s.headsAfterIn Q1.1.head f (by omega)
            have hlof : loHead (s.headsAfterIn ++ [Q1.1.head]) f = loHead s.headsAfterIn f :=
              loHead_concat s.headsAfterIn Q1.1.head f (by omega)
            rw [hgetf, hlof]
            exact Hchar f hfn2 j

/-- The fold invariant holds before the loop starts. -/
theorem FInv_init (cfg : Cfg) (sz dt : Nat → Nat) (order : List RecType) (ends : List Nat)
    (U : Uniform cfg sz dt (schedule_preclear order)) :
    FInv cfg sz dt (schedule_preclear order) ends 0 (planInit order) := by
  have hbs : blockStart ends 0 = 0 := by
    unfold blockStart
    rw [if_pos rfl]
  refine ⟨?_, fun _ => ⟨?_, ?_, rfl, rfl, ?_, ?_⟩⟩
  · intro sn hsn
    cases hsn
  · refine ⟨?_, rfl, ?_, ?_, ?_, ?_, ?_, ?_, ?_, ?_, rfl⟩
    · intro j r0 h0
      exact ⟨r0, h0, rfl, rfl, rfl, rfl, rfl, rfl⟩
    · rw [hbs]
      exact Nat.zero_le _
    · show (0 : Nat) ≤ (schedule_preclear order).length
      exact Nat.zero_le _
    · show (0 : Nat) ≤ blockStart ends 0
      exact Nat.zero_le _
    · intro id
      left
      refine ⟨rfl, ?_⟩
      exact occD_of_le cfg (schedule_preclear order) id
        (by rw [hbs]; exact Nat.le_refl 0)
    · show (0 : Nat) = activeBytes cfg sz dt (schedule_preclear order) (blockStart ends 0) 0
      rw [eq_comm]
      unfold activeBytes
      apply List.sum_eq_zero
      intro x hx
      rcases List.mem_map.mp hx with ⟨id, -, hid⟩
      rw [← hid]
      show (if 0 < occD cfg (schedule_preclear order) id (blockStart ends 0) 0
        then idBytes cfg sz dt id else 0) = 0
      rw [occD_of_le cfg (schedule_preclear order) id (Nat.zero_le _)]
      simp
    · exact Nat.zero_le _
    · show (0 : Nat) = flagBytes (schedule_preclear order)
      rw [eq_comm]
      exact flagBytes_eq_zero _ (fun r hr => (U.flags0 r hr).1)
    · intro j r hj hflag
      exfalso
      have := (U.flags0 r (List.get?_mem hj)).1
      rw [this] at hflag
      cases hflag
  · exact Nat.zero_le _
  · intro f hf
    exact ⟨rfl, rfl⟩
  · intro f hf
    omega

/-- The fold invariant after `m` iterations of the planner loop. -/
theorem planFold_FInv (cfg : Cfg) (sz dt : Nat → Nat) (order : List RecType) (ends : List Nat)
    (U : Uniform cfg sz dt (schedule_preclear order))
    (hmono : ∀ f, f < ends.length → blockStart ends f ≤ (ends.get? f).getD 0)
    (m : Nat) (hm : m ≤ ends.length) :
    FInv cfg sz dt (schedule_preclear order) ends m
      ((List.range m).foldl (fun s fid => planStep cfg ends fid s) (planInit order)) := by
  induction m with
  | zero => exact FInv_init cfg sz dt order ends U
  | succ k ih =>
    rw [List.range_succ, List.foldl_append]
    exact planStep_FInv cfg sz dt (schedule_preclear order) ends U k
      (hmono k (by omega)) _ (ih (by omega))

/-- C1 (amended): for uniform traces — every GETCAST on the host or device
class, device GETCASTs of one id agreeing on size and dtype, byte sizes too
small to wrap the 64-bit arithmetic, non-decreasing block ends — every
snapshot taken at a phase boundary of the planner loop satisfies
`used_bytes_swap_in + used_bytes_swap_out ≤ B` and
`used_bytes_swap_in ≤ B - B/2`, and every snapshot except the one right after
`schedule_swap_out` also satisfies `used_bytes_swap_out ≤ B/2`. -/
theorem c1_budget_amended (cfg : Cfg) (sz dt : Nat → Nat) (order : List RecType)
    (ends : List Nat) (U : Uniform cfg sz dt order)
    (hmono : ∀ f, f < ends.length → blockStart ends f ≤ (ends.get? f).getD 0)
    (sn : Snap) (hsn : sn ∈ (schedulePlan cfg order ends).snaps) :
    sn.usedIn + sn.usedOut ≤ cfg.maxBytesSwapIn ∧
    sn.usedIn ≤ cfg.maxBytesSwapIn - cfg.maxBytesSwapOut ∧
    (sn.phase ≠ Phase.afterOut → sn.usedOut ≤ cfg.maxBytesSwapOut) := by
  have U2 := Uniform_preclear cfg sz dt order U
  have HF := planFold_FInv cfg sz dt order ends U2 hmono (ends.length - 1) (by omega)
  unfold schedulePlan at hsn
  dsimp only at hsn
  set s1 := (List.range (ends.length - 1)).foldl (fun t fid => planStep cfg ends fid t)
    (planInit order) with hs1
  unfold FInv at HF
  obtain ⟨Hsnaps, Hrest⟩ := HF
  by_cases herr : s1.err.isSome = true
  · rw [if_pos herr] at hsn
    exact Hsnaps sn hsn
  · rw [if_neg herr] at hsn
    have hnone : s1.err = none := by
      cases hcase : s1.err with
      | none => rfl
      | some v => rw [hcase] at herr; exact absurd (by simp) herr
    obtain ⟨I, HoutLe, -, -, -, -⟩ := Hrest hnone
    have hmo : cfg.maxBytesSwapOut ≤ cfg.maxBytesSwapIn := by
      unfold Cfg.maxBytesSwapOut
      omega
    have hdrain : (schedule_wait_for_all_swap_out cfg s1).1.usedOut = 0 := by
      apply wait_all_drain cfg (s1.ord.length + 1) s1 []
      · exact I.outEq
      · intro j r hj hflag
        exact (I.located j r hj hflag).1
      · have hBW := U2.Bword
        omega
      · omega
    have hfrW : waitFrame (schedule_wait_for_all_swap_out cfg s1).1 = waitFrame s1 :=
      wait_body_frame cfg true (s1.ord.length + 1) s1 []
    have hInW : (schedule_wait_for_all_swap_out cfg s1).1.usedIn = s1.usedIn :=
      congrArg (fun t => t.2.1) hfrW
    have hSnapsW : (schedule_wait_for_all_swap_out cfg s1).1.snaps = s1.snaps :=
      congrArg (fun t => t.2.2.2.2.2.2.2.1) hfrW
    have hsn2 : sn ∈ (schedule_wait_for_all_swap_out cfg s1).1.snaps ++
        [Snap.mk Phase.afterWaitAll (ends.length - 1 - 1)
          (schedule_wait_for_all_swap_out cfg s1).1.usedIn
          (schedule_wait_for_all_swap_out cfg s1).1.usedOut] := hsn
    rw [hSnapsW] at hsn2
    rcases List.mem_append.mp hsn2 with h | h
    · exact Hsnaps sn h
    · rw [List.mem_singleton] at h
      rw [h]
      refine ⟨?_, ?_, fun _ => ?_⟩
      · show (schedule_wait_for_all_swap_out cfg s1).1.usedIn
            + (schedule_wait_for_all_swap_out cfg s1).1.usedOut ≤ cfg.maxBytesSwapIn
        rw [hdrain, hInW]
        have h1 := I.inLe
        omega
      · show (schedule_wait_for_all_swap_out cfg s1).1.usedIn
            ≤ cfg.maxBytesSwapIn - cfg.maxBytesSwapOut
        rw [hInW]
        exact I.inLe
      · show (schedule_wait_for_all_swap_out cfg s1).1.usedOut ≤ cfg.maxBytesSwapOut
        rw [hdrain]
        exact Nat.zero_le _

/-- C2 (amended): on an error-free uniform planning run, for every function
`f` below `func_block_ends.size() - 1`, `swap_out_schedule[f]` holds exactly
the positions of block `f` whose device GETCAST is the last pending use of
its id below the frontier reached at `f`, and `swap_in_schedule[f]` holds
exactly the positions of the frontier segment scanned during `f`'s swap-in
pass whose device GETCAST has an idle id and saw no host GETCAST on that id
earlier in the same pass; functions at or past `func_block_ends.size() - 1`
(in particular the last block) get no schedule at all. -/
theorem c2_coverage_amended (cfg : Cfg) (sz dt : Nat → Nat) (order : List RecType)
    (ends : List Nat) (U : Uniform cfg sz dt order)
    (hmono : ∀ f, f < ends.length → blockStart ends f ≤ (ends.get? f).getD 0)
    (hok : (schedulePlan cfg order ends).err = none)
    (f j : Nat) (hf : f < ends.length - 1) :
    (j ∈ schedAt (schedulePlan cfg order ends).schedOut f ↔
      blockStart ends f ≤ j ∧ j < (ends.get? f).getD 0 ∧
      outPick cfg (schedule_preclear order)
        (((schedulePlan cfg order ends).headsAfterIn.get? f).getD 0) j) ∧
    (j ∈ schedAt (schedulePlan cfg order ends).schedIn f ↔
      loHead (schedulePlan cfg order ends).headsAfterIn f ≤ j ∧
      j < ((schedulePlan cfg order ends).headsAfterIn.get? f).getD 0 ∧
      inPick cfg (schedule_preclear order) []
        (loHead (schedulePlan cfg order ends).headsAfterIn f) (blockStart ends f) j) ∧
    (∀ f2, ends.length - 1 ≤ f2 →
      schedAt (schedulePlan cfg order ends).schedOut f2 = [] ∧
      schedAt (schedulePlan cfg order ends).schedIn f2 = []) := by
  have U2 := Uniform_preclear cfg sz dt order U
  have HF := planFold_FInv cfg sz dt order ends U2 hmono (ends.length - 1) (by omega)
  unfold schedulePlan at hok ⊢
  dsimp only at hok ⊢
  set s1 := (List.range (ends.length - 1)).foldl (fun t fid => planStep cfg ends fid t)
    (planInit order) with hs1
  unfold FInv at HF
  obtain ⟨Hsnaps, Hrest⟩ := HF
  by_cases herr : s1.err.isSome = true
  · rw [if_pos herr] at hok
    rw [hok] at herr
    exact absurd herr (by simp)
  · rw [if_neg herr] at hok ⊢
    have hnone : s1.err = none := by
      cases hcase : s1.err with
      | none => rfl
      | some v => rw [hcase] at herr; exact absurd (by simp) herr
    obtain ⟨I, HoutLe, Hhlen, Hhlast, Hempty, Hchar⟩ := Hrest hnone
    have hfrW : waitFrame (schedule_wait_for_all_swap_out cfg s1).1 = waitFrame s1 :=
      wait_body_frame cfg true (s1.ord.length + 1) s1 []
    have hFin : (schedule_wait_for_all_swap_out cfg s1).1.schedIn = s1.schedIn :=
      congrArg (fun t => t.2.2.2.2.1) hfrW
    have hFout : (schedule_wait_for_all_swap_out cfg s1).1.schedOut = s1.schedOut :=
      congrArg (fun t => t.2.2.2.2.2.1) hfrW
    have hFhd : (schedule_wait_for_all_swap_out cfg s1).1.headsAfterIn = s1.headsAfterIn :=
      congrArg (fun t => t.2.2.2.2.2.2.2.2.1) hfrW
    show (j ∈ schedAt (schedule_wait_for_all_swap_out cfg s1).1.schedOut f ↔
        blockStart ends f ≤ j ∧ j < (ends.get? f).getD 0 ∧
        outPick cfg (schedule_preclear order)
          (((schedule_wait_for_all_swap_out cfg s1).1.headsAfterIn.get? f).getD 0) j) ∧
      (j ∈ schedAt (schedule_wait_for_all_swap_out cfg s1).1.schedIn f ↔
        loHead (schedule_wait_for_all_swap_out cfg s1).1.headsAfterIn f ≤ j ∧
        j < ((schedule_wait_for_all_swap_out cfg s1).1.headsAfterIn.get? f).getD 0 ∧
        inPick cfg (schedule_preclear order) []
          (loHead (schedule_wait_for_all_swap_out cfg s1).1.headsAfterIn f)
          (blockStart ends f) j) ∧
      (∀ f2, ends.length - 1 ≤ f2 →
        schedAt (schedule_wait_for_all_swap_out cfg s1).1.schedOut f2 = [] ∧
        schedAt (schedule_wait_for_all_swap_out cfg s1).1.schedIn f2 = [])
    rw [hFin, hFout, hFhd]
    exact ⟨(Hchar f hf j).2, (Hchar f hf j).1,
      fun f2 hf2 => ⟨(Hempty f2 (by omega)).2, (Hempty f2 (by omega)).1⟩⟩

/-- C8 (amended): the host pin only suppresses prefetches within a single
`schedule_swap_in` call — a position scheduled for prefetch during function
`f`'s pass is never preceded, within the same pass's scan range, by a host
GETCAST on the same id. (That the pin does not persist across function
boundaries is the corrected part, witnessed by the counterexample.) -/
theorem c8_pin_amended (cfg : Cfg) (sz dt : Nat → Nat) (order : List RecType)
    (ends : List Nat) (U : Uniform cfg sz dt order)
    (hmono : ∀ f, f < ends.length → blockStart ends f ≤ (ends.get? f).getD 0)
    (hok : (schedulePlan cfg order ends).err = none)
    (f j : Nat) (hf : f < ends.length - 1)
    (hj : j ∈ schedAt (schedulePlan cfg order ends).schedIn f)
    (k : Nat) (hk1 : loHead (schedulePlan cfg order ends).headsAfterIn f ≤ k) (hk2 : k < j)
    (r0 rk : RecType)
    (hr0 : (schedule_preclear order).get? j = some r0)
    (hrk : (schedule_preclear order).get? k = some rk)
    (hktag : rk.tag = RecTag.getcast) (hkctx : rk.ctxClass = cfg.hostClass) :
    rk.said ≠ r0.said := by
  have U2 := Uniform_preclear cfg sz dt order U
  have HF := planFold_FInv cfg sz dt order ends U2 hmono (ends.length - 1) (by omega)
  unfold schedulePlan at hok hj hk1
  dsimp only at hok hj hk1
  set s1 := (List.range (ends.length - 1)).foldl (fun t fid => planStep cfg ends fid t)
    (planInit order) with hs1
  unfold FInv at HF
  obtain ⟨Hsnaps, Hrest⟩ := HF
  by_cases herr : s1.err.isSome = true
  · rw [if_pos herr] at hok
    rw [hok] at herr
    exact absurd herr (by simp)
  · rw [if_neg herr] at hok hj hk1
    have hnone : s1.err = none := by
      cases hcase : s1.err with
      | none => rfl
      | some v => rw [hcase] at herr; exact absurd (by simp) herr
    obtain ⟨I, HoutLe, Hhlen, Hhlast, Hempty, Hchar⟩ := Hrest hnone
    have hfrW : waitFrame (schedule_wait_for_all_swap_out cfg s1).1 = waitFrame s1 :=
      wait_body_frame cfg true (s1.ord.length + 1) s1 []
    have hFin : (schedule_wait_for_all_swap_out cfg s1).1.schedIn = s1.schedIn :=
      congrArg (fun t => t.2.2.2.2.1) hfrW
    have hFhd : (schedule_wait_for_all_swap_out cfg s1).1.headsAfterIn = s1.headsAfterIn :=
      congrArg (fun t => t.2.2.2.2.2.2.2.2.1) hfrW
    have hj2 : j ∈ schedAt s1.schedIn f := by
      have : j ∈ schedAt (schedule_wait_for_all_swap_out cfg s1).1.schedIn f := hj
      rw [hFin] at this
      exact this
    have hk1b : loHead s1.headsAfterIn f ≤ k := by
      have : loHead (schedule_wait_for_all_swap_out cfg s1).1.headsAfterIn f ≤ k := hk1
      rw [hFhd] at this
      exact this
    obtain ⟨-, -, hpick⟩ := ((Hchar f hf j).1).mp hj2
    obtain ⟨rr, hrr, -, -, -, -, hnohost⟩ := hpick
    rw [hr0] at hrr
    cases hrr
    intro hsame
    have := hnohost k hk1b hk2
    rw [(hostIdAt_iff cfg (schedule_preclear order) hrk r0.said).mpr
      ⟨hktag, hkctx, hsame⟩] at this
    cases this

def traceF : List RecType := [mkGet 1 1 0 0, mkGet 0 1 0 1]
def endsF : List Nat := [2, 2]

theorem c1_budget_amended_witness :
    (Snap.mk Phase.afterOut 1 0 6).usedIn + (Snap.mk Phase.afterOut 1 0 6).usedOut
      ≤ cfgA.maxBytesSwapIn ∧
    (Snap.mk Phase.afterOut 1 0 6).usedIn
      ≤ cfgA.maxBytesSwapIn - cfgA.maxBytesSwapOut ∧
    ((Snap.mk Phase.afterOut 1 0 6).phase ≠ Phase.afterOut →
      (Snap.mk Phase.afterOut 1 0 6).usedOut ≤ cfgA.maxBytesSwapOut) :=
  c1_budget_amended cfgA (fun _ => 3) (fun _ => 0) traceA endsA
    ⟨by decide, by decide, by decide, by decide, by decide, by decide⟩
    (by decide) (Snap.mk Phase.afterOut 1 0 6) (by decide)

theorem c2_coverage_amended_witness :
    ((0 : Nat) ∈ schedAt (schedulePlan cfgA traceA endsA).schedOut 0 ↔
      blockStart endsA 0 ≤ 0 ∧ 0 < (endsA.get? 0).getD 0 ∧
      outPick cfgA (schedule_preclear traceA)
        (((schedulePlan cfgA traceA endsA).headsAfterIn.get? 0).getD 0) 0) ∧
    ((0 : Nat) ∈ schedAt (schedulePlan cfgA traceA endsA).schedIn 0 ↔
      loHead (schedulePlan cfgA traceA endsA).headsAfterIn 0 ≤ 0 ∧
      0 < ((schedulePlan cfgA traceA endsA).headsAfterIn.get? 0).getD 0 ∧
      inPick cfgA (schedule_preclear traceA) []
        (loHead (schedulePlan cfgA traceA endsA).headsAfterIn 0) (blockStart endsA 0) 0) ∧
    (∀ f2, endsA.length - 1 ≤ f2 →
      schedAt (schedulePlan cfgA traceA endsA).schedOut f2 = [] ∧
      schedAt (schedulePlan cfgA traceA endsA).schedIn f2 = []) :=
  c2_coverage_amended cfgA (fun _ => 3) (fun _ => 0) traceA endsA
    ⟨by decide, by decide, by decide, by decide, by decide, by decide⟩
    (by decide) (by decide) 0 0 (by decide)

theorem c8_pin_amended_witness :
    (mkGet 1 1 0 0).said ≠ (mkGet 0 1 0 1).said :=
  c8_pin_amended cfgD (fun _ => 1) (fun _ => 0) traceF endsF
    ⟨by decide, by decide, by decide, by decide, by decide, by decide⟩
    (by decide) (by decide) 0 1 (by decide) (by decide) 0 (by decide) (by decide)
    (mkGet 0 1 0 1) (mkGet 1 1 0 0) (by decide) (by decide) (by decide) (by decide)

end SIOS
